import Mathlib

/-!
# Loongson SPI master and LS1C watchdog drivers

A shallow embedding of `drivers/spi/loongson_spi.c` and
`drivers/watchdog/ls1c_wdt.c`.

* The register window of each device is a record of register values together
  with the list of bus accesses performed so far (`log`).
* The SPI status register `SPSR` and data register `SPDR` are not plain
  storage: what a read returns is decided by the peripheral.  A read takes the
  next value of a finite script (`spsr_in`, `spdr_in`) and, once the script is
  used up, the constant value `spsr_idle` / `spdr_idle`.
* Machine integers are natural numbers reduced modulo the width of the C type
  at every store (`u8` registers, `u32` registers and fields, `u64` timeout).
* Executions with no defined result (division by zero, a shift by the width of
  the type, a polling loop that never ends, a buffer that is too short) are
  values of `Fault`.
-/

namespace Loongson

/-! ## Bus accesses and faults -/

/-- One access to a memory-mapped register: the register offset and the value
read or written (already truncated to the width of the access). -/
inductive Access where
  | rd (off val : Nat)
  | wr (off val : Nat)
deriving DecidableEq, Repr

/-- Executions of the C code that do not return a value. -/
inductive Fault where
  | div_by_zero
  | undefined_shift
  | hang
  | overrun
deriving DecidableEq, Repr

/-! ## Helpers of the host environment -/

/-- Modelled from the spec: `BIT(n)` of `linux/bitops.h` is `1UL << n`; the spec
names the bits by position ("bit 6 enable, bit 3 CPOL, bit 2 CPHA"). -/
def BIT (n : Nat) : Nat := 1 <<< n

/-- Modelled from the spec: `EINVAL` of `errno.h`, the "invalid-argument
error". -/
def EINVAL : Int := 22

/-- Modelled from the spec: `SPI_CPHA` of `spi.h`, the clock-phase mode flag. -/
def SPI_CPHA : Nat := BIT 0

/-- Modelled from the spec: `SPI_CPOL` of `spi.h`, the clock-polarity mode
flag. -/
def SPI_CPOL : Nat := BIT 1

/-- Modelled from the spec: `SPI_XFER_BEGIN` of `spi.h`, the BEGIN transfer
flag. -/
def SPI_XFER_BEGIN : Nat := BIT 0

/-- Modelled from the spec: `SPI_XFER_END` of `spi.h`, the END transfer flag. -/
def SPI_XFER_END : Nat := BIT 1

/-- Bitwise complement of a 32-bit value (`~x`). -/
def not32 (x : Nat) : Nat := 0xFFFFFFFF ^^^ (x % 2 ^ 32)

/-- The highest `i ≤ k` with `2^(i-1) ≤ x`, found by scanning down from bit
`k - 1`; `0` when there is none. -/
def fls_scan : Nat → Nat → Nat
  | 0, _ => 0
  | k + 1, x => if 2 ^ k ≤ x then k + 1 else fls_scan k x

/-- Modelled from the spec: `fls` of `linux/bitops.h`, the 1-based position of
the most significant set bit of a 32-bit word, `0` for the word `0`. -/
def fls (x : Nat) : Nat := fls_scan 32 x

/-- Modelled from the spec: `DIV_ROUND_UP(n, d)` of `linux/kernel.h`, that is
`(n + d - 1) / d` on `u32` operands; the spec calls it "the minimum integer
divisor `d = ceil(R / S)`".  The sum wraps at `2^32`; dividing by zero has no
result. -/
def DIV_ROUND_UP (n d : Nat) : Except Fault Nat :=
  if d = 0 then .error .div_by_zero else .ok ((n + d - 1) % 2 ^ 32 / d)

/-- Modelled from the spec: `roundup_pow_of_two(n)` of `linux/log2.h`, that is
`1UL << fls_long(n - 1)` with a 32-bit `unsigned long`; the spec says "round
`d` up to the next power of two".  The shift has no result when
`fls_long(n - 1) = 32`, which is the case for `n = 0` and for `n > 2^31`. -/
def roundup_pow_of_two (n : Nat) : Except Fault Nat :=
  let k := fls ((n + 2 ^ 32 - 1) % 2 ^ 32)
  if k < 32 then .ok (1 <<< k) else .error .undefined_shift

/-- Modelled from the spec: `ilog2(n)` of `linux/log2.h` for a `u32` argument,
that is `fls(n) - 1` stored in a `u32`; the spec's exponent `e` with
`d' = 2^e`. -/
def ilog2 (n : Nat) : Nat := (fls n + 2 ^ 32 - 1) % 2 ^ 32

/-! ## SPI controller: register window -/

def SPCR : Nat := 0
def SPSR : Nat := 1
def SPDR : Nat := 2
def SPER : Nat := 3
def SFC_PARAM : Nat := 4
def SFC_SOFTCS : Nat := 5
def SFC_TIMING : Nat := 6

def SPCR_SPE : Nat := BIT 6
def SPCR_CPOL : Nat := BIT 3
def SPCR_CPHA : Nat := BIT 2

def SPSR_WCOL : Nat := BIT 6
def SPSR_WFFULL : Nat := BIT 3
def SPSR_WFEMPTY : Nat := BIT 2
def SPSR_RFFULL : Nat := BIT 1
def SPSR_RFEMPTY : Nat := BIT 0

def SPCR_SPR_MASK : Nat := 0x3
def SPER_SPRE_MASK : Nat := 0x3

def SPI_NUM_CS : Int := 4

/-- The simulated register window of the SPI controller.  `spcr` .. `sfc_timing`
hold the value last written to each register; reads of `SPSR` and `SPDR` are
answered by the peripheral from `spsr_in` / `spdr_in` and, after these are used
up, by `spsr_idle` / `spdr_idle`. -/
structure Bank where
  spcr : Nat
  spsr : Nat
  spdr : Nat
  sper : Nat
  sfc_param : Nat
  sfc_softcs : Nat
  sfc_timing : Nat
  spsr_in : List Nat
  spsr_idle : Nat
  spdr_in : List Nat
  spdr_idle : Nat
  log : List Access
deriving DecidableEq, Repr

/-- `struct loongson_spi`: the private data of one controller instance. -/
structure loongson_spi where
  regs : Nat
  sys_freq : Nat
  mode : Nat
  speed : Nat
deriving DecidableEq, Repr

/-- `writeb(v, priv->regs + off)`: store the low eight bits of `v`. -/
def writeb (v off : Nat) (hw : Bank) : Bank :=
  let b := v % 256
  let hw := { hw with log := hw.log ++ [Access.wr off b] }
  if off = SPCR then { hw with spcr := b }
  else if off = SPSR then { hw with spsr := b }
  else if off = SPDR then { hw with spdr := b }
  else if off = SPER then { hw with sper := b }
  else if off = SFC_PARAM then { hw with sfc_param := b }
  else if off = SFC_SOFTCS then { hw with sfc_softcs := b }
  else if off = SFC_TIMING then { hw with sfc_timing := b }
  else hw

/-- `readb(priv->regs + off)`: the byte the device returns, and the device
afterwards. -/
def readb (off : Nat) (hw : Bank) : Nat × Bank :=
  if off = SPSR then
    match hw.spsr_in with
    | v :: rest =>
      (v % 256, { hw with spsr_in := rest, log := hw.log ++ [Access.rd off (v % 256)] })
    | [] =>
      (hw.spsr_idle % 256, { hw with log := hw.log ++ [Access.rd off (hw.spsr_idle % 256)] })
  else if off = SPDR then
    match hw.spdr_in with
    | v :: rest =>
      (v % 256, { hw with spdr_in := rest, log := hw.log ++ [Access.rd off (v % 256)] })
    | [] =>
      (hw.spdr_idle % 256, { hw with log := hw.log ++ [Access.rd off (hw.spdr_idle % 256)] })
  else
    let v :=
      (if off = SPCR then hw.spcr
       else if off = SPER then hw.sper
       else if off = SFC_PARAM then hw.sfc_param
       else if off = SFC_SOFTCS then hw.sfc_softcs
       else if off = SFC_TIMING then hw.sfc_timing
       else 0) % 256
    (v, { hw with log := hw.log ++ [Access.rd off v] })

/-- Modelled from the spec: `clrbits_8(addr, clear)` of `asm/io.h`, the
read-modify-write `writeb(readb(addr) & ~clear, addr)`. -/
def clrbits_8 (off clear : Nat) (hw : Bank) : Bank :=
  let r := readb off hw
  writeb (r.1 &&& not32 clear) off r.2

/-- Modelled from the spec: `setbits_8(addr, set)` of `asm/io.h`, the
read-modify-write `writeb(readb(addr) | set, addr)`. -/
def setbits_8 (off set : Nat) (hw : Bank) : Bank :=
  let r := readb off hw
  writeb (r.1 ||| set) off r.2

/-! ## SPI controller: driver functions -/

/-- `loongson_spi_master_setup`.  The two helper macros that have no result on
some arguments are sequenced with `Except.bind`. -/
def loongson_spi_master_setup (priv : loongson_spi) (hw : Bank) (_cs : Int) :
    Except Fault (loongson_spi × Bank) :=
  (DIV_ROUND_UP priv.sys_freq priv.speed).bind fun rate =>
  (roundup_pow_of_two rate).bind fun rate =>
  let scale := ilog2 rate
  let priv := { priv with speed := priv.sys_freq >>> scale }
  let hw := clrbits_8 SPCR SPCR_SPE hw
  let hw := writeb 0 SPSR hw
  let r := readb SPCR hw
  let hw := writeb ((r.1 &&& not32 SPCR_SPR_MASK) ||| (scale &&& SPCR_SPR_MASK)) SPCR r.2
  let r := readb SPER hw
  let hw := writeb ((r.1 &&& not32 SPER_SPRE_MASK) ||| ((scale >>> 2) &&& SPER_SPRE_MASK))
    SPER r.2
  let hw :=
    if priv.mode &&& SPI_CPOL ≠ 0 then setbits_8 SPCR SPCR_CPOL hw
    else clrbits_8 SPCR SPCR_CPOL hw
  let hw :=
    if priv.mode &&& SPI_CPHA ≠ 0 then setbits_8 SPCR SPCR_CPHA hw
    else clrbits_8 SPCR SPCR_CPHA hw
  let hw := setbits_8 SPCR SPCR_SPE hw
  .ok (priv, hw)

/-- `loongson_spi_set_cs`. -/
def loongson_spi_set_cs (priv : loongson_spi) (hw : Bank) (cs : Int) (enable : Bool) :
    Except Fault (loongson_spi × Bank) :=
  (if enable then loongson_spi_master_setup priv hw cs else .ok (priv, hw)).bind fun s =>
  if enable then .ok (s.1, clrbits_8 SFC_SOFTCS (0x1 <<< (cs + 4).toNat) s.2)
  else .ok (s.1, setbits_8 SFC_SOFTCS (0x1 <<< (cs + 4).toNat) s.2)

/-- `loongson_spi_set_mode`: the return value, the instance and the register
window afterwards.  The body stores the `uint` argument and returns; it has no
`readb` or `writeb`. -/
def loongson_spi_set_mode (priv : loongson_spi) (hw : Bank) (mode : Nat) :
    Int × loongson_spi × Bank :=
  let priv := { priv with mode := mode % 2 ^ 32 }
  (0, priv, hw)

/-- `loongson_spi_set_speed`: the return value, the instance and the register
window afterwards.  The body stores the `uint` argument and returns; it has no
`readb` or `writeb`. -/
def loongson_spi_set_speed (priv : loongson_spi) (hw : Bank) (speed : Nat) :
    Int × loongson_spi × Bank :=
  let priv := { priv with speed := speed % 2 ^ 32 }
  (0, priv, hw)

/-- The loop `while (readb(priv->regs + SPSR) & SPSR_RFEMPTY);` of
`loongson_spi_xfer`.  The first argument bounds the number of reads.  With the
bound `hw.spsr_in.length + 1` the last permitted read is answered by
`spsr_idle`, as every later read would be, so reaching the bound is exactly the
case in which the C loop does not end. -/
def poll_rfempty : Nat → Bank → Except Fault Bank
  | 0, _ => .error .hang
  | n + 1, hw =>
    let r := readb SPSR hw
    if r.1 &&& SPSR_RFEMPTY ≠ 0 then poll_rfempty n r.2 else .ok r.2

/-- The transmit half of one pass of the loop of `loongson_spi_xfer`: the byte
to write to SPDR (`*out_buffer`, or `0xff` for a null `dout`) and `out_buffer`
afterwards.  `out` is the memory at `out_buffer`, `none` for a null pointer. -/
def xfer_tx (out : Option (List Nat)) : Except Fault (Nat × Option (List Nat)) :=
  match out with
  | none => .ok (0xff, none)
  | some [] => .error .overrun
  | some (b :: t) => .ok (b, some t)

/-- The receive half of one pass of the loop of `loongson_spi_xfer`: store the
byte `v` read from SPDR at `in_buffer` and advance, or drop it for a null
`din`.  `inb` is the memory at `din` split at `in_buffer` into the bytes before
and from the pointer, `none` for a null pointer. -/
def xfer_rx (inb : Option (List Nat × List Nat)) (v : Nat) :
    Except Fault (Option (List Nat × List Nat)) :=
  match inb with
  | none => .ok none
  | some (_, []) => .error .overrun
  | some (pre, _ :: rest) => .ok (some (pre ++ [v], rest))

/-- The loop `while (total_size) { ... total_size--; }` of `loongson_spi_xfer`. -/
def xfer_loop : Nat → Bank → Option (List Nat) → Option (List Nat × List Nat) →
    Except Fault (Bank × Option (List Nat))
  | 0, hw, _, inb => .ok (hw, inb.map fun p => p.1 ++ p.2)
  | n + 1, hw, out, inb =>
    (xfer_tx out).bind fun tx =>
    (poll_rfempty ((writeb tx.1 SPDR hw).spsr_in.length + 1) (writeb tx.1 SPDR hw)).bind fun hw =>
    (xfer_rx inb (readb SPDR hw).1).bind fun inb =>
    xfer_loop n (readb SPDR hw).2 tx.2 inb

/-- `loongson_spi_xfer`.  `cs` is `spi_chip_select(dev)`.  The result is the
return value, the instance and the device afterwards, and the memory at
`din`. -/
def loongson_spi_xfer (priv : loongson_spi) (hw : Bank) (cs : Int) (bitlen : Nat)
    (dout din : Option (List Nat)) (flags : Nat) :
    Except Fault (Int × loongson_spi × Bank × Option (List Nat)) :=
  if cs < 0 ∨ cs ≥ SPI_NUM_CS then .ok (-EINVAL, priv, hw, din)
  else
    (if flags &&& SPI_XFER_BEGIN ≠ 0 then loongson_spi_set_cs priv hw cs true
     else .ok (priv, hw)).bind fun s =>
    (xfer_loop ((bitlen % 2 ^ 32) >>> 3) s.2 dout (din.map fun l => ([], l))).bind fun t =>
    (if flags &&& SPI_XFER_END ≠ 0 then loongson_spi_set_cs s.1 t.1 cs false
     else .ok (s.1, t.1)).bind fun u =>
    .ok (0, u.1, u.2, t.2)

/-- `loongson_spi_probe`.  `addr` is `dev_remap_addr(dev)`, `0` for an empty
mapping. -/
def loongson_spi_probe (priv : loongson_spi) (hw : Bank) (addr : Nat) :
    Int × loongson_spi × Bank :=
  let priv := { priv with regs := addr }
  if priv.regs = 0 then (-EINVAL, priv, hw)
  else
    let priv := { priv with sys_freq := 120000000 }
    let hw := writeb (BIT 0) SFC_PARAM hw
    let hw := writeb 0xff SFC_SOFTCS hw
    (0, priv, hw)

/-! ## Watchdog -/

def TIMER_FREQ : Nat := 120000000
def TIMER_MASK : Nat := 0xffffffff

def WDT_EN : Nat := 0x00
def WDT_TIMER : Nat := 0x04
def WDT_SET : Nat := 0x08

def TIMER_ENABLE : Nat := BIT 0

/-- The simulated register window of the watchdog: three 32-bit registers that
read back what was last written, and the accesses performed so far. -/
structure WdtBank where
  wdt_en : Nat
  wdt_timer : Nat
  wdt_set : Nat
  log : List Access
deriving DecidableEq, Repr

/-- `struct ls1c_wdt`: the private data of one watchdog instance. -/
structure ls1c_wdt where
  regs : Nat
  timeout : Nat
deriving DecidableEq, Repr

/-- `writel(v, priv->regs + off)`: store the low 32 bits of `v`. -/
def writel (v off : Nat) (hw : WdtBank) : WdtBank :=
  let w := v % 2 ^ 32
  let hw := { hw with log := hw.log ++ [Access.wr off w] }
  if off = WDT_EN then { hw with wdt_en := w }
  else if off = WDT_TIMER then { hw with wdt_timer := w }
  else if off = WDT_SET then { hw with wdt_set := w }
  else hw

/-- `readl(priv->regs + off)`. -/
def readl (off : Nat) (hw : WdtBank) : Nat × WdtBank :=
  let v :=
    (if off = WDT_EN then hw.wdt_en
     else if off = WDT_TIMER then hw.wdt_timer
     else if off = WDT_SET then hw.wdt_set
     else 0) % 2 ^ 32
  (v, { hw with log := hw.log ++ [Access.rd off v] })

/-- Modelled from the spec: `setbits_32(addr, set)` of `asm/io.h`, the
read-modify-write `writel(readl(addr) | set, addr)`. -/
def setbits_32 (off set : Nat) (hw : WdtBank) : WdtBank :=
  let r := readl off hw
  writel (r.1 ||| set) off r.2

/-- Modelled from the spec: `clrbits_32(addr, clear)` of `asm/io.h`, the
read-modify-write `writel(readl(addr) & ~clear, addr)`. -/
def clrbits_32 (off clear : Nat) (hw : WdtBank) : WdtBank :=
  let r := readl off hw
  writel (r.1 &&& not32 clear) off r.2

/-- `ls1c_wdt_ping`.  `val` is a `u64`: the product wraps at `2^64`;
`do_div(val, 1000)` replaces `val` by its quotient. -/
def ls1c_wdt_ping (priv : ls1c_wdt) (hw : WdtBank) : WdtBank :=
  let val := (TIMER_FREQ * priv.timeout) % 2 ^ 64
  let val := val / 1000
  let val := if val > TIMER_MASK then TIMER_MASK else val
  let hw := writel val WDT_TIMER hw
  setbits_32 WDT_SET TIMER_ENABLE hw

/-- `ls1c_wdt_start`. -/
def ls1c_wdt_start (priv : ls1c_wdt) (hw : WdtBank) (ms : Nat) (_flags : Nat) :
    Int × ls1c_wdt × WdtBank :=
  let priv := { priv with timeout := ms % 2 ^ 64 }
  let hw := setbits_32 WDT_EN TIMER_ENABLE hw
  let hw := ls1c_wdt_ping priv hw
  (0, priv, hw)

/-- `ls1c_wdt_stop`. -/
def ls1c_wdt_stop (priv : ls1c_wdt) (hw : WdtBank) : Int × ls1c_wdt × WdtBank :=
  (0, priv, clrbits_32 WDT_EN TIMER_ENABLE hw)

/-- `ls1c_wdt_reset`. -/
def ls1c_wdt_reset (priv : ls1c_wdt) (hw : WdtBank) : Int × ls1c_wdt × WdtBank :=
  (0, priv, ls1c_wdt_ping priv hw)

/-- `ls1c_wdt_expire`. -/
def ls1c_wdt_expire (priv : ls1c_wdt) (hw : WdtBank) (flags : Nat) :
    Int × ls1c_wdt × WdtBank :=
  let r := ls1c_wdt_start priv hw 1 flags
  (0, r.2.1, r.2.2)

/-- `ls1c_wdt_probe`.  `addr` is `dev_remap_addr(dev)`, `0` for an empty
mapping. -/
def ls1c_wdt_probe (priv : ls1c_wdt) (hw : WdtBank) (addr : Nat) :
    Int × ls1c_wdt × WdtBank :=
  let priv := { priv with regs := addr }
  if priv.regs = 0 then (-EINVAL, priv, hw)
  else
    let r := ls1c_wdt_stop priv hw
    (0, r.2.1, r.2.2)

/-- Scenario D of the watchdog: `n` successive refreshes. -/
def ls1c_wdt_refreshes : Nat → ls1c_wdt × WdtBank → ls1c_wdt × WdtBank
  | 0, s => s
  | n + 1, s =>
    let r := ls1c_wdt_reset s.1 s.2
    ls1c_wdt_refreshes n (r.2.1, r.2.2)

/-! ## Functions used to state the lemmas -/

/-- The tick count `ls1c_wdt_ping` writes for a recorded timeout. -/
def wdt_ticks (timeout : Nat) : Nat :=
  (if (TIMER_FREQ * timeout) % 2 ^ 64 / 1000 > TIMER_MASK then TIMER_MASK
   else (TIMER_FREQ * timeout) % 2 ^ 64 / 1000) % 2 ^ 32

/-- What `loongson_spi_master_setup` does to the registers: from the values
`v`, `w` read from SPCR and SPER, the exponent `scale` and the two mode bits,
the final SPCR, the final SPER and the accesses in program order. -/
def setup_effect (v w scale : Nat) (cpol cpha : Bool) : Nat × Nat × List Access :=
  let v1 := (v &&& not32 SPCR_SPE) % 256
  let v2 := ((v1 &&& not32 SPCR_SPR_MASK) ||| (scale &&& SPCR_SPR_MASK)) % 256
  let w1 := ((w &&& not32 SPER_SPRE_MASK) ||| ((scale >>> 2) &&& SPER_SPRE_MASK)) % 256
  let v3 := if cpol then (v2 ||| SPCR_CPOL) % 256 else (v2 &&& not32 SPCR_CPOL) % 256
  let v4 := if cpha then (v3 ||| SPCR_CPHA) % 256 else (v3 &&& not32 SPCR_CPHA) % 256
  let v5 := (v4 ||| SPCR_SPE) % 256
  (v5, w1,
    [Access.rd SPCR v, Access.wr SPCR v1, Access.wr SPSR 0,
     Access.rd SPCR v1, Access.wr SPCR v2, Access.rd SPER w, Access.wr SPER w1,
     Access.rd SPCR v2, Access.wr SPCR v3, Access.rd SPCR v3, Access.wr SPCR v4,
     Access.rd SPCR v4, Access.wr SPCR v5])

/-- The registers the byte loop never writes, and the idle values of the
peripheral, agree in two states of the device. -/
def same_config (a b : Bank) : Prop :=
  a.spcr = b.spcr ∧ a.spsr = b.spsr ∧ a.sper = b.sper ∧ a.sfc_param = b.sfc_param ∧
  a.sfc_softcs = b.sfc_softcs ∧ a.sfc_timing = b.sfc_timing ∧
  a.spsr_idle = b.spsr_idle ∧ a.spdr_idle = b.spdr_idle

/-- The values returned by one run of the polling loop: every value but the
last has RX-FIFO-empty set, the last has it clear. -/
def good_polls (l : List Nat) : Prop :=
  ∃ busy last, l = busy ++ [last] ∧ (∀ x ∈ busy, x &&& SPSR_RFEMPTY ≠ 0) ∧
    last &&& SPSR_RFEMPTY = 0

/-- The accesses of one pass of the byte loop, for the byte written to SPDR,
the values read from SPSR and the byte read from SPDR. -/
def byte_trace (b : Nat × List Nat × Nat) : List Access :=
  Access.wr SPDR b.1 :: (b.2.1.map (Access.rd SPSR) ++ [Access.rd SPDR b.2.2])

/-- The bytes an `n`-byte transfer has to write to SPDR: the first `n` bytes at
`dout`, or `n` times `0xff` for a null `dout`. -/
def tx_bytes (n : Nat) (out : Option (List Nat)) : List Nat :=
  match out with
  | none => List.replicate n 0xff
  | some l => (l.take n).map (· % 256)

/-- The values the next `n` reads of a scripted register return. -/
def script_reads : Nat → List Nat → Nat → List Nat
  | 0, _, _ => []
  | n + 1, [], idle => idle % 256 :: script_reads n [] idle
  | n + 1, v :: rest, idle => v % 256 :: script_reads n rest idle

/-- The values written to SPDR, in order, in a list of accesses. -/
def spdr_writes : List Access → List Nat
  | [] => []
  | Access.wr off v :: t => if off = SPDR then v :: spdr_writes t else spdr_writes t
  | Access.rd _ _ :: t => spdr_writes t

/-- A status value with RX-FIFO-empty clear. -/
def rx_ready (v : Nat) : Bool := (v % 256) &&& SPSR_RFEMPTY == 0

/-- The environment lets an `n`-byte transfer complete: the peripheral reports
a received byte at least `n` times (or reports one whenever idle), and the
buffers hold `n` bytes. -/
def ready (n : Nat) (hw : Bank) (out : Option (List Nat)) (inb : Option (List Nat)) : Prop :=
  (rx_ready hw.spsr_idle = true ∨ n ≤ (hw.spsr_in.filter rx_ready).length) ∧
  (∀ l, out = some l → n ≤ l.length) ∧ (∀ l, inb = some l → n ≤ l.length)

/-- The exponent read back from the registers: `(SPER[1:0] << 2) | SPCR[1:0]`. -/
def programmed_exponent (hw : Bank) : Nat :=
  ((hw.sper &&& 3) <<< 2) ||| (hw.spcr &&& 3)

/-- The spec's `ceil(log2(d))`: the number of powers of two below `d`. -/
def spec_ceil_log2 (d : Nat) : Nat :=
  ((List.range 64).filter (fun e => 2 ^ e < d)).length

/-- The spec's exponent for a requested speed `S`:
`e = ceil(log2(ceil(120 MHz / S)))`, clamped to `[0, 15]`. -/
def spec_exponent (S : Nat) : Nat :=
  min 15 (spec_ceil_log2 ((120000000 + S - 1) / S))

/-- A register window in which every register holds zero, no access has been
made, and the peripheral has nothing scripted and reports and returns zero
when idle. -/
def zero_bank : Bank :=
  { spcr := 0, spsr := 0, spdr := 0, sper := 0, sfc_param := 0, sfc_softcs := 0,
    sfc_timing := 0, spsr_in := [], spsr_idle := 0, spdr_in := [], spdr_idle := 0, log := [] }

/-- The clock-derivation test of the spec: probe a controller on `zero_bank`,
`set_speed(S)`, then a BEGIN transfer of no bytes on chip select 0.  The result
is the stored speed and the exponent read back from the registers. -/
def clock_test (S : Nat) : Option (Nat × Nat) :=
  let p := loongson_spi_probe ⟨0, 0, 0, 0⟩ zero_bank 0x1fe80000
  let q := loongson_spi_set_speed p.2.1 p.2.2 S
  (loongson_spi_xfer q.2.1 q.2.2 0 0 none none
    SPI_XFER_BEGIN).toOption.map fun r => (r.2.1.speed, programmed_exponent r.2.2.1)

/-- The values read from the register at offset `off`, in order, in a list of
accesses. -/
def reg_reads (off : Nat) : List Access → List Nat
  | [] => []
  | Access.rd o v :: t => if o = off then v :: reg_reads off t else reg_reads off t
  | Access.wr _ _ :: t => reg_reads off t

/-- The simulated SPSR of the polled-byte-loop test: for each byte a segment
`(busy, last)`, the values reported while the RX FIFO is empty and the value
reported once the byte has arrived. -/
def spsr_script (segs : List (List Nat × Nat)) : List Nat :=
  (segs.map fun g => g.1 ++ [g.2]).flatten

/-- A segment of the simulated SPSR that reports RX-empty `N` times and then
RX-non-empty. -/
def good_seg (N : Nat) (g : List Nat × Nat) : Prop :=
  g.1.length = N ∧ (∀ x ∈ g.1, rx_ready x = false) ∧ rx_ready g.2 = true

/-- The passes of the byte loop under a simulated SPSR: the transmit bytes, the
segments of the script and the bytes read from SPDR, taken together. -/
def script_blocks : List Nat → List (List Nat × Nat) → List Nat → List (Nat × List Nat × Nat)
  | t :: ts, g :: gs, r :: rs => (t, (g.1 ++ [g.2]).map (· % 256), r) :: script_blocks ts gs rs
  | _, _, _ => []

/-- The value of `scale` in `loongson_spi_master_setup` for the reference clock
`R` and the recorded speed `S`: `ilog2(roundup_pow_of_two(DIV_ROUND_UP(R, S)))`. -/
def clock_scale (R S : Nat) : Except Fault Nat :=
  (DIV_ROUND_UP R S).bind fun rate =>
  (roundup_pow_of_two rate).bind fun rate =>
  .ok (ilog2 rate)

/-- One call of the driver's bus operations, as a client issues them. -/
inductive spi_call where
  | xfer (cs : Int) (bitlen : Nat) (dout din : Option (List Nat)) (flags : Nat)
  | set_speed (hz : Nat)
  | set_mode (m : Nat)

/-- A sequence of calls run in order on the instance and the register window;
the values returned by the calls are dropped. -/
def run_calls : loongson_spi × Bank → List spi_call → Except Fault (loongson_spi × Bank)
  | s, [] => .ok s
  | s, spi_call.xfer cs bitlen dout din flags :: rest =>
    (loongson_spi_xfer s.1 s.2 cs bitlen dout din flags).bind fun r =>
    run_calls (r.2.1, r.2.2.1) rest
  | s, spi_call.set_speed hz :: rest => run_calls (loongson_spi_set_speed s.1 s.2 hz).2 rest
  | s, spi_call.set_mode m :: rest => run_calls (loongson_spi_set_mode s.1 s.2 m).2 rest

/-- The framing discipline, one call at a time: `a` is the chip select a begun
and not yet ended transfer has asserted, if any.  A BEGIN on a valid chip
select is allowed only when none is asserted; an END on the asserted chip
select releases it; every other call leaves `a` as it is.  The result is
`none` when the discipline is broken. -/
def frame_step (a : Option Nat) : spi_call → Option (Option Nat)
  | spi_call.xfer cs _ _ _ flags =>
    if 0 ≤ cs ∧ cs < 4 then
      if flags &&& SPI_XFER_BEGIN ≠ 0 then
        if a = none then some (if flags &&& SPI_XFER_END ≠ 0 then none else some cs.toNat)
        else none
      else if flags &&& SPI_XFER_END ≠ 0 ∧ a = some cs.toNat then some none
      else some a
    else some a
  | _ => some a

/-- The framing discipline over a sequence of calls. -/
def framing : Option Nat → List spi_call → Option (Option Nat)
  | a, [] => some a
  | a, c :: rest => (frame_step a c).bind fun a1 => framing a1 rest

/-- The chip-select lines as SFC_SOFTCS holds them: the register is a byte, and
bit `i + 4` is 0 exactly for the asserted chip select `a`, if any. -/
def lines_ok (v : Nat) (a : Option Nat) : Prop :=
  v < 256 ∧ (∀ c, a = some c → c < 4) ∧ ∀ i < 4, v.testBit (i + 4) = decide (a ≠ some i)

/-! ## Watchdog: lemmas -/

theorem or_one_mod (x : Nat) : (x % 2 ^ 32 ||| 1) % 2 ^ 32 = x % 2 ^ 32 ||| 1 := by
  apply Nat.mod_eq_of_lt
  exact Nat.or_lt_two_pow (Nat.mod_lt _ (by norm_num)) (by norm_num)

theorem or_one_idem (x : Nat) : (x ||| 1) ||| 1 = x ||| 1 := by
  rw [Nat.or_assoc, Nat.or_self]

theorem ls1c_wdt_ping_eq (priv : ls1c_wdt) (hw : WdtBank) :
    ls1c_wdt_ping priv hw =
      { wdt_en := hw.wdt_en
        wdt_timer := wdt_ticks priv.timeout
        wdt_set := hw.wdt_set % 2 ^ 32 ||| 1
        log := hw.log ++ [Access.wr WDT_TIMER (wdt_ticks priv.timeout),
          Access.rd WDT_SET (hw.wdt_set % 2 ^ 32),
          Access.wr WDT_SET (hw.wdt_set % 2 ^ 32 ||| 1)] } := by
  have h := or_one_mod hw.wdt_set
  simp [ls1c_wdt_ping, setbits_32, writel, readl, wdt_ticks, WDT_TIMER, WDT_SET, WDT_EN,
    TIMER_ENABLE, BIT] at h ⊢
  exact h

theorem testBit_or_one (x i : Nat) :
    (x ||| 1).testBit i = (decide (i = 0) || x.testBit i) := by
  rw [Nat.testBit_or]
  cases i with
  | zero => simp
  | succ j =>
    have h : Nat.testBit 1 (j + 1) = false := by
      rw [Nat.testBit_succ]; simp
    simp [h]

theorem ls1c_wdt_start_eq (priv : ls1c_wdt) (hw : WdtBank) (ms flags : Nat) :
    ls1c_wdt_start priv hw ms flags =
      (0, { priv with timeout := ms % 2 ^ 64 },
        { wdt_en := hw.wdt_en % 2 ^ 32 ||| 1
          wdt_timer := wdt_ticks (ms % 2 ^ 64)
          wdt_set := hw.wdt_set % 2 ^ 32 ||| 1
          log := hw.log ++ [Access.rd WDT_EN (hw.wdt_en % 2 ^ 32),
            Access.wr WDT_EN (hw.wdt_en % 2 ^ 32 ||| 1),
            Access.wr WDT_TIMER (wdt_ticks (ms % 2 ^ 64)),
            Access.rd WDT_SET (hw.wdt_set % 2 ^ 32),
            Access.wr WDT_SET (hw.wdt_set % 2 ^ 32 ||| 1)] }) := by
  have h := or_one_mod hw.wdt_en
  simp [ls1c_wdt_start, ls1c_wdt_ping_eq]
  simp [setbits_32, writel, readl, WDT_TIMER, WDT_SET, WDT_EN, TIMER_ENABLE, BIT] at h ⊢
  exact h

theorem wdt_ticks_eq_min (t : Nat) :
    wdt_ticks t = min (120000000 * t % 2 ^ 64 / 1000) 4294967295 := by
  unfold wdt_ticks TIMER_FREQ TIMER_MASK
  split
  · rename_i h
    rw [Nat.min_eq_right (by omega)]
    norm_num
  · rename_i h
    rw [Nat.min_eq_left (by omega)]
    omega

theorem wdt_ticks_wrap : wdt_ticks 153722867281 = 10448 := by decide

theorem wdt_ticks_5000 : wdt_ticks 5000 = 600000000 := by decide

/-- C3: at the 64-bit timeout 153_722_867_281 ms the product
`TIMER_FREQ * timeout` wraps at `2^64`: `start` loads 10_448 into WDT_TIMER, and
so does a later refresh, while the exact value
`min(120_000_000 * timeout / 1000, 2^32 - 1)` is `2^32 - 1`. -/
theorem ls1c_wdt_start_wraps (priv : ls1c_wdt) (hw : WdtBank) (flags : Nat) :
    (ls1c_wdt_start priv hw 153722867281 flags).2.2.wdt_timer = 10448 ∧
    (ls1c_wdt_reset (ls1c_wdt_start priv hw 153722867281 flags).2.1
      (ls1c_wdt_start priv hw 153722867281 flags).2.2).2.2.wdt_timer = 10448 ∧
    min (120000000 * 153722867281 / 1000) (2 ^ 32 - 1) = 4294967295 ∧
    153722867281 < 2 ^ 64 := by
  have h : (153722867281 : Nat) % 2 ^ 64 = 153722867281 := by decide
  refine ⟨?_, ?_, by decide, by decide⟩
  · simp only [ls1c_wdt_start_eq, h, wdt_ticks_wrap]
  · simp only [ls1c_wdt_start_eq, ls1c_wdt_reset, ls1c_wdt_ping_eq, h, wdt_ticks_wrap]

/-- C9: `start(ms)` returns 0, records `ms`, and leaves bit 0 of WDT_EN and of
WDT_SET set with every other bit of the two registers as before; `start(100_000)`
loads 0xFFFFFFFF into WDT_TIMER, `start(1)` loads 120_000 and `start(0)`
loads 0. -/
theorem ls1c_wdt_start_spec (priv : ls1c_wdt) (hw : WdtBank) (ms flags : Nat)
    (hms : ms < 2 ^ 64) (hen : hw.wdt_en < 2 ^ 32) (hset : hw.wdt_set < 2 ^ 32) :
    (ls1c_wdt_start priv hw ms flags).1 = 0 ∧
    (ls1c_wdt_start priv hw ms flags).2.1.timeout = ms ∧
    (ls1c_wdt_start priv hw ms flags).2.1.regs = priv.regs ∧
    (ls1c_wdt_start priv hw ms flags).2.2.wdt_en.testBit 0 = true ∧
    (∀ i, i ≠ 0 →
      (ls1c_wdt_start priv hw ms flags).2.2.wdt_en.testBit i = hw.wdt_en.testBit i) ∧
    (ls1c_wdt_start priv hw ms flags).2.2.wdt_set.testBit 0 = true ∧
    (∀ i, i ≠ 0 →
      (ls1c_wdt_start priv hw ms flags).2.2.wdt_set.testBit i = hw.wdt_set.testBit i) ∧
    (ls1c_wdt_start priv hw 100000 flags).2.2.wdt_timer = 0xFFFFFFFF ∧
    (ls1c_wdt_start priv hw 1 flags).2.2.wdt_timer = 120000 ∧
    (ls1c_wdt_start priv hw 0 flags).2.2.wdt_timer = 0 := by
  have e1 : wdt_ticks (100000 % 2 ^ 64) = 0xFFFFFFFF := by decide
  have e2 : wdt_ticks (1 % 2 ^ 64) = 120000 := by decide
  have e3 : wdt_ticks (0 % 2 ^ 64) = 0 := by decide
  rw [ls1c_wdt_start_eq, ls1c_wdt_start_eq, ls1c_wdt_start_eq, ls1c_wdt_start_eq]
  simp only [Nat.mod_eq_of_lt hms, Nat.mod_eq_of_lt hen, Nat.mod_eq_of_lt hset, testBit_or_one]
  refine ⟨trivial, trivial, trivial, by simp, ?_, by simp, ?_, e1, e2, e3⟩
  · intro i hi; simp [hi]
  · intro i hi; simp [hi]

theorem ls1c_wdt_start_spec_witness :
    (ls1c_wdt_start ⟨1, 0⟩ ⟨0, 7, 6, []⟩ 5000 0).1 = 0 ∧
    (ls1c_wdt_start ⟨1, 0⟩ ⟨0, 7, 6, []⟩ 5000 0).2.1.timeout = 5000 ∧
    (ls1c_wdt_start ⟨1, 0⟩ ⟨0, 7, 6, []⟩ 5000 0).2.2.wdt_set = 7 ∧
    (ls1c_wdt_start ⟨1, 0⟩ ⟨0, 7, 6, []⟩ 5000 0).2.2.wdt_en.testBit 0 = true :=
  ⟨(ls1c_wdt_start_spec ⟨1, 0⟩ ⟨0, 7, 6, []⟩ 5000 0 (by decide) (by decide) (by decide)).1,
   (ls1c_wdt_start_spec ⟨1, 0⟩ ⟨0, 7, 6, []⟩ 5000 0 (by decide) (by decide) (by decide)).2.1,
   by decide,
   (ls1c_wdt_start_spec ⟨1, 0⟩ ⟨0, 7, 6, []⟩ 5000 0 (by decide) (by decide)
     (by decide)).2.2.2.1⟩

theorem ls1c_wdt_refreshes_eq (n : Nat) (priv : ls1c_wdt) (hw : WdtBank)
    (h0 : hw.wdt_set.testBit 0 = true) (h32 : hw.wdt_set < 2 ^ 32)
    (ht : hw.wdt_timer = wdt_ticks priv.timeout) :
    (ls1c_wdt_refreshes n (priv, hw)).1 = priv ∧
    (ls1c_wdt_refreshes n (priv, hw)).2.wdt_en = hw.wdt_en ∧
    (ls1c_wdt_refreshes n (priv, hw)).2.wdt_timer = hw.wdt_timer ∧
    (ls1c_wdt_refreshes n (priv, hw)).2.wdt_set = hw.wdt_set ∧
    (ls1c_wdt_refreshes n (priv, hw)).2.log = hw.log ++
      (List.replicate n [Access.wr WDT_TIMER (wdt_ticks priv.timeout),
        Access.rd WDT_SET hw.wdt_set, Access.wr WDT_SET hw.wdt_set]).flatten := by
  have hor : hw.wdt_set ||| 1 = hw.wdt_set := by
    apply Nat.eq_of_testBit_eq
    intro i
    rw [testBit_or_one]
    cases i with
    | zero => simp [h0]
    | succ j => simp
  induction n generalizing hw with
  | zero => simp [ls1c_wdt_refreshes]
  | succ n ih =>
    have hstep : ls1c_wdt_ping priv hw =
        { hw with log := hw.log ++ [Access.wr WDT_TIMER (wdt_ticks priv.timeout),
            Access.rd WDT_SET hw.wdt_set, Access.wr WDT_SET hw.wdt_set] } := by
      rw [ls1c_wdt_ping_eq, Nat.mod_eq_of_lt h32, hor, ← ht]
    simp only [ls1c_wdt_refreshes, ls1c_wdt_reset, hstep]
    have := ih { hw with log := hw.log ++ [Access.wr WDT_TIMER (wdt_ticks priv.timeout),
            Access.rd WDT_SET hw.wdt_set, Access.wr WDT_SET hw.wdt_set] } h0 h32 ht
      (by simpa using hor)
    simp only [List.replicate_succ, List.flatten_cons] at this ⊢
    simpa [List.append_assoc] using this

/-- C10 as stated fails on its witness: after `start(5000)` the refresh writes
600_000_000 to WDT_TIMER, not 600_000. -/
theorem ls1c_wdt_refresh_5000_not_600000 :
    ¬ ((ls1c_wdt_refreshes 1 ((ls1c_wdt_start ⟨1, 0⟩ ⟨0, 0, 0, []⟩ 5000 0).2.1,
          (ls1c_wdt_start ⟨1, 0⟩ ⟨0, 0, 0, []⟩ 5000 0).2.2)).2.wdt_timer = 600000) ∧
    (ls1c_wdt_refreshes 1 ((ls1c_wdt_start ⟨1, 0⟩ ⟨0, 0, 0, []⟩ 5000 0).2.1,
          (ls1c_wdt_start ⟨1, 0⟩ ⟨0, 0, 0, []⟩ 5000 0).2.2)).2.log =
      [Access.rd WDT_EN 0, Access.wr WDT_EN 1, Access.wr WDT_TIMER 600000000,
       Access.rd WDT_SET 0, Access.wr WDT_SET 1, Access.wr WDT_TIMER 600000000,
       Access.rd WDT_SET 1, Access.wr WDT_SET 1] := by
  decide

/-- C10, amended: a refresh always returns 0, leaves WDT_EN and the recorded
timeout as they are, writes the tick count of the recorded timeout to WDT_TIMER
and then WDT_SET with bit 0 set; a second refresh writes the same two values
and ends in the same registers and instance as the first.  After `start(5000)`
each of five refreshes writes 600_000_000 to WDT_TIMER and WDT_EN keeps bit 0
set. -/
theorem ls1c_wdt_reset_idempotent (priv : ls1c_wdt) (hw : WdtBank) (flags : Nat) :
    (ls1c_wdt_reset priv hw).1 = 0 ∧
    (ls1c_wdt_reset priv hw).2.1 = priv ∧
    (ls1c_wdt_reset priv hw).2.2.wdt_en = hw.wdt_en ∧
    (∃ v w, w.testBit 0 = true ∧
      (ls1c_wdt_reset priv hw).2.2.log = hw.log ++
        [Access.wr WDT_TIMER (min (120000000 * priv.timeout % 2 ^ 64 / 1000) 4294967295),
         Access.rd WDT_SET v, Access.wr WDT_SET w] ∧
      (ls1c_wdt_reset (ls1c_wdt_reset priv hw).2.1 (ls1c_wdt_reset priv hw).2.2).2.2.log =
        (ls1c_wdt_reset priv hw).2.2.log ++
        [Access.wr WDT_TIMER (min (120000000 * priv.timeout % 2 ^ 64 / 1000) 4294967295),
         Access.rd WDT_SET w, Access.wr WDT_SET w]) ∧
    (ls1c_wdt_reset (ls1c_wdt_reset priv hw).2.1 (ls1c_wdt_reset priv hw).2.2).1 = 0 ∧
    (ls1c_wdt_reset (ls1c_wdt_reset priv hw).2.1 (ls1c_wdt_reset priv hw).2.2).2.1 =
      (ls1c_wdt_reset priv hw).2.1 ∧
    (ls1c_wdt_reset (ls1c_wdt_reset priv hw).2.1 (ls1c_wdt_reset priv hw).2.2).2.2.wdt_en =
      (ls1c_wdt_reset priv hw).2.2.wdt_en ∧
    (ls1c_wdt_reset (ls1c_wdt_reset priv hw).2.1 (ls1c_wdt_reset priv hw).2.2).2.2.wdt_timer =
      (ls1c_wdt_reset priv hw).2.2.wdt_timer ∧
    (ls1c_wdt_reset (ls1c_wdt_reset priv hw).2.1 (ls1c_wdt_reset priv hw).2.2).2.2.wdt_set =
      (ls1c_wdt_reset priv hw).2.2.wdt_set ∧
    (∃ w, w.testBit 0 = true ∧
      (ls1c_wdt_start priv hw 5000 flags).2.2.log = hw.log ++
        [Access.rd WDT_EN (hw.wdt_en % 2 ^ 32), Access.wr WDT_EN w,
         Access.wr WDT_TIMER 600000000, Access.rd WDT_SET (hw.wdt_set % 2 ^ 32),
         Access.wr WDT_SET (hw.wdt_set % 2 ^ 32 ||| 1)] ∧
      ∀ n, n ≤ 5 →
        (ls1c_wdt_refreshes n ((ls1c_wdt_start priv hw 5000 flags).2.1,
          (ls1c_wdt_start priv hw 5000 flags).2.2)).2.wdt_en = w ∧
        (ls1c_wdt_refreshes n ((ls1c_wdt_start priv hw 5000 flags).2.1,
          (ls1c_wdt_start priv hw 5000 flags).2.2)).2.wdt_timer = 600000000 ∧
        (ls1c_wdt_refreshes n ((ls1c_wdt_start priv hw 5000 flags).2.1,
          (ls1c_wdt_start priv hw 5000 flags).2.2)).2.log =
          (ls1c_wdt_start priv hw 5000 flags).2.2.log ++
          (List.replicate n [Access.wr WDT_TIMER 600000000,
            Access.rd WDT_SET (hw.wdt_set % 2 ^ 32 ||| 1),
            Access.wr WDT_SET (hw.wdt_set % 2 ^ 32 ||| 1)]).flatten) := by
  have hlt : hw.wdt_set % 2 ^ 32 ||| 1 < 2 ^ 32 :=
    Nat.or_lt_two_pow (Nat.mod_lt _ (by norm_num)) (by norm_num)
  have hb (x : Nat) : (x ||| 1).testBit 0 = true := by simp [testBit_or_one]
  have h5 : (5000 : Nat) % 2 ^ 64 = 5000 := by decide
  have hr : ls1c_wdt_reset priv hw = (0, priv, ls1c_wdt_ping priv hw) := rfl
  rw [hr]
  simp only [ls1c_wdt_reset, ls1c_wdt_ping_eq, ls1c_wdt_start_eq, wdt_ticks_eq_min,
    Nat.mod_eq_of_lt hlt, or_one_idem, h5]
  refine ⟨trivial, trivial, trivial, ?_, trivial, trivial, trivial, trivial, trivial, ?_⟩
  · exact ⟨hw.wdt_set % 2 ^ 32, hw.wdt_set % 2 ^ 32 ||| 1, hb _, rfl, rfl⟩
  · refine ⟨hw.wdt_en % 2 ^ 32 ||| 1, hb _, ?_, ?_⟩
    · have : min (120000000 * 5000 % 2 ^ 64 / 1000) 4294967295 = 600000000 := by decide
      rw [this]
    · intro n _
      have := ls1c_wdt_refreshes_eq n (ls1c_wdt_start priv hw 5000 flags).2.1
        (ls1c_wdt_start priv hw 5000 flags).2.2
        (by simp [ls1c_wdt_start_eq, testBit_or_one])
        (by simpa [ls1c_wdt_start_eq] using hlt)
        (by simp [ls1c_wdt_start_eq])
      simp only [ls1c_wdt_start_eq, h5, wdt_ticks_5000] at this
      have e : min (120000000 * 5000 % 2 ^ 64 / 1000) 4294967295 = 600000000 := by decide
      rw [e]
      exact ⟨this.2.1, this.2.2.1, this.2.2.2.2⟩

/-! ## SPI: register accesses -/

theorem writeb_SPCR (v : Nat) (hw : Bank) :
    writeb v SPCR hw = { hw with spcr := v % 256, log := hw.log ++ [Access.wr SPCR (v % 256)] } := by
  rfl

theorem writeb_SPSR (v : Nat) (hw : Bank) :
    writeb v SPSR hw = { hw with spsr := v % 256, log := hw.log ++ [Access.wr SPSR (v % 256)] } := by
  rfl

theorem writeb_SPDR (v : Nat) (hw : Bank) :
    writeb v SPDR hw = { hw with spdr := v % 256, log := hw.log ++ [Access.wr SPDR (v % 256)] } := by
  rfl

theorem writeb_SPER (v : Nat) (hw : Bank) :
    writeb v SPER hw = { hw with sper := v % 256, log := hw.log ++ [Access.wr SPER (v % 256)] } := by
  rfl

theorem writeb_SFC_SOFTCS (v : Nat) (hw : Bank) :
    writeb v SFC_SOFTCS hw =
      { hw with sfc_softcs := v % 256, log := hw.log ++ [Access.wr SFC_SOFTCS (v % 256)] } := by
  rfl

theorem readb_SPCR (hw : Bank) :
    readb SPCR hw = (hw.spcr % 256, { hw with log := hw.log ++ [Access.rd SPCR (hw.spcr % 256)] }) := by
  rfl

theorem readb_SPER (hw : Bank) :
    readb SPER hw = (hw.sper % 256, { hw with log := hw.log ++ [Access.rd SPER (hw.sper % 256)] }) := by
  rfl

theorem readb_SFC_SOFTCS (hw : Bank) :
    readb SFC_SOFTCS hw =
      (hw.sfc_softcs % 256,
        { hw with log := hw.log ++ [Access.rd SFC_SOFTCS (hw.sfc_softcs % 256)] }) := by
  rfl

theorem bind_ok {α β : Type} (a : α) (f : α → Except Fault β) :
    (Except.ok a : Except Fault α).bind f = f a := rfl

theorem bind_error {α β : Type} (e : Fault) (f : α → Except Fault β) :
    (Except.error e : Except Fault α).bind f = .error e := rfl

theorem loongson_spi_master_setup_eq (priv : loongson_spi) (hw : Bank) (cs : Int)
    (d p : Nat) (hd : DIV_ROUND_UP priv.sys_freq priv.speed = .ok d)
    (hp : roundup_pow_of_two d = .ok p) :
    loongson_spi_master_setup priv hw cs =
      .ok ({ priv with speed := priv.sys_freq >>> ilog2 p },
        { hw with
          spcr := (setup_effect (hw.spcr % 256) (hw.sper % 256) (ilog2 p)
            (decide (priv.mode &&& SPI_CPOL ≠ 0)) (decide (priv.mode &&& SPI_CPHA ≠ 0))).1
          spsr := 0
          sper := (setup_effect (hw.spcr % 256) (hw.sper % 256) (ilog2 p)
            (decide (priv.mode &&& SPI_CPOL ≠ 0)) (decide (priv.mode &&& SPI_CPHA ≠ 0))).2.1
          log := hw.log ++ (setup_effect (hw.spcr % 256) (hw.sper % 256) (ilog2 p)
            (decide (priv.mode &&& SPI_CPOL ≠ 0))
            (decide (priv.mode &&& SPI_CPHA ≠ 0))).2.2 }) := by
  obtain ⟨a0, a1, a2, a3, a4, a5, a6, a7, a8, a9, a10, a11⟩ := hw
  obtain ⟨b0, b1, b2, b3⟩ := priv
  rw [loongson_spi_master_setup, hd, bind_ok, hp, bind_ok]
  by_cases h1 : b2 &&& SPI_CPOL ≠ 0 <;> by_cases h2 : b2 &&& SPI_CPHA ≠ 0 <;>
    simp only [h1, h2, setup_effect, clrbits_8, setbits_8,
      readb_SPCR, readb_SPER, writeb_SPCR,
      writeb_SPSR, writeb_SPER, Nat.mod_mod, if_true, if_false, decide_True, decide_False,
      List.append_assoc, List.cons_append, List.nil_append, Nat.zero_mod, not_true_eq_false,
      not_false_eq_true, ne_eq, Bool.false_eq_true, reduceIte]

/-! ## SPI: the clock divisor -/

theorem fls_scan_zero (k : Nat) : fls_scan k 0 = 0 := by
  induction k with
  | zero => rfl
  | succ k ih =>
    have : ¬ (2 ^ k ≤ 0) := by
      have := Nat.pow_pos (n := k) (show 0 < 2 by norm_num)
      omega
    simp only [fls_scan, this, if_false, ih]

theorem fls_scan_spec (k x : Nat) (h0 : 0 < x) (hk : x < 2 ^ k) :
    1 ≤ fls_scan k x ∧ fls_scan k x ≤ k ∧
      2 ^ (fls_scan k x - 1) ≤ x ∧ x < 2 ^ fls_scan k x := by
  induction k with
  | zero => simp at hk; omega
  | succ k ih =>
    by_cases h : 2 ^ k ≤ x
    · simp only [fls_scan, h, if_true]
      refine ⟨by omega, le_refl _, ?_, hk⟩
      simpa using h
    · simp only [fls_scan, h, if_false]
      have := ih (by omega)
      omega

theorem fls_two_pow (e : Nat) (he : e < 32) : fls (2 ^ e) = e + 1 := by
  have hlt : 2 ^ e < 2 ^ 32 := Nat.pow_lt_pow_right (by norm_num) he
  obtain ⟨h1, _, h3, h4⟩ := fls_scan_spec 32 (2 ^ e) (Nat.pow_pos (by norm_num)) hlt
  have a : fls_scan 32 (2 ^ e) - 1 ≤ e := (Nat.pow_le_pow_iff_right (by norm_num)).1 h3
  have b : e < fls_scan 32 (2 ^ e) := (Nat.pow_lt_pow_iff_right (by norm_num)).1 h4
  unfold fls
  omega

theorem ilog2_two_pow (e : Nat) (he : e < 32) : ilog2 (2 ^ e) = e := by
  unfold ilog2
  rw [fls_two_pow e he]
  omega

/-- `roundup_pow_of_two` on its domain `1 ≤ d ≤ 2^31`: the result is the power
of two `2^e` with `e = fls (d - 1)`, the least one that is at least `d`. -/
theorem roundup_pow_of_two_spec (d : Nat) (h1 : 1 ≤ d) (h2 : d ≤ 2 ^ 31) :
    roundup_pow_of_two d = .ok (2 ^ fls (d - 1)) ∧ fls (d - 1) ≤ 31 ∧
      d ≤ 2 ^ fls (d - 1) ∧ (2 ≤ d → 2 ^ (fls (d - 1) - 1) < d) := by
  have hm : (d + 2 ^ 32 - 1) % 2 ^ 32 = d - 1 := by omega
  have hb : fls (d - 1) ≤ 31 ∧ d ≤ 2 ^ fls (d - 1) ∧ (2 ≤ d → 2 ^ (fls (d - 1) - 1) < d) := by
    by_cases hd : d = 1
    · subst hd
      simp [fls, fls_scan_zero]
    · obtain ⟨a, b, c, e⟩ := fls_scan_spec 31 (d - 1) (by omega) (by omega)
      have hs : fls (d - 1) = fls_scan 31 (d - 1) := by
        have : ¬ (2 ^ 31 ≤ d - 1) := by omega
        simp only [fls, fls_scan, this, if_false]
      rw [hs]
      exact ⟨b, by omega, fun _ => by omega⟩
  refine ⟨?_, hb⟩
  unfold roundup_pow_of_two
  simp only [hm]
  rw [if_pos (by omega), Nat.one_shiftLeft]

/-- `DIV_ROUND_UP` on its domain: no division by zero and no wrap-around. -/
theorem DIV_ROUND_UP_spec (n d : Nat) (h1 : 1 ≤ d) (h2 : n + d ≤ 2 ^ 32) :
    DIV_ROUND_UP n d = .ok ((n + d - 1) / d) ∧ n ≤ (n + d - 1) / d * d ∧
      (n + d - 1) / d ≤ n ∧ (1 ≤ n → 1 ≤ (n + d - 1) / d) := by
  have hd : d ≠ 0 := by omega
  have hm : (n + d - 1) % 2 ^ 32 = n + d - 1 := Nat.mod_eq_of_lt (by omega)
  refine ⟨by simp only [DIV_ROUND_UP, hd, if_false, hm], ?_, ?_, ?_⟩
  · have h := Nat.lt_div_mul_add (a := n + d - 1) (b := d) (by omega)
    omega
  · rw [Nat.div_le_iff_le_mul_add_pred (by omega)]
    have : n ≤ d * n := Nat.le_mul_of_pos_left n (by omega)
    omega
  · intro hn
    exact (Nat.one_le_div_iff (by omega)).2 (by omega)

/-- The exponent programmed for a recorded speed `S` and reference clock `R`:
`fls (ceil (R / S) - 1)`. -/
theorem clock_scale_spec (R S : Nat) (hR : 1 ≤ R) (hR31 : R ≤ 2 ^ 31) (h1 : 1 ≤ S)
    (h2 : R + S ≤ 2 ^ 32) :
    ∃ d e, DIV_ROUND_UP R S = .ok d ∧ roundup_pow_of_two d = .ok (2 ^ e) ∧
      ilog2 (2 ^ e) = e ∧ d = (R + S - 1) / S ∧ e = fls (d - 1) ∧ e ≤ 31 ∧
      1 ≤ d ∧ d ≤ R ∧ R ≤ d * S ∧ d ≤ 2 ^ e ∧ (2 ≤ d → 2 ^ (e - 1) < d) := by
  obtain ⟨a1, a2, a3, a4⟩ := DIV_ROUND_UP_spec R S h1 h2
  obtain ⟨b1, b2, b3, b4⟩ := roundup_pow_of_two_spec ((R + S - 1) / S) (a4 hR) (by omega)
  exact ⟨_, _, a1, b1, ilog2_two_pow _ (by omega), rfl, rfl, b2, a4 hR, a3, a2, b3, b4⟩

/-! ## SPI: the polling loop and the byte loop -/

theorem bind_eq_ok {α β : Type} (x : Except Fault α) (f : α → Except Fault β) (r : β)
    (h : x.bind f = .ok r) : ∃ a, x = .ok a ∧ f a = .ok r := by
  cases x with
  | error e => cases h
  | ok a => exact ⟨a, rfl, h⟩

theorem readb_SPSR_cons (hw : Bank) (v : Nat) (rest : List Nat) (h : hw.spsr_in = v :: rest) :
    readb SPSR hw =
      (v % 256, { hw with spsr_in := rest, log := hw.log ++ [Access.rd SPSR (v % 256)] }) := by
  obtain ⟨a0, a1, a2, a3, a4, a5, a6, a7, a8, a9, a10, a11⟩ := hw
  subst h
  rfl

theorem readb_SPSR_nil (hw : Bank) (h : hw.spsr_in = []) :
    readb SPSR hw =
      (hw.spsr_idle % 256, { hw with log := hw.log ++ [Access.rd SPSR (hw.spsr_idle % 256)] }) := by
  obtain ⟨a0, a1, a2, a3, a4, a5, a6, a7, a8, a9, a10, a11⟩ := hw
  subst h
  rfl

theorem readb_SPDR_cons (hw : Bank) (v : Nat) (rest : List Nat) (h : hw.spdr_in = v :: rest) :
    readb SPDR hw =
      (v % 256, { hw with spdr_in := rest, log := hw.log ++ [Access.rd SPDR (v % 256)] }) := by
  obtain ⟨a0, a1, a2, a3, a4, a5, a6, a7, a8, a9, a10, a11⟩ := hw
  subst h
  rfl

theorem readb_SPDR_nil (hw : Bank) (h : hw.spdr_in = []) :
    readb SPDR hw =
      (hw.spdr_idle % 256, { hw with log := hw.log ++ [Access.rd SPDR (hw.spdr_idle % 256)] }) := by
  obtain ⟨a0, a1, a2, a3, a4, a5, a6, a7, a8, a9, a10, a11⟩ := hw
  subst h
  rfl

/-- One read of SPSR: the value comes from the script or is the idle value, and
only the script and the log change. -/
theorem readb_SPSR_frame (hw : Bank) :
    (readb SPSR hw).2 = { hw with
      spsr_in := hw.spsr_in.tail
      log := hw.log ++ [Access.rd SPSR (readb SPSR hw).1] } ∧
    (readb SPSR hw).1 = (hw.spsr_in.headD hw.spsr_idle) % 256 := by
  cases h : hw.spsr_in with
  | nil =>
    rw [readb_SPSR_nil hw h]
    obtain ⟨a0, a1, a2, a3, a4, a5, a6, a7, a8, a9, a10, a11⟩ := hw
    simp only at h
    subst h
    exact ⟨rfl, rfl⟩
  | cons v rest =>
    rw [readb_SPSR_cons hw v rest h]
    exact ⟨rfl, rfl⟩

theorem readb_SPDR_frame (hw : Bank) :
    (readb SPDR hw).2 = { hw with
      spdr_in := hw.spdr_in.tail
      log := hw.log ++ [Access.rd SPDR (readb SPDR hw).1] } ∧
    (readb SPDR hw).1 = (hw.spdr_in.headD hw.spdr_idle) % 256 := by
  cases h : hw.spdr_in with
  | nil =>
    rw [readb_SPDR_nil hw h]
    obtain ⟨a0, a1, a2, a3, a4, a5, a6, a7, a8, a9, a10, a11⟩ := hw
    simp only at h
    subst h
    exact ⟨rfl, rfl⟩
  | cons v rest =>
    rw [readb_SPDR_cons hw v rest h]
    exact ⟨rfl, rfl⟩

/-- Whatever the peripheral answers, a polling loop that ends has only read
SPSR: the values read are `good_polls`, and nothing but the SPSR script and
the log has changed. -/
theorem poll_rfempty_frame (fuel : Nat) (hw hw' : Bank)
    (h : poll_rfempty fuel hw = .ok hw') :
    ∃ polls, good_polls polls ∧
      hw' = { hw with spsr_in := hw'.spsr_in, log := hw.log ++ polls.map (Access.rd SPSR) } := by
  induction fuel generalizing hw with
  | zero => cases h
  | succ n ih =>
    obtain ⟨hf, _⟩ := readb_SPSR_frame hw
    rw [poll_rfempty] at h
    by_cases hb : (readb SPSR hw).1 &&& SPSR_RFEMPTY ≠ 0
    · rw [if_pos hb] at h
      obtain ⟨polls, ⟨busy, last, e1, e2, e3⟩, e⟩ := ih _ h
      refine ⟨(readb SPSR hw).1 :: polls, ⟨(readb SPSR hw).1 :: busy, last, ?_, ?_, e3⟩, ?_⟩
      · rw [e1]; rfl
      · intro x hx
        rcases List.mem_cons.1 hx with rfl | hx
        · exact hb
        · exact e2 x hx
      · rw [e, hf]
        simp only [List.map_cons, List.append_assoc, List.cons_append, List.nil_append]
    · rw [if_neg hb] at h
      injection h with h
      refine ⟨[(readb SPSR hw).1], ⟨[], _, rfl, by simp, by simpa using hb⟩, ?_⟩
      rw [← h, hf]
      rfl

theorem same_config_refl (a : Bank) : same_config a a :=
  ⟨rfl, rfl, rfl, rfl, rfl, rfl, rfl, rfl⟩

theorem same_config_trans {a b c : Bank} (h1 : same_config a b) (h2 : same_config b c) :
    same_config a c := by
  obtain ⟨p1, p2, p3, p4, p5, p6, p7, p8⟩ := h1
  obtain ⟨q1, q2, q3, q4, q5, q6, q7, q8⟩ := h2
  exact ⟨p1.trans q1, p2.trans q2, p3.trans q3, p4.trans q4, p5.trans q5, p6.trans q6,
    p7.trans q7, p8.trans q8⟩

theorem writeb_SPDR_frame (v : Nat) (hw : Bank) :
    same_config hw (writeb v SPDR hw) ∧ (writeb v SPDR hw).spsr_in = hw.spsr_in ∧
      (writeb v SPDR hw).spdr_in = hw.spdr_in ∧
      (writeb v SPDR hw).log = hw.log ++ [Access.wr SPDR (v % 256)] := by
  rw [writeb_SPDR]
  exact ⟨same_config_refl _, rfl, rfl, rfl⟩

theorem poll_rfempty_fields (fuel : Nat) (hw hw' : Bank)
    (h : poll_rfempty fuel hw = .ok hw') :
    ∃ polls, good_polls polls ∧ same_config hw hw' ∧ hw'.spdr = hw.spdr ∧
      hw'.spdr_in = hw.spdr_in ∧ hw'.log = hw.log ++ polls.map (Access.rd SPSR) := by
  obtain ⟨polls, hg, e⟩ := poll_rfempty_frame fuel hw hw' h
  refine ⟨polls, hg, ?_, ?_, ?_, ?_⟩
  · rw [e]; exact same_config_refl _
  · rw [e]
  · rw [e]
  · rw [e]

theorem readb_SPDR_fields (hw : Bank) :
    same_config hw (readb SPDR hw).2 ∧ (readb SPDR hw).2.spdr = hw.spdr ∧
      (readb SPDR hw).2.spsr_in = hw.spsr_in ∧
      (readb SPDR hw).2.spdr_in = hw.spdr_in.tail ∧
      (readb SPDR hw).2.log = hw.log ++ [Access.rd SPDR (readb SPDR hw).1] ∧
      (readb SPDR hw).1 = (hw.spdr_in.headD hw.spdr_idle) % 256 := by
  obtain ⟨e, v⟩ := readb_SPDR_frame hw
  refine ⟨?_, ?_, ?_, ?_, ?_, v⟩
  · rw [e]; exact same_config_refl _
  · rw [e]
  · rw [e]
  · rw [e]
  · rw [e]

theorem script_reads_succ (n : Nat) (l : List Nat) (idle : Nat) :
    script_reads (n + 1) l idle = (l.headD idle) % 256 :: script_reads n l.tail idle := by
  cases l <;> rfl

theorem tx_bytes_succ_none (n : Nat) : tx_bytes (n + 1) none = 0xff :: tx_bytes n none := rfl

theorem tx_bytes_succ_some (n b : Nat) (t : List Nat) :
    tx_bytes (n + 1) (some (b :: t)) = b % 256 :: tx_bytes n (some t) := rfl

/-- Every run of the byte loop that ends consists of `n` passes, each a write
of the next transmit byte to SPDR, then a polling loop on SPSR, then one read
of SPDR.  The loop changes nothing but SPDR, the two scripts and the log, and
the bytes read from SPDR are what ends up at `din`. -/
theorem xfer_loop_frame (n : Nat) (hw hw' : Bank) (out : Option (List Nat))
    (inb : Option (List Nat × List Nat)) (res : Option (List Nat))
    (h : xfer_loop n hw out inb = .ok (hw', res)) :
    ∃ blocks : List (Nat × List Nat × Nat),
      blocks.length = n ∧
      blocks.map (fun b => b.1) = tx_bytes n out ∧
      (∀ b ∈ blocks, good_polls b.2.1) ∧
      blocks.map (fun b => b.2.2) = script_reads n hw.spdr_in hw.spdr_idle ∧
      same_config hw hw' ∧
      hw'.spdr_in = hw.spdr_in.drop n ∧
      hw'.log = hw.log ++ (blocks.map byte_trace).flatten ∧
      res = inb.map (fun p => p.1 ++ (script_reads n hw.spdr_in hw.spdr_idle ++ p.2.drop n)) ∧
      (∀ l, out = some l → n ≤ l.length) ∧ (∀ p, inb = some p → n ≤ p.2.length) := by
  induction n generalizing hw out inb res with
  | zero =>
    rw [xfer_loop] at h
    injection h with h
    injection h with h1 h2
    subst h1
    refine ⟨[], rfl, ?_, by simp, rfl, same_config_refl _, rfl, by simp, ?_, by simp, by simp⟩
    · cases out <;> rfl
    · rw [← h2]
      cases inb <;> simp [script_reads]
  | succ n ih =>
    rw [xfer_loop] at h
    obtain ⟨tx, htx, h⟩ := bind_eq_ok _ _ _ h
    obtain ⟨hw1, hpoll, h⟩ := bind_eq_ok _ _ _ h
    obtain ⟨inb', hrx, h⟩ := bind_eq_ok _ _ _ h
    obtain ⟨blocks, b1, b2, b3, b4, b5, b6, b7, b8, b9, b10⟩ := ih _ _ _ _ h
    obtain ⟨w1, w2, w3, w4⟩ := writeb_SPDR_frame tx.1 hw
    obtain ⟨polls, hg, p1, p2, p3, p4⟩ := poll_rfempty_fields _ _ _ hpoll
    obtain ⟨r1, r2, r3, r4, r5, r6⟩ := readb_SPDR_fields hw1
    have hin : hw1.spdr_in = hw.spdr_in := p3.trans w3
    have hidle : hw1.spdr_idle = hw.spdr_idle := (p1.2.2.2.2.2.2.2.symm).trans (w1.2.2.2.2.2.2.2.symm)
    have hv : (readb SPDR hw1).1 = (hw.spdr_in.headD hw.spdr_idle) % 256 := by
      rw [r6, hin, hidle]
    have htail : (readb SPDR hw1).2.spdr_in = hw.spdr_in.tail := by rw [r4, hin]
    have hidle2 : (readb SPDR hw1).2.spdr_idle = hw.spdr_idle := by
      rw [← r1.2.2.2.2.2.2.2, hidle]
    rw [htail, hidle2] at b4 b8
    rw [htail] at b6
    refine ⟨(tx.1 % 256, polls, (readb SPDR hw1).1) :: blocks, by simp [b1], ?_, ?_, ?_,
      same_config_trans w1 (same_config_trans p1 (same_config_trans r1 b5)), ?_, ?_, ?_, ?_, ?_⟩
    · cases out with
      | none =>
        injection htx with htx
        subst htx
        simp only [List.map_cons, b2, tx_bytes_succ_none]
      | some l =>
        cases l with
        | nil => cases htx
        | cons b t =>
          injection htx with htx
          subst htx
          simp only [List.map_cons, b2, tx_bytes_succ_some]
    · intro b hb
      rcases List.mem_cons.1 hb with rfl | hb
      · exact hg
      · exact b3 b hb
    · rw [script_reads_succ, List.map_cons, b4, hv]
    · rw [b6]
      generalize hw.spdr_in = l
      cases l <;> simp
    · rw [b7, r5, p4, w4]
      simp only [List.map_cons, List.flatten_cons, byte_trace, List.append_assoc,
        List.cons_append, List.nil_append]
    · rw [b8, script_reads_succ, ← hv]
      cases inb with
      | none =>
        injection hrx with hrx
        subst hrx
        rfl
      | some p =>
        obtain ⟨pre, rest⟩ := p
        cases rest with
        | nil => cases hrx
        | cons x rest =>
          injection hrx with hrx
          subst hrx
          simp only [Option.map_some', List.append_assoc, List.cons_append, List.nil_append,
            List.drop_succ_cons]
    · intro l hl
      subst hl
      cases l with
      | nil => cases htx
      | cons b t =>
        injection htx with htx
        subst htx
        have := b9 t rfl
        simpa using this
    · intro p hp
      subst hp
      obtain ⟨pre, rest⟩ := p
      cases rest with
      | nil => cases hrx
      | cons x rest =>
        injection hrx with hrx
        subst hrx
        have := b10 _ rfl
        simpa using this

theorem rx_ready_iff (v : Nat) : rx_ready v = true ↔ ¬ ((v % 256) &&& SPSR_RFEMPTY ≠ 0) := by
  simp [rx_ready]

/-- The polling loop ends when the peripheral reports a received byte, in the
script or when idle; it uses up at most one such report. -/
theorem poll_rfempty_total (fuel : Nat) (hw : Bank) (hf : hw.spsr_in.length < fuel)
    (h : rx_ready hw.spsr_idle = true ∨ 1 ≤ (hw.spsr_in.filter rx_ready).length) :
    ∃ hw', poll_rfempty fuel hw = .ok hw' ∧
      (hw.spsr_in.filter rx_ready).length ≤ (hw'.spsr_in.filter rx_ready).length + 1 := by
  induction fuel generalizing hw with
  | zero => omega
  | succ n ih =>
    rw [poll_rfempty]
    cases hs : hw.spsr_in with
    | nil =>
      rw [readb_SPSR_nil hw hs]
      have hr : rx_ready hw.spsr_idle = true := by
        rcases h with h | h
        · exact h
        · rw [hs] at h; simp at h
      rw [if_neg ((rx_ready_iff _).1 hr)]
      exact ⟨_, rfl, by simp⟩
    | cons x rest =>
      rw [readb_SPSR_cons hw x rest hs]
      by_cases hx : rx_ready x = true
      · rw [if_neg ((rx_ready_iff _).1 hx)]
        refine ⟨_, rfl, ?_⟩
        simp [List.filter_cons, hx]
      · have hx' : (x % 256) &&& SPSR_RFEMPTY ≠ 0 := by
          by_contra hc
          exact hx ((rx_ready_iff _).2 (fun hn => hn hc))
        rw [if_pos hx']
        have hcount : (List.filter rx_ready (x :: rest)).length =
            (List.filter rx_ready rest).length := by
          simp [List.filter_cons, hx]
        rw [hs, hcount] at h
        rw [hs] at hf
        obtain ⟨hw', e1, e2⟩ := ih
          { hw with spsr_in := rest, log := hw.log ++ [Access.rd SPSR (x % 256)] }
          (by simp only [List.length_cons] at hf; simpa using Nat.lt_of_succ_lt_succ hf) h
        exact ⟨hw', e1, by rw [hcount]; exact e2⟩

/-- The byte loop ends when the peripheral reports a received byte at least
`n` times (or whenever idle) and the buffers hold `n` bytes. -/
theorem xfer_loop_total (n : Nat) (hw : Bank) (out : Option (List Nat))
    (inb : Option (List Nat × List Nat))
    (hs : rx_ready hw.spsr_idle = true ∨ n ≤ (hw.spsr_in.filter rx_ready).length)
    (ho : ∀ l, out = some l → n ≤ l.length) (hi : ∀ p, inb = some p → n ≤ p.2.length) :
    ∃ r, xfer_loop n hw out inb = .ok r := by
  induction n generalizing hw out inb with
  | zero => exact ⟨_, rfl⟩
  | succ n ih =>
    rw [xfer_loop]
    have htx : ∃ tx, xfer_tx out = .ok tx ∧ ∀ l, tx.2 = some l → n ≤ l.length := by
      cases out with
      | none => exact ⟨_, rfl, by simp⟩
      | some l =>
        cases l with
        | nil => have := ho [] rfl; simp at this
        | cons b t =>
          refine ⟨(b, some t), rfl, ?_⟩
          intro l hl
          have := ho (b :: t) rfl
          simp only [Option.some.injEq] at hl
          subst hl
          simpa using this
    obtain ⟨tx, e1, htx2⟩ := htx
    rw [e1, bind_ok]
    obtain ⟨w1, w2, w3, w4⟩ := writeb_SPDR_frame tx.1 hw
    obtain ⟨hw1, e2, hc⟩ := poll_rfempty_total ((writeb tx.1 SPDR hw).spsr_in.length + 1)
      (writeb tx.1 SPDR hw) (by omega)
      (by
        rw [w2, ← w1.2.2.2.2.2.2.1]
        rcases hs with hs | hs
        · exact Or.inl hs
        · exact Or.inr (by omega))
    rw [e2, bind_ok]
    obtain ⟨polls, _, p1, _, _, _⟩ := poll_rfempty_fields _ _ _ e2
    obtain ⟨r1, _, r3, _, _, _⟩ := readb_SPDR_fields hw1
    have hrx : ∃ inb', xfer_rx inb (readb SPDR hw1).1 = .ok inb' ∧
        ∀ p, inb' = some p → n ≤ p.2.length := by
      cases inb with
      | none => exact ⟨none, rfl, by simp⟩
      | some p =>
        obtain ⟨pre, rest⟩ := p
        cases rest with
        | nil => have := hi _ rfl; simp at this
        | cons x rest =>
          refine ⟨some (pre ++ [(readb SPDR hw1).1], rest), rfl, ?_⟩
          intro p hp
          have := hi _ rfl
          simp only [Option.some.injEq] at hp
          subst hp
          simpa using this
    obtain ⟨inb', e3, hi'⟩ := hrx
    rw [e3, bind_ok]
    apply ih _ _ _ _ htx2 hi'
    rw [r3, ← r1.2.2.2.2.2.2.1, ← p1.2.2.2.2.2.2.1, ← w1.2.2.2.2.2.2.1]
    rw [w2] at hc
    rcases hs with hs | hs
    · exact Or.inl hs
    · exact Or.inr (by omega)

/-! ## SPI: the bits of SPCR, SPER and SFC_SOFTCS -/

set_option maxRecDepth 100000 in
theorem setup_spcr_bits : ∀ v < 256, ∀ k < 4, ∀ cpol cpha : Bool,
    (setup_effect v 0 k cpol cpha).1 &&& 3 = k ∧
    (setup_effect v 0 k cpol cpha).1.testBit 2 = cpha ∧
    (setup_effect v 0 k cpol cpha).1.testBit 3 = cpol ∧
    (setup_effect v 0 k cpol cpha).1.testBit 4 = v.testBit 4 ∧
    (setup_effect v 0 k cpol cpha).1.testBit 5 = v.testBit 5 ∧
    (setup_effect v 0 k cpol cpha).1.testBit 6 = true ∧
    (setup_effect v 0 k cpol cpha).1.testBit 7 = v.testBit 7 := by
  decide

set_option maxRecDepth 100000 in
theorem setup_sper_bits : ∀ w < 256, ∀ j < 4,
    ((w &&& not32 SPER_SPRE_MASK) ||| j) % 256 &&& 3 = j ∧
    ((w &&& not32 SPER_SPRE_MASK) ||| j) % 256 / 4 = w / 4 := by
  decide

set_option maxRecDepth 100000 in
theorem softcs_clear_bits : ∀ v < 256, ∀ c < 4, ∀ i < 8,
    ((v &&& not32 (1 <<< (c + 4))) % 256).testBit i = (v.testBit i && decide (i ≠ c + 4)) := by
  decide

set_option maxRecDepth 100000 in
theorem softcs_set_bits : ∀ v < 256, ∀ c < 4, ∀ i < 8,
    ((v ||| 1 <<< (c + 4)) % 256).testBit i = (v.testBit i || decide (i = c + 4)) := by
  decide

set_option maxRecDepth 100000 in
theorem softcs_set_clear : ∀ v < 256, ∀ c < 4,
    (((v &&& not32 (1 <<< (c + 4))) % 256) % 256 ||| 1 <<< (c + 4)) % 256 =
      (v ||| 1 <<< (c + 4)) % 256 := by
  decide

theorem exponent_bits : ∀ s < 16, ((s >>> 2 &&& 3) <<< 2) ||| (s &&& 3) = s := by
  decide

/-! ## SPI: chip select and the transfer as a whole -/

theorem clrbits_8_SFC_SOFTCS (c : Nat) (hw : Bank) :
    clrbits_8 SFC_SOFTCS c hw =
      { hw with
        sfc_softcs := (hw.sfc_softcs % 256 &&& not32 c) % 256
        log := hw.log ++ [Access.rd SFC_SOFTCS (hw.sfc_softcs % 256),
          Access.wr SFC_SOFTCS ((hw.sfc_softcs % 256 &&& not32 c) % 256)] } := by
  obtain ⟨a0, a1, a2, a3, a4, a5, a6, a7, a8, a9, a10, a11⟩ := hw
  simp only [clrbits_8, readb_SFC_SOFTCS, writeb_SFC_SOFTCS, List.append_assoc,
    List.cons_append, List.nil_append]

theorem setbits_8_SFC_SOFTCS (c : Nat) (hw : Bank) :
    setbits_8 SFC_SOFTCS c hw =
      { hw with
        sfc_softcs := (hw.sfc_softcs % 256 ||| c) % 256
        log := hw.log ++ [Access.rd SFC_SOFTCS (hw.sfc_softcs % 256),
          Access.wr SFC_SOFTCS ((hw.sfc_softcs % 256 ||| c) % 256)] } := by
  obtain ⟨a0, a1, a2, a3, a4, a5, a6, a7, a8, a9, a10, a11⟩ := hw
  simp only [setbits_8, readb_SFC_SOFTCS, writeb_SFC_SOFTCS, List.append_assoc,
    List.cons_append, List.nil_append]

theorem loongson_spi_set_cs_false (priv : loongson_spi) (hw : Bank) (cs : Int) :
    loongson_spi_set_cs priv hw cs false =
      .ok (priv, { hw with
        sfc_softcs := (hw.sfc_softcs % 256 ||| 1 <<< (cs + 4).toNat) % 256
        log := hw.log ++ [Access.rd SFC_SOFTCS (hw.sfc_softcs % 256),
          Access.wr SFC_SOFTCS ((hw.sfc_softcs % 256 ||| 1 <<< (cs + 4).toNat) % 256)] }) := by
  rw [loongson_spi_set_cs]
  simp only [Bool.false_eq_true, if_false, bind_ok, setbits_8_SFC_SOFTCS]

theorem loongson_spi_set_cs_true (priv : loongson_spi) (hw : Bank) (cs : Int)
    (d p : Nat) (hd : DIV_ROUND_UP priv.sys_freq priv.speed = .ok d)
    (hp : roundup_pow_of_two d = .ok p) :
    loongson_spi_set_cs priv hw cs true =
      .ok ({ priv with speed := priv.sys_freq >>> ilog2 p },
        { hw with
          spcr := (setup_effect (hw.spcr % 256) (hw.sper % 256) (ilog2 p)
            (decide (priv.mode &&& SPI_CPOL ≠ 0)) (decide (priv.mode &&& SPI_CPHA ≠ 0))).1
          spsr := 0
          sper := (setup_effect (hw.spcr % 256) (hw.sper % 256) (ilog2 p)
            (decide (priv.mode &&& SPI_CPOL ≠ 0)) (decide (priv.mode &&& SPI_CPHA ≠ 0))).2.1
          sfc_softcs := (hw.sfc_softcs % 256 &&& not32 (1 <<< (cs + 4).toNat)) % 256
          log := hw.log ++ ((setup_effect (hw.spcr % 256) (hw.sper % 256) (ilog2 p)
            (decide (priv.mode &&& SPI_CPOL ≠ 0))
            (decide (priv.mode &&& SPI_CPHA ≠ 0))).2.2 ++
            [Access.rd SFC_SOFTCS (hw.sfc_softcs % 256),
             Access.wr SFC_SOFTCS
              ((hw.sfc_softcs % 256 &&& not32 (1 <<< (cs + 4).toNat)) % 256)]) }) := by
  rw [loongson_spi_set_cs]
  simp only [if_true, loongson_spi_master_setup_eq priv hw cs d p hd hp, bind_ok,
    clrbits_8_SFC_SOFTCS, List.append_assoc]

theorem loongson_spi_set_cs_true_defined (priv : loongson_spi) (hw : Bank) (cs : Int)
    (s : loongson_spi × Bank) (h : loongson_spi_set_cs priv hw cs true = .ok s) :
    ∃ d p, DIV_ROUND_UP priv.sys_freq priv.speed = .ok d ∧ roundup_pow_of_two d = .ok p := by
  rw [loongson_spi_set_cs] at h
  simp only [if_true] at h
  obtain ⟨s1, h1, _⟩ := bind_eq_ok _ _ _ h
  rw [loongson_spi_master_setup] at h1
  obtain ⟨d, hd, h2⟩ := bind_eq_ok _ _ _ h1
  obtain ⟨p, hp, _⟩ := bind_eq_ok _ _ _ h2
  exact ⟨d, p, hd, hp⟩

theorem loongson_spi_xfer_invalid (priv : loongson_spi) (hw : Bank) (cs : Int) (bitlen : Nat)
    (dout din : Option (List Nat)) (flags : Nat) (hcs : ¬ (0 ≤ cs ∧ cs < 4)) :
    loongson_spi_xfer priv hw cs bitlen dout din flags = .ok (-EINVAL, priv, hw, din) := by
  rw [loongson_spi_xfer, if_pos]
  unfold SPI_NUM_CS
  omega

/-- A transfer on a valid chip select that returns has gone through the begin
sequence (when BEGIN is set), the byte loop and the end sequence (when END is
set), and returns 0. -/
theorem loongson_spi_xfer_ok (priv priv' : loongson_spi) (hw hw' : Bank) (cs : Int)
    (bitlen : Nat) (dout din din' : Option (List Nat)) (flags : Nat) (r : Int)
    (hcs : 0 ≤ cs ∧ cs < 4)
    (h : loongson_spi_xfer priv hw cs bitlen dout din flags = .ok (r, priv', hw', din')) :
    r = 0 ∧ ∃ s t,
      (if flags &&& SPI_XFER_BEGIN ≠ 0 then loongson_spi_set_cs priv hw cs true
        else .ok (priv, hw)) = .ok s ∧
      xfer_loop ((bitlen % 2 ^ 32) >>> 3) s.2 dout (din.map fun l => ([], l)) = .ok t ∧
      (if flags &&& SPI_XFER_END ≠ 0 then loongson_spi_set_cs s.1 t.1 cs false
        else .ok (s.1, t.1)) = .ok (priv', hw') ∧
      din' = t.2 := by
  rw [loongson_spi_xfer, if_neg (by unfold SPI_NUM_CS; omega)] at h
  obtain ⟨s, hs, h⟩ := bind_eq_ok _ _ _ h
  obtain ⟨t, ht, h⟩ := bind_eq_ok _ _ _ h
  obtain ⟨u, hu, h⟩ := bind_eq_ok _ _ _ h
  injection h with h
  injection h with h1 h2
  injection h2 with h2 h3
  injection h3 with h3 h4
  refine ⟨h1.symm, s, t, hs, ht, ?_, h4.symm⟩
  rw [hu, ← h2, ← h3]

/-- A transfer on a valid chip select returns 0 when the clock computation of
the begin sequence is defined (if BEGIN is set) and the environment is
`ready`. -/
theorem loongson_spi_xfer_total (priv : loongson_spi) (hw : Bank) (cs : Int)
    (bitlen : Nat) (dout din : Option (List Nat)) (flags : Nat)
    (hcs : 0 ≤ cs ∧ cs < 4)
    (hb : flags &&& SPI_XFER_BEGIN ≠ 0 →
      ∃ d p, DIV_ROUND_UP priv.sys_freq priv.speed = .ok d ∧ roundup_pow_of_two d = .ok p)
    (hr : ready ((bitlen % 2 ^ 32) >>> 3) hw dout din) :
    ∃ priv' hw' din',
      loongson_spi_xfer priv hw cs bitlen dout din flags = .ok (0, priv', hw', din') := by
  obtain ⟨hr1, hr2, hr3⟩ := hr
  have hbegin : ∃ s, (if flags &&& SPI_XFER_BEGIN ≠ 0 then loongson_spi_set_cs priv hw cs true
        else .ok (priv, hw)) = .ok s ∧ s.2.spsr_in = hw.spsr_in ∧
        s.2.spsr_idle = hw.spsr_idle := by
    by_cases hf : flags &&& SPI_XFER_BEGIN ≠ 0
    · obtain ⟨d, p, hd, hp⟩ := hb hf
      rw [if_pos hf, loongson_spi_set_cs_true priv hw cs d p hd hp]
      exact ⟨_, rfl, rfl, rfl⟩
    · rw [if_neg hf]
      exact ⟨_, rfl, rfl, rfl⟩
  obtain ⟨s, hs, e1, e2⟩ := hbegin
  obtain ⟨t, ht⟩ := xfer_loop_total ((bitlen % 2 ^ 32) >>> 3) s.2 dout
    (din.map fun l => ([], l)) (by rw [e1, e2]; exact hr1) hr2
    (by
      intro p hp
      cases din with
      | none => simp at hp
      | some l =>
        simp only [Option.map_some', Option.some.injEq] at hp
        subst hp
        exact hr3 l rfl)
  have hend : ∃ u, (if flags &&& SPI_XFER_END ≠ 0 then loongson_spi_set_cs s.1 t.1 cs false
        else .ok (s.1, t.1)) = .ok u := by
    by_cases hf : flags &&& SPI_XFER_END ≠ 0
    · rw [if_pos hf, loongson_spi_set_cs_false]
      exact ⟨_, rfl⟩
    · rw [if_neg hf]
      exact ⟨_, rfl⟩
  obtain ⟨u, hu⟩ := hend
  refine ⟨u.1, u.2, t.2, ?_⟩
  rw [loongson_spi_xfer, if_neg (by unfold SPI_NUM_CS; omega), hs, bind_ok, ht, bind_ok, hu,
    bind_ok]

/-- The state after a transfer on a valid chip select that returns, in terms of
the state `s` after its begin sequence: the byte loop adds `n` passes to the
log and leaves the configuration registers alone, the end sequence sets one bit
of SFC_SOFTCS. -/
theorem loongson_spi_xfer_regs (priv priv' : loongson_spi) (hw hw' : Bank) (cs : Int)
    (bitlen : Nat) (dout din din' : Option (List Nat)) (flags : Nat) (r : Int)
    (hcs : 0 ≤ cs ∧ cs < 4)
    (h : loongson_spi_xfer priv hw cs bitlen dout din flags = .ok (r, priv', hw', din')) :
    ∃ (s : loongson_spi × Bank) (blocks : List (Nat × List Nat × Nat)),
      (if flags &&& SPI_XFER_BEGIN ≠ 0 then loongson_spi_set_cs priv hw cs true
        else .ok (priv, hw)) = .ok s ∧
      priv' = s.1 ∧
      hw'.spcr = s.2.spcr ∧ hw'.spsr = s.2.spsr ∧ hw'.sper = s.2.sper ∧
      hw'.sfc_param = s.2.sfc_param ∧ hw'.sfc_timing = s.2.sfc_timing ∧
      hw'.sfc_softcs = (if flags &&& SPI_XFER_END ≠ 0
        then (s.2.sfc_softcs % 256 ||| 1 <<< (cs + 4).toNat) % 256 else s.2.sfc_softcs) ∧
      hw'.log = s.2.log ++ ((blocks.map byte_trace).flatten ++
        (if flags &&& SPI_XFER_END ≠ 0
          then [Access.rd SFC_SOFTCS (s.2.sfc_softcs % 256),
            Access.wr SFC_SOFTCS ((s.2.sfc_softcs % 256 ||| 1 <<< (cs + 4).toNat) % 256)]
          else [])) ∧
      blocks.length = (bitlen % 2 ^ 32) >>> 3 ∧
      blocks.map (fun b => b.1) = tx_bytes ((bitlen % 2 ^ 32) >>> 3) dout ∧
      (∀ b ∈ blocks, good_polls b.2.1) ∧
      blocks.map (fun b => b.2.2) =
        script_reads ((bitlen % 2 ^ 32) >>> 3) s.2.spdr_in s.2.spdr_idle ∧
      din' = din.map (fun l =>
        script_reads ((bitlen % 2 ^ 32) >>> 3) s.2.spdr_in s.2.spdr_idle ++
          l.drop ((bitlen % 2 ^ 32) >>> 3)) ∧
      (∀ l, dout = some l → (bitlen % 2 ^ 32) >>> 3 ≤ l.length) ∧
      (∀ l, din = some l → (bitlen % 2 ^ 32) >>> 3 ≤ l.length) := by
  obtain ⟨_, s, t, hs, ht, hu, hd⟩ :=
    loongson_spi_xfer_ok priv priv' hw hw' cs bitlen dout din din' flags r hcs h
  obtain ⟨t1, t2⟩ := t
  obtain ⟨blocks, b1, b2, b3, b4, b5, _, b7, b8, b9, b10⟩ :=
    xfer_loop_frame _ _ _ _ _ _ ht
  obtain ⟨c1, c2, c3, c4, c5, c6, _, _⟩ := b5
  have hdin : din' = din.map (fun l =>
        script_reads ((bitlen % 2 ^ 32) >>> 3) s.2.spdr_in s.2.spdr_idle ++
          l.drop ((bitlen % 2 ^ 32) >>> 3)) := by
    rw [hd, b8]
    cases din <;> simp
  have hlen : ∀ l, din = some l → (bitlen % 2 ^ 32) >>> 3 ≤ l.length := by
    intro l hl
    subst hl
    exact b10 ([], l) rfl
  by_cases hf : flags &&& SPI_XFER_END ≠ 0
  · rw [if_pos hf, loongson_spi_set_cs_false] at hu
    injection hu with hu
    injection hu with hu1 hu2
    simp only at hu1 hu2
    refine ⟨s, blocks, hs, hu1.symm, ?_, ?_, ?_, ?_, ?_, ?_, ?_, b1, b2, b3, b4, hdin, b9, hlen⟩
    · rw [← hu2, c1]
    · rw [← hu2, c2]
    · rw [← hu2, c3]
    · rw [← hu2, c4]
    · rw [← hu2, c6]
    · rw [← hu2, if_pos hf, c5]
    · rw [← hu2, if_pos hf, c5]
      simp only [b7, List.append_assoc]
  · rw [if_neg hf] at hu
    injection hu with hu
    injection hu with hu1 hu2
    simp only at hu1 hu2
    refine ⟨s, blocks, hs, hu1.symm, ?_, ?_, ?_, ?_, ?_, ?_, ?_, b1, b2, b3, b4, hdin, b9, hlen⟩
    · rw [← hu2, c1]
    · rw [← hu2, c2]
    · rw [← hu2, c3]
    · rw [← hu2, c4]
    · rw [← hu2, c6]
    · rw [← hu2, if_neg hf, c5]
    · rw [← hu2, if_neg hf]
      simp only [b7, List.append_nil]

/-! ## SPI: the claims -/

theorem setup_spcr_low (v w scale : Nat) (cpol cpha : Bool) (hv : v < 256) :
    (setup_effect v w scale cpol cpha).1 &&& 3 = scale &&& 3 ∧
    (setup_effect v w scale cpol cpha).1.testBit 2 = cpha ∧
    (setup_effect v w scale cpol cpha).1.testBit 3 = cpol ∧
    (setup_effect v w scale cpol cpha).1.testBit 4 = v.testBit 4 ∧
    (setup_effect v w scale cpol cpha).1.testBit 5 = v.testBit 5 ∧
    (setup_effect v w scale cpol cpha).1.testBit 6 = true ∧
    (setup_effect v w scale cpol cpha).1.testBit 7 = v.testBit 7 := by
  have hk : scale &&& 3 < 4 := Nat.lt_of_le_of_lt Nat.and_le_right (by norm_num)
  have e : (setup_effect v w scale cpol cpha).1 = (setup_effect v 0 (scale &&& 3) cpol cpha).1 := by
    simp only [setup_effect, SPCR_SPR_MASK, Nat.and_assoc, Nat.and_self]
  rw [e]
  exact setup_spcr_bits v hv (scale &&& 3) hk cpol cpha

theorem setup_sper_low (v w scale : Nat) (cpol cpha : Bool) (hw : w < 256) :
    (setup_effect v w scale cpol cpha).2.1 &&& 3 = (scale >>> 2) &&& 3 ∧
    (setup_effect v w scale cpol cpha).2.1 / 4 = w / 4 := by
  have hk : (scale >>> 2) &&& 3 < 4 := Nat.lt_of_le_of_lt Nat.and_le_right (by norm_num)
  exact setup_sper_bits w hw _ hk

theorem loongson_spi_set_speed_eq (priv : loongson_spi) (hw : Bank) (S : Nat)
    (hS : S < 2 ^ 32) :
    loongson_spi_set_speed priv hw S = (0, { priv with speed := S }, hw) := by
  rw [loongson_spi_set_speed, Nat.mod_eq_of_lt hS]

/-- The exponent of the clock computation is at most 15 exactly when the
divisor is at most `2^15`. -/
theorem clock_scale_le_15 (d e : Nat) (he : e = fls (d - 1)) (h1 : 1 ≤ d) (h2 : d ≤ 32768)
    (h3 : 2 ≤ d → 2 ^ (e - 1) < d) : e ≤ 15 := by
  by_cases hd : d = 1
  · subst hd
    subst he
    decide
  · have h := h3 (by omega)
    have : 2 ^ (e - 1) < 2 ^ 15 := by omega
    have := (Nat.pow_lt_pow_iff_right (a := 2) (by norm_num)).1 this
    omega

/-- A transfer on a valid chip select returns 0 when the environment is `ready`
and, if BEGIN is set, the controller runs on the probed 120 MHz reference and
the recorded speed is in the domain of the clock computation. -/
theorem loongson_spi_xfer_returns (priv : loongson_spi) (hw : Bank) (cs : Int) (bitlen : Nat)
    (dout din : Option (List Nat)) (flags : Nat) (hcs : 0 ≤ cs ∧ cs < 4)
    (hb : flags &&& SPI_XFER_BEGIN ≠ 0 →
      priv.sys_freq = 120000000 ∧ 1 ≤ priv.speed ∧ priv.speed ≤ 4174967296)
    (hr : ready ((bitlen % 2 ^ 32) >>> 3) hw dout din) :
    ∃ priv' hw' din',
      loongson_spi_xfer priv hw cs bitlen dout din flags = .ok (0, priv', hw', din') := by
  apply loongson_spi_xfer_total priv hw cs bitlen dout din flags hcs _ hr
  intro hf
  obtain ⟨e1, e2, e3⟩ := hb hf
  obtain ⟨d, e, a1, a2, _⟩ := clock_scale_spec priv.sys_freq priv.speed
    (by omega) (by rw [e1]; norm_num) e2 (by rw [e1]; omega)
  exact ⟨d, _, a1, a2⟩

/-- C4: `xfer` returns `-EINVAL` exactly when the chip select is outside
`[0, 4)`, and then the instance and the device, its log of accesses included,
and the memory at `din` are what they were.  On a chip select in `[0, 4)`
every return value is 0, and the transfer does return when the recorded speed
is in the domain of the clock computation (if BEGIN is set) and the
environment is `ready`. -/
theorem loongson_spi_xfer_einval (priv : loongson_spi) (hw : Bank) (cs : Int) (bitlen : Nat)
    (dout din : Option (List Nat)) (flags : Nat) :
    ((∃ priv' hw' din', loongson_spi_xfer priv hw cs bitlen dout din flags =
        .ok (-EINVAL, priv', hw', din')) ↔ ¬ (0 ≤ cs ∧ cs < 4)) ∧
    (¬ (0 ≤ cs ∧ cs < 4) →
      loongson_spi_xfer priv hw cs bitlen dout din flags = .ok (-EINVAL, priv, hw, din)) ∧
    (0 ≤ cs ∧ cs < 4 → ∀ r priv' hw' din',
      loongson_spi_xfer priv hw cs bitlen dout din flags = .ok (r, priv', hw', din') →
        r = 0) ∧
    (0 ≤ cs ∧ cs < 4 →
      (flags &&& SPI_XFER_BEGIN ≠ 0 →
        priv.sys_freq = 120000000 ∧ 1 ≤ priv.speed ∧ priv.speed ≤ 4174967296) →
      ready ((bitlen % 2 ^ 32) >>> 3) hw dout din →
      ∃ priv' hw' din',
        loongson_spi_xfer priv hw cs bitlen dout din flags = .ok (0, priv', hw', din')) := by
  have h3 : 0 ≤ cs ∧ cs < 4 → ∀ r priv' hw' din',
      loongson_spi_xfer priv hw cs bitlen dout din flags = .ok (r, priv', hw', din') →
        r = 0 := by
    intro hcs r priv' hw' din' h
    exact (loongson_spi_xfer_ok priv priv' hw hw' cs bitlen dout din din' flags r hcs h).1
  refine ⟨⟨?_, ?_⟩, loongson_spi_xfer_invalid priv hw cs bitlen dout din flags, h3, ?_⟩
  · rintro ⟨priv', hw', din', h⟩ hcs
    have := h3 hcs _ _ _ _ h
    simp [EINVAL] at this
  · intro hcs
    exact ⟨priv, hw, din, loongson_spi_xfer_invalid priv hw cs bitlen dout din flags hcs⟩
  · intro hcs hb hr
    exact loongson_spi_xfer_returns priv hw cs bitlen dout din flags hcs hb hr

theorem loongson_spi_xfer_einval_witness :
    loongson_spi_xfer ⟨0x1fe80000, 120000000, 0, 1000000⟩ zero_bank 7 16 (some [0x9f, 0])
        none 3 =
      .ok (-EINVAL, ⟨0x1fe80000, 120000000, 0, 1000000⟩, zero_bank, none) ∧
    ∃ priv' hw' din',
      loongson_spi_xfer ⟨0x1fe80000, 120000000, 0, 1000000⟩ zero_bank 2 16 (some [0x9f, 0])
        none 3 = .ok (0, priv', hw', din') :=
  ⟨(loongson_spi_xfer_einval ⟨0x1fe80000, 120000000, 0, 1000000⟩ zero_bank 7 16
      (some [0x9f, 0]) none 3).2.1 (by decide),
   (loongson_spi_xfer_einval ⟨0x1fe80000, 120000000, 0, 1000000⟩ zero_bank 2 16
      (some [0x9f, 0]) none 3).2.2.2 (by decide) (fun _ => by decide)
      ⟨Or.inl (by decide), by simp, by simp⟩⟩

/-- The state after a BEGIN transfer that returns: the clock computation was
defined, the instance records `sys_freq >> scale`, and SPCR and SPER are what
the begin sequence wrote. -/
theorem loongson_spi_xfer_begin (priv priv' : loongson_spi) (hw hw' : Bank) (cs : Int)
    (bitlen : Nat) (dout din din' : Option (List Nat)) (flags : Nat) (r : Int)
    (hcs : 0 ≤ cs ∧ cs < 4) (hb : flags &&& SPI_XFER_BEGIN ≠ 0)
    (h : loongson_spi_xfer priv hw cs bitlen dout din flags = .ok (r, priv', hw', din')) :
    ∃ d p, DIV_ROUND_UP priv.sys_freq priv.speed = .ok d ∧ roundup_pow_of_two d = .ok p ∧
      priv' = { priv with speed := priv.sys_freq >>> ilog2 p } ∧
      hw'.spcr = (setup_effect (hw.spcr % 256) (hw.sper % 256) (ilog2 p)
        (decide (priv.mode &&& SPI_CPOL ≠ 0)) (decide (priv.mode &&& SPI_CPHA ≠ 0))).1 ∧
      hw'.sper = (setup_effect (hw.spcr % 256) (hw.sper % 256) (ilog2 p)
        (decide (priv.mode &&& SPI_CPOL ≠ 0)) (decide (priv.mode &&& SPI_CPHA ≠ 0))).2.1 ∧
      hw'.spsr = 0 ∧
      hw'.sfc_softcs = (if flags &&& SPI_XFER_END ≠ 0
        then ((hw.sfc_softcs % 256 &&& not32 (1 <<< (cs + 4).toNat)) % 256 % 256 |||
          1 <<< (cs + 4).toNat) % 256
        else (hw.sfc_softcs % 256 &&& not32 (1 <<< (cs + 4).toNat)) % 256) := by
  obtain ⟨s, blocks, hs, e1, e2, e3, e4, _, _, e7, _⟩ :=
    loongson_spi_xfer_regs priv priv' hw hw' cs bitlen dout din din' flags r hcs h
  rw [if_pos hb] at hs
  obtain ⟨d, p, hd, hp⟩ := loongson_spi_set_cs_true_defined priv hw cs s hs
  rw [loongson_spi_set_cs_true priv hw cs d p hd hp] at hs
  injection hs with hs
  subst hs
  exact ⟨d, p, hd, hp, e1, e2, e4, e3, e7⟩

/-- C1 as stated fails at the requested speed 1 kHz: the exponent read back from
the registers is 1, so the programmed rate is 60 MHz, above the request. -/
theorem clock_rate_above_request_at_1kHz :
    (clock_test 1000).map (fun r => 120000000 >>> r.2) = some 60000000 ∧
    ¬ (60000000 ≤ 1000) := by
  decide

/-- C1, amended: for every requested speed `S` with `3663 ≤ S ≤ 4_174_967_296`,
after `set_speed(S)` a BEGIN transfer on a valid chip select, whenever it
returns (and it does in a `ready` environment), leaves in SPER[1:0] and
SPCR[1:0] an exponent `e ≤ 15` such that `120_000_000 >> e`, the reference clock
divided by `2^e`, is at most `S`; this is also the recorded speed. -/
theorem loongson_spi_xfer_rate_le (priv : loongson_spi) (hw : Bank) (cs : Int)
    (bitlen : Nat) (dout din : Option (List Nat)) (flags S : Nat)
    (hfreq : priv.sys_freq = 120000000) (hcs : 0 ≤ cs ∧ cs < 4)
    (hb : flags &&& SPI_XFER_BEGIN ≠ 0) (hS : 3663 ≤ S) (hS2 : S ≤ 4174967296) :
    (ready ((bitlen % 2 ^ 32) >>> 3) hw dout din →
      ∃ priv' hw' din',
        loongson_spi_xfer (loongson_spi_set_speed priv hw S).2.1
          (loongson_spi_set_speed priv hw S).2.2 cs bitlen dout din flags =
          .ok (0, priv', hw', din')) ∧
    ∀ r priv' hw' din',
      loongson_spi_xfer (loongson_spi_set_speed priv hw S).2.1
          (loongson_spi_set_speed priv hw S).2.2 cs bitlen dout din flags =
          .ok (r, priv', hw', din') →
        programmed_exponent hw' ≤ 15 ∧
        120000000 >>> programmed_exponent hw' ≤ S ∧
        120000000 >>> programmed_exponent hw' = 120000000 / 2 ^ programmed_exponent hw' ∧
        priv'.speed = 120000000 >>> programmed_exponent hw' := by
  rw [loongson_spi_set_speed_eq priv hw S (by omega)]
  obtain ⟨d, e, a1, a2, a3, a4, a5, a6, a7, a8, a9, a10, a11⟩ :=
    clock_scale_spec 120000000 S (by norm_num) (by norm_num) (by omega) (by omega)
  have hd : d ≤ 32768 := by
    rw [a4]
    have : (120000000 + S - 1) / S < 32769 := (Nat.div_lt_iff_lt_mul (by omega)).2 (by omega)
    omega
  have he : e ≤ 15 := clock_scale_le_15 d e a5 a7 hd a11
  constructor
  · intro hr
    apply loongson_spi_xfer_total _ hw cs bitlen dout din flags hcs _ hr
    intro _
    exact ⟨d, 2 ^ e, by simpa [hfreq] using a1, a2⟩
  · intro r priv' hw' din' h
    obtain ⟨d', p', b1, b2, b3, b4, b5, _, _⟩ :=
      loongson_spi_xfer_begin _ priv' hw hw' cs bitlen dout din din' flags r hcs hb h
    simp only [hfreq] at b1 b3
    rw [a1] at b1
    injection b1 with b1
    subst b1
    rw [a2] at b2
    injection b2 with b2
    subst b2
    rw [a3] at b3 b4 b5
    have hE : programmed_exponent hw' = e := by
      unfold programmed_exponent
      rw [b4, b5, (setup_spcr_low _ _ e _ _ (Nat.mod_lt _ (by norm_num))).1,
        (setup_sper_low _ _ e _ _ (Nat.mod_lt _ (by norm_num))).1]
      exact exponent_bits e (by omega)
    rw [hE, b3]
    refine ⟨he, ?_, Nat.shiftRight_eq_div_pow _ _, rfl⟩
    rw [Nat.shiftRight_eq_div_pow]
    apply Nat.div_le_of_le_mul
    calc 120000000 ≤ d * S := a9
      _ ≤ 2 ^ e * S := Nat.mul_le_mul_right S a10

theorem loongson_spi_xfer_rate_le_witness :
    (∃ priv' hw' din',
      loongson_spi_xfer
        (loongson_spi_set_speed ⟨0x1fe80000, 120000000, 0, 0⟩ zero_bank 25000000).2.1
        (loongson_spi_set_speed ⟨0x1fe80000, 120000000, 0, 0⟩ zero_bank 25000000).2.2
        0 8 (some [0x9f]) none 1 = .ok (0, priv', hw', din')) ∧
    (clock_test 25000000) = some (15000000, 3) :=
  ⟨(loongson_spi_xfer_rate_le ⟨0x1fe80000, 120000000, 0, 0⟩ zero_bank 0 8 (some [0x9f])
      none 1 25000000 rfl (by decide) (by decide) (by decide) (by decide)).1
      ⟨Or.inl (by decide), by simp, by simp⟩,
   by decide⟩

/-- C2: at 1 kHz the clock-derivation test stores the speed 915 and leaves the
exponent 1 in the registers, where the spec's exponent is 15 and
`120_000_000 >> 15 = 3662`; at the five other speeds of the test the stored
speed and the registers agree with the spec's exponent. -/
theorem clock_exponent_truncated_at_1kHz :
    clock_test 1000 = some (915, 1) ∧ spec_exponent 1000 = 15 ∧
    120000000 >>> spec_exponent 1000 = 3662 ∧
    (∀ S ∈ [100000, 1000000, 30000000, 120000000, 200000000],
      clock_test S = some (120000000 >>> spec_exponent S, spec_exponent S)) := by
  decide

theorem mode_bit_cpol (m : Nat) : decide (m % 2 ^ 32 &&& SPI_CPOL ≠ 0) = m.testBit 1 := by
  have h : SPI_CPOL = 2 ^ 1 := rfl
  rw [h, Nat.and_two_pow, Nat.testBit_mod_two_pow]
  cases m.testBit 1 <;> simp

theorem mode_bit_cpha (m : Nat) : decide (m % 2 ^ 32 &&& SPI_CPHA ≠ 0) = m.testBit 0 := by
  have h : SPI_CPHA = 2 ^ 0 := rfl
  rw [h, Nat.and_two_pow, Nat.testBit_mod_two_pow]
  cases m.testBit 0 <;> simp

theorem testBit_mod_256 (v i : Nat) (hi : i < 8) : (v % 256).testBit i = v.testBit i := by
  have h : (256 : Nat) = 2 ^ 8 := by norm_num
  rw [h, Nat.testBit_mod_two_pow]
  simp [hi]

theorem testBit_ge_8 (v i : Nat) (hv : v < 256) (hi : 8 ≤ i) : v.testBit i = false := by
  apply Nat.testBit_lt_two_pow
  calc v < 2 ^ 8 := by omega
    _ ≤ 2 ^ i := Nat.pow_le_pow_right (by norm_num) hi

theorem cs_bit (cs : Int) (hcs : 0 ≤ cs ∧ cs < 4) :
    (cs + 4).toNat = cs.toNat + 4 ∧ cs.toNat < 4 := by
  omega

/-- C5 as stated fails for a transfer with both BEGIN and END: on chip select 2
with SFC_SOFTCS = 0xff before, bit 6 is set after the call, not cleared. -/
theorem xfer_begin_end_leaves_cs_high :
    (loongson_spi_xfer ⟨0x1fe80000, 120000000, 0, 1000000⟩
        { zero_bank with sfc_softcs := 0xff } 2 8 none none
        (SPI_XFER_BEGIN ||| SPI_XFER_END)).toOption.map
      (fun r => (r.1, r.2.2.1.sfc_softcs, r.2.2.1.sfc_softcs.testBit 6)) =
      some (0, 0xff, true) := by
  decide

/-- C5, amended: for a chip select `cs` in `[0, 4)` and a prior value `v` of
SFC_SOFTCS, a transfer with BEGIN and without END that returns leaves `v` with
bit `cs + 4` cleared and every other bit unchanged; a transfer with END, with
or without BEGIN, that returns leaves `v` with bit `cs + 4` set and every other
bit unchanged.  The transfer returns in a `ready` environment when the recorded
speed is in the domain of the clock computation (if BEGIN is set). -/
theorem loongson_spi_xfer_softcs (priv : loongson_spi) (hw : Bank) (cs : Int)
    (bitlen : Nat) (dout din : Option (List Nat)) (flags : Nat)
    (hcs : 0 ≤ cs ∧ cs < 4) (hv : hw.sfc_softcs < 256) :
    ((flags &&& SPI_XFER_BEGIN ≠ 0 →
        priv.sys_freq = 120000000 ∧ 1 ≤ priv.speed ∧ priv.speed ≤ 4174967296) →
      ready ((bitlen % 2 ^ 32) >>> 3) hw dout din →
      ∃ priv' hw' din',
        loongson_spi_xfer priv hw cs bitlen dout din flags = .ok (0, priv', hw', din')) ∧
    ∀ r priv' hw' din',
      loongson_spi_xfer priv hw cs bitlen dout din flags = .ok (r, priv', hw', din') →
        (flags &&& SPI_XFER_BEGIN ≠ 0 → ¬ (flags &&& SPI_XFER_END ≠ 0) →
          ∀ i, hw'.sfc_softcs.testBit i =
            (hw.sfc_softcs.testBit i && decide (i ≠ cs.toNat + 4))) ∧
        (flags &&& SPI_XFER_END ≠ 0 →
          ∀ i, hw'.sfc_softcs.testBit i =
            (hw.sfc_softcs.testBit i || decide (i = cs.toNat + 4))) := by
  obtain ⟨hc1, hc2⟩ := cs_bit cs hcs
  have hclr : ∀ i, ((hw.sfc_softcs &&& not32 (1 <<< (cs.toNat + 4))) % 256).testBit i =
      (hw.sfc_softcs.testBit i && decide (i ≠ cs.toNat + 4)) := by
    intro i
    by_cases hi : i < 8
    · exact softcs_clear_bits _ hv _ hc2 i hi
    · rw [testBit_ge_8 _ i (Nat.mod_lt _ (by norm_num)) (by omega),
        testBit_ge_8 _ i hv (by omega)]
      rfl
  have hset : ∀ i, ((hw.sfc_softcs ||| 1 <<< (cs.toNat + 4)) % 256).testBit i =
      (hw.sfc_softcs.testBit i || decide (i = cs.toNat + 4)) := by
    intro i
    by_cases hi : i < 8
    · exact softcs_set_bits _ hv _ hc2 i hi
    · rw [testBit_ge_8 _ i (Nat.mod_lt _ (by norm_num)) (by omega),
        testBit_ge_8 _ i hv (by omega)]
      have : ¬ (i = cs.toNat + 4) := by omega
      simp [this]
  constructor
  · exact loongson_spi_xfer_returns priv hw cs bitlen dout din flags hcs
  · intro r priv' hw' din' h
    by_cases hb : flags &&& SPI_XFER_BEGIN ≠ 0
    · obtain ⟨d, p, _, _, _, _, _, _, e⟩ :=
        loongson_spi_xfer_begin priv priv' hw hw' cs bitlen dout din din' flags r hcs hb h
      constructor
      · intro _ he i
        rw [e, if_neg he, hc1, Nat.mod_eq_of_lt hv]
        exact hclr i
      · intro he i
        rw [e, if_pos he, hc1, Nat.mod_eq_of_lt hv, softcs_set_clear _ hv _ hc2]
        exact hset i
    · obtain ⟨s, blocks, hs, _, _, _, _, _, _, e, _⟩ :=
        loongson_spi_xfer_regs priv priv' hw hw' cs bitlen dout din din' flags r hcs h
      rw [if_neg hb] at hs
      injection hs with hs
      subst hs
      constructor
      · intro hb'
        exact absurd hb' hb
      · intro he i
        rw [e, if_pos he, hc1, Nat.mod_eq_of_lt hv]
        exact hset i

theorem loongson_spi_xfer_softcs_witness :
    (∃ priv' hw' din',
      loongson_spi_xfer ⟨0x1fe80000, 120000000, 0, 1000000⟩
        { zero_bank with sfc_softcs := 0xff } 2 8 none none SPI_XFER_BEGIN =
        .ok (0, priv', hw', din')) ∧
    (loongson_spi_xfer ⟨0x1fe80000, 120000000, 0, 1000000⟩
        { zero_bank with sfc_softcs := 0xff } 2 8 none none SPI_XFER_BEGIN).toOption.map
      (fun r => r.2.2.1.sfc_softcs.testBit 6) = some false ∧
    (loongson_spi_xfer ⟨0x1fe80000, 120000000, 0, 1000000⟩
        { zero_bank with sfc_softcs := 0xbf } 2 0 none none SPI_XFER_END).toOption.map
      (fun r => r.2.2.1.sfc_softcs.testBit 6) = some true :=
  ⟨(loongson_spi_xfer_softcs ⟨0x1fe80000, 120000000, 0, 1000000⟩
      { zero_bank with sfc_softcs := 0xff } 2 8 none none SPI_XFER_BEGIN (by decide)
      (by decide)).1 (fun _ => by decide) ⟨Or.inl (by decide), by simp, by simp⟩,
   by decide, by decide⟩

/-- C6: for every mode word `m` recorded by `set_mode`, with CPOL its bit 1 and
CPHA its bit 0 whatever its other bits, and every prior SPCR: after a BEGIN
transfer on a valid chip select that returns, SPCR bit 3 is CPOL, bit 2 is CPHA
and bits 7, 5 and 4 are as before (bit 6, the enable bit, is set).  The
transfer returns in a `ready` environment when the recorded speed is in the
domain of the clock computation. -/
theorem loongson_spi_xfer_mode_bits (priv : loongson_spi) (hw : Bank) (cs : Int)
    (bitlen : Nat) (dout din : Option (List Nat)) (flags m : Nat)
    (hcs : 0 ≤ cs ∧ cs < 4) (hb : flags &&& SPI_XFER_BEGIN ≠ 0) :
    (loongson_spi_set_mode priv hw m).1 = 0 ∧
    (priv.sys_freq = 120000000 ∧ 1 ≤ priv.speed ∧ priv.speed ≤ 4174967296 →
      ready ((bitlen % 2 ^ 32) >>> 3) hw dout din →
      ∃ priv' hw' din',
        loongson_spi_xfer (loongson_spi_set_mode priv hw m).2.1
          (loongson_spi_set_mode priv hw m).2.2 cs bitlen dout din flags =
          .ok (0, priv', hw', din')) ∧
    ∀ r priv' hw' din',
      loongson_spi_xfer (loongson_spi_set_mode priv hw m).2.1
          (loongson_spi_set_mode priv hw m).2.2 cs bitlen dout din flags =
          .ok (r, priv', hw', din') →
        hw'.spcr.testBit 3 = m.testBit 1 ∧ hw'.spcr.testBit 2 = m.testBit 0 ∧
        hw'.spcr.testBit 7 = hw.spcr.testBit 7 ∧ hw'.spcr.testBit 5 = hw.spcr.testBit 5 ∧
        hw'.spcr.testBit 4 = hw.spcr.testBit 4 ∧ hw'.spcr.testBit 6 = true := by
  refine ⟨rfl, ?_, ?_⟩
  · intro hd hr
    exact loongson_spi_xfer_returns (loongson_spi_set_mode priv hw m).2.1 hw cs bitlen dout din
      flags hcs (fun _ => hd) hr
  · intro r priv' hw' din' h
    obtain ⟨d, p, _, _, _, e, _⟩ :=
      loongson_spi_xfer_begin _ priv' hw hw' cs bitlen dout din din' flags r hcs hb h
    have hm : (loongson_spi_set_mode priv hw m).2.1.mode = m % 2 ^ 32 := rfl
    rw [hm, mode_bit_cpol, mode_bit_cpha] at e
    obtain ⟨_, b2, b3, b4, b5, b6, b7⟩ := setup_spcr_low (hw.spcr % 256) (hw.sper % 256)
      (ilog2 p) (m.testBit 1) (m.testBit 0) (Nat.mod_lt _ (by norm_num))
    rw [e, b2, b3, b4, b5, b6, b7, testBit_mod_256 _ 7 (by norm_num),
      testBit_mod_256 _ 5 (by norm_num), testBit_mod_256 _ 4 (by norm_num)]
    exact ⟨rfl, rfl, rfl, rfl, rfl, rfl⟩

theorem loongson_spi_xfer_mode_bits_witness :
    (∃ priv' hw' din',
      loongson_spi_xfer
        (loongson_spi_set_mode ⟨0x1fe80000, 120000000, 0, 1000000⟩
          { zero_bank with spcr := 0xb0 } 0x103).2.1
        (loongson_spi_set_mode ⟨0x1fe80000, 120000000, 0, 1000000⟩
          { zero_bank with spcr := 0xb0 } 0x103).2.2
        0 16 (some [0xaa, 0x55]) (some [0, 0]) 3 =
        .ok (0, priv', hw', din')) ∧
    (loongson_spi_xfer
        (loongson_spi_set_mode ⟨0x1fe80000, 120000000, 0, 1000000⟩
          { zero_bank with spcr := 0xb0 } 0x103).2.1
        (loongson_spi_set_mode ⟨0x1fe80000, 120000000, 0, 1000000⟩
          { zero_bank with spcr := 0xb0 } 0x103).2.2
        0 16 (some [0xaa, 0x55]) (some [0, 0])
        3).toOption.map (fun r => r.2.2.1.spcr) = some 0xff :=
  ⟨(loongson_spi_xfer_mode_bits ⟨0x1fe80000, 120000000, 0, 1000000⟩
      { zero_bank with spcr := 0xb0 } 0 16 (some [0xaa, 0x55]) (some [0, 0]) 3 0x103
      (by decide) (by decide)).2.1 (by decide) ⟨Or.inl (by decide), by simp, by simp⟩,
   by decide⟩

theorem spdr_writes_append (a b : List Access) :
    spdr_writes (a ++ b) = spdr_writes a ++ spdr_writes b := by
  induction a with
  | nil => rfl
  | cons x t ih =>
    cases x with
    | rd off v => simpa [spdr_writes] using ih
    | wr off v =>
      by_cases h : off = SPDR
      · simp [spdr_writes, h, ih]
      · simp [spdr_writes, h, ih]

theorem spdr_writes_reads (off : Nat) (l : List Nat) :
    spdr_writes (l.map (Access.rd off)) = [] := by
  induction l with
  | nil => rfl
  | cons x t ih => simpa [spdr_writes] using ih

theorem spdr_writes_byte_trace (b : Nat × List Nat × Nat) : spdr_writes (byte_trace b) = [b.1] := by
  simp [byte_trace, spdr_writes, spdr_writes_append, spdr_writes_reads]

theorem spdr_writes_blocks (blocks : List (Nat × List Nat × Nat)) :
    spdr_writes (blocks.map byte_trace).flatten = blocks.map (fun b => b.1) := by
  induction blocks with
  | nil => rfl
  | cons b t ih =>
    simp only [List.map_cons, List.flatten_cons, spdr_writes_append, spdr_writes_byte_trace, ih,
      List.singleton_append]

theorem spdr_writes_setup (v w scale : Nat) (cpol cpha : Bool) :
    spdr_writes (setup_effect v w scale cpol cpha).2.2 = [] := by
  simp [setup_effect, spdr_writes, SPCR, SPSR, SPDR, SPER]

theorem tx_bytes_some (n : Nat) (l : List Nat) (hl : ∀ b ∈ l, b < 256) :
    tx_bytes n (some l) = l.take n := by
  have h : (l.take n).map (· % 256) = (l.take n).map id :=
    List.map_congr_left (fun b hb => Nat.mod_eq_of_lt (hl b (List.mem_of_mem_take hb)))
  rw [List.map_id] at h
  exact h

/-- C7: a transfer of `bit_length` bits on a valid chip select that returns has
written SPDR exactly `M = bit_length / 8` times: its accesses are those of the
begin sequence (none to SPDR), then `M` passes, each one write to SPDR followed
by the polling reads of SPSR and one read of SPDR, then those of the end
sequence (none to SPDR).  The bytes written are, in order, the first `M` bytes
at `dout`, or `M` times 0xFF for a null `dout`.  The transfer returns in a
`ready` environment when the recorded speed is in the domain of the clock
computation (if BEGIN is set). -/
theorem loongson_spi_xfer_spdr_writes (priv : loongson_spi) (hw : Bank) (cs : Int)
    (bitlen : Nat) (dout din : Option (List Nat)) (flags : Nat)
    (hcs : 0 ≤ cs ∧ cs < 4) (hlen : bitlen < 2 ^ 32) :
    ((flags &&& SPI_XFER_BEGIN ≠ 0 →
        priv.sys_freq = 120000000 ∧ 1 ≤ priv.speed ∧ priv.speed ≤ 4174967296) →
      ready ((bitlen % 2 ^ 32) >>> 3) hw dout din →
      ∃ priv' hw' din',
        loongson_spi_xfer priv hw cs bitlen dout din flags = .ok (0, priv', hw', din')) ∧
    ∀ r priv' hw' din',
      loongson_spi_xfer priv hw cs bitlen dout din flags = .ok (r, priv', hw', din') →
        ∃ (pre post : List Access) (blocks : List (Nat × List Nat × Nat)),
          hw'.log = hw.log ++ (pre ++ ((blocks.map byte_trace).flatten ++ post)) ∧
          spdr_writes pre = [] ∧ spdr_writes post = [] ∧
          blocks.length = bitlen / 8 ∧
          (∀ b ∈ blocks, good_polls b.2.1) ∧
          blocks.map (fun b => b.1) = tx_bytes (bitlen / 8) dout ∧
          spdr_writes (pre ++ ((blocks.map byte_trace).flatten ++ post)) =
            tx_bytes (bitlen / 8) dout ∧
          (dout = none → tx_bytes (bitlen / 8) dout = List.replicate (bitlen / 8) 0xff) ∧
          (∀ l, dout = some l → (∀ b ∈ l, b < 256) →
            bitlen / 8 ≤ l.length ∧ tx_bytes (bitlen / 8) dout = l.take (bitlen / 8)) := by
  have hM : (bitlen % 2 ^ 32) >>> 3 = bitlen / 8 := by
    rw [Nat.mod_eq_of_lt hlen, Nat.shiftRight_eq_div_pow]
  constructor
  · exact loongson_spi_xfer_returns priv hw cs bitlen dout din flags hcs
  · intro r priv' hw' din' h
    obtain ⟨s, blocks, hs, _, _, _, _, _, _, _, e, b1, b2, b3, _, _, b6, _⟩ :=
      loongson_spi_xfer_regs priv priv' hw hw' cs bitlen dout din din' flags r hcs h
    rw [hM] at b1 b2 b6
    have hpre : ∃ pre, s.2.log = hw.log ++ pre ∧ spdr_writes pre = [] := by
      by_cases hb : flags &&& SPI_XFER_BEGIN ≠ 0
      · rw [if_pos hb] at hs
        obtain ⟨d, p, hd, hp⟩ := loongson_spi_set_cs_true_defined priv hw cs s hs
        rw [loongson_spi_set_cs_true priv hw cs d p hd hp] at hs
        injection hs with hs
        subst hs
        refine ⟨_, rfl, ?_⟩
        rw [spdr_writes_append, spdr_writes_setup]
        simp [spdr_writes, SFC_SOFTCS, SPDR]
      · rw [if_neg hb] at hs
        injection hs with hs
        subst hs
        exact ⟨[], by simp, rfl⟩
    obtain ⟨pre, hp1, hp2⟩ := hpre
    have hpost : spdr_writes (if flags &&& SPI_XFER_END ≠ 0
          then [Access.rd SFC_SOFTCS (s.2.sfc_softcs % 256),
            Access.wr SFC_SOFTCS ((s.2.sfc_softcs % 256 ||| 1 <<< (cs + 4).toNat) % 256)]
          else []) = [] := by
      split <;> simp [spdr_writes, SFC_SOFTCS, SPDR]
    refine ⟨pre, _, blocks, ?_, hp2, hpost, b1, b3, b2, ?_, ?_, ?_⟩
    · rw [e, hp1, List.append_assoc]
    · rw [spdr_writes_append, spdr_writes_append, hp2, hpost, spdr_writes_blocks, b2]
      simp
    · intro hn
      subst hn
      rfl
    · intro l hl hb
      subst hl
      exact ⟨b6 l rfl, tx_bytes_some _ l hb⟩

theorem loongson_spi_xfer_spdr_writes_witness :
    ∃ priv' hw' din',
      loongson_spi_xfer ⟨0x1fe80000, 120000000, 0, 1000000⟩ zero_bank 0 24
        (some [0x9f, 0x01, 0x02]) none 1 = .ok (0, priv', hw', din') :=
  (loongson_spi_xfer_spdr_writes ⟨0x1fe80000, 120000000, 0, 1000000⟩ zero_bank 0 24
    (some [0x9f, 0x01, 0x02]) none 1 (by decide) (by decide)).1 (fun _ => by decide)
    ⟨Or.inl (by decide), by simp, by simp⟩

/-- The polling loop under a script that reports RX-empty for the values of
`busy` and then RX-non-empty with `v`: it reads exactly these values. -/
theorem poll_rfempty_script (busy : List Nat) (v : Nat) (rest : List Nat) (fuel : Nat)
    (hw : Bank) (hs : hw.spsr_in = busy ++ v :: rest)
    (hb : ∀ x ∈ busy, rx_ready x = false) (hv : rx_ready v = true)
    (hf : busy.length < fuel) :
    poll_rfempty fuel hw = .ok { hw with
      spsr_in := rest
      log := hw.log ++ (busy ++ [v]).map (fun x => Access.rd SPSR (x % 256)) } := by
  induction busy generalizing hw fuel with
  | nil =>
    cases fuel with
    | zero => simp at hf
    | succ n =>
      rw [poll_rfempty, readb_SPSR_cons hw v rest hs, if_neg ((rx_ready_iff _).1 hv)]
      rfl
  | cons x t ih =>
    cases fuel with
    | zero => simp at hf
    | succ n =>
      have hx : (x % 256) &&& SPSR_RFEMPTY ≠ 0 := by
        intro hc
        have := (rx_ready_iff x).2 (fun hn => hn hc)
        rw [hb x (List.mem_cons_self _ _)] at this
        cases this
      rw [poll_rfempty, readb_SPSR_cons hw x (t ++ v :: rest) hs, if_pos hx]
      rw [ih n { hw with
            spsr_in := t ++ v :: rest
            log := hw.log ++ [Access.rd SPSR (x % 256)] } rfl
          (fun y hy => hb y (List.mem_cons_of_mem _ hy))
          (by simpa using hf)]
      simp only [List.cons_append, List.map_cons, List.append_assoc, List.nil_append]

theorem script_blocks_cons (t : Nat) (ts : List Nat) (g : List Nat × Nat)
    (gs : List (List Nat × Nat)) (r : Nat) (rs : List Nat) :
    script_blocks (t :: ts) (g :: gs) (r :: rs) =
      (t, (g.1 ++ [g.2]).map (· % 256), r) :: script_blocks ts gs rs := rfl

/-- The byte loop under the simulated SPSR `spsr_script segs`: it ends, and its
passes are `script_blocks`. -/
theorem xfer_loop_script (segs : List (List Nat × Nat)) (N : Nat) (tail : List Nat) (hw : Bank)
    (out : Option (List Nat)) (inb : Option (List Nat × List Nat))
    (hs : hw.spsr_in = spsr_script segs ++ tail) (hg : ∀ g ∈ segs, good_seg N g)
    (ho : ∀ l, out = some l → segs.length ≤ l.length)
    (hi : ∀ p, inb = some p → segs.length ≤ p.2.length) :
    ∃ hw' res, xfer_loop segs.length hw out inb = .ok (hw', res) ∧ hw'.spsr_in = tail ∧
      hw'.log = hw.log ++ ((script_blocks (tx_bytes segs.length out) segs
        (script_reads segs.length hw.spdr_in hw.spdr_idle)).map byte_trace).flatten := by
  induction segs generalizing hw out inb with
  | nil =>
    refine ⟨hw, _, rfl, by simpa [spsr_script] using hs, ?_⟩
    simp [script_blocks, script_reads]
  | cons g gs ih =>
    obtain ⟨g1, g2, g3⟩ := hg g (List.mem_cons_self _ _)
    simp only [List.length_cons]
    rw [xfer_loop]
    have htx : ∃ tx, xfer_tx out = .ok tx ∧ (∀ l, tx.2 = some l → gs.length ≤ l.length) ∧
        tx_bytes (gs.length + 1) out = tx.1 % 256 :: tx_bytes gs.length tx.2 := by
      cases out with
      | none => exact ⟨_, rfl, by simp, rfl⟩
      | some l =>
        cases l with
        | nil => have := ho [] rfl; simp at this
        | cons b t =>
          refine ⟨(b, some t), rfl, ?_, rfl⟩
          intro l hl
          have := ho (b :: t) rfl
          simp only [Option.some.injEq] at hl
          subst hl
          simpa using this
    obtain ⟨tx, e1, htx2, htx3⟩ := htx
    rw [e1, bind_ok]
    have hs1 : (writeb tx.1 SPDR hw).spsr_in = g.1 ++ g.2 :: (spsr_script gs ++ tail) := by
      rw [writeb_SPDR]
      simp only [hs, spsr_script, List.map_cons, List.flatten_cons, List.append_assoc,
        List.cons_append, List.nil_append]
    rw [poll_rfempty_script g.1 g.2 (spsr_script gs ++ tail) _ (writeb tx.1 SPDR hw) hs1 g2 g3
      (by rw [hs1]; simp; omega), bind_ok]
    generalize hq : ({ writeb tx.1 SPDR hw with
      spsr_in := spsr_script gs ++ tail
      log := (writeb tx.1 SPDR hw).log ++
        (g.1 ++ [g.2]).map (fun x => Access.rd SPSR (x % 256)) } : Bank) = hw1
    have q1 : hw1.spsr_in = spsr_script gs ++ tail := by rw [← hq]
    have q2 : hw1.spdr_in = hw.spdr_in := by rw [← hq, writeb_SPDR]
    have q3 : hw1.spdr_idle = hw.spdr_idle := by rw [← hq, writeb_SPDR]
    have q4 : hw1.log = hw.log ++ (Access.wr SPDR (tx.1 % 256) ::
        (g.1 ++ [g.2]).map (fun x => Access.rd SPSR (x % 256))) := by
      rw [← hq, writeb_SPDR]
      simp only [List.append_assoc, List.cons_append, List.nil_append]
    obtain ⟨r1, _, r3, r4, r5, r6⟩ := readb_SPDR_fields hw1
    have hrx : ∃ inb', xfer_rx inb (readb SPDR hw1).1 = .ok inb' ∧
        ∀ p, inb' = some p → gs.length ≤ p.2.length := by
      cases inb with
      | none => exact ⟨none, rfl, by simp⟩
      | some p =>
        obtain ⟨pre, rest⟩ := p
        cases rest with
        | nil => have := hi _ rfl; simp at this
        | cons x rest =>
          refine ⟨some (pre ++ [(readb SPDR hw1).1], rest), rfl, ?_⟩
          intro p hp
          have := hi _ rfl
          simp only [Option.some.injEq] at hp
          subst hp
          simpa using this
    obtain ⟨inb', e3, hi'⟩ := hrx
    rw [e3, bind_ok]
    obtain ⟨hw', res, f1, f2, f3⟩ := ih (readb SPDR hw1).2 tx.2 inb' (by rw [r3, q1])
      (fun g hg' => hg g (List.mem_cons_of_mem _ hg')) htx2 hi'
    refine ⟨hw', res, f1, f2, ?_⟩
    rw [f3, r5, q4, r4, q2, ← r1.2.2.2.2.2.2.2, q3, htx3, script_reads_succ, r6, q2, q3,
      script_blocks_cons]
    simp only [List.map_cons, List.flatten_cons, byte_trace, List.append_assoc,
      List.cons_append, List.nil_append, List.map_map, List.map_append]
    rfl

theorem reg_reads_append (off : Nat) (a b : List Access) :
    reg_reads off (a ++ b) = reg_reads off a ++ reg_reads off b := by
  induction a with
  | nil => rfl
  | cons x t ih =>
    cases x with
    | wr o v => simpa [reg_reads] using ih
    | rd o v =>
      by_cases h : o = off
      · simp [reg_reads, h, ih]
      · simp [reg_reads, h, ih]

theorem reg_reads_same (off : Nat) (l : List Nat) :
    reg_reads off (l.map (Access.rd off)) = l := by
  induction l with
  | nil => rfl
  | cons x t ih => simp [reg_reads, ih]

theorem reg_reads_other (off o : Nat) (l : List Nat) (h : o ≠ off) :
    reg_reads off (l.map (Access.rd o)) = [] := by
  induction l with
  | nil => rfl
  | cons x t ih => simp [reg_reads, h, ih]

theorem reg_reads_SPSR_blocks (blocks : List (Nat × List Nat × Nat)) :
    reg_reads SPSR (blocks.map byte_trace).flatten = (blocks.map (fun b => b.2.1)).flatten := by
  induction blocks with
  | nil => rfl
  | cons b t ih =>
    simp only [List.map_cons, List.flatten_cons, reg_reads_append, ih]
    simp [byte_trace, reg_reads, reg_reads_append, reg_reads_same, SPSR, SPDR]

theorem reg_reads_SPDR_blocks (blocks : List (Nat × List Nat × Nat)) :
    reg_reads SPDR (blocks.map byte_trace).flatten = blocks.map (fun b => b.2.2) := by
  induction blocks with
  | nil => rfl
  | cons b t ih =>
    simp only [List.map_cons, List.flatten_cons, reg_reads_append, ih]
    have h : reg_reads SPDR (List.map (Access.rd SPSR) b.2.1) = [] :=
      reg_reads_other SPDR SPSR _ (by decide)
    simp [byte_trace, reg_reads, reg_reads_append, h]

theorem reg_reads_setup (v w scale : Nat) (cpol cpha : Bool) :
    reg_reads SPSR (setup_effect v w scale cpol cpha).2.2 = [] ∧
    reg_reads SPDR (setup_effect v w scale cpol cpha).2.2 = [] := by
  simp [setup_effect, reg_reads, SPCR, SPSR, SPDR, SPER]

theorem script_reads_length (n : Nat) (l : List Nat) (idle : Nat) :
    (script_reads n l idle).length = n := by
  induction n generalizing l with
  | zero => rfl
  | succ n ih => rw [script_reads_succ, List.length_cons, ih]

theorem tx_bytes_length (n : Nat) (out : Option (List Nat))
    (ho : ∀ l, out = some l → n ≤ l.length) : (tx_bytes n out).length = n := by
  cases out with
  | none => simp [tx_bytes]
  | some l =>
    have := ho l rfl
    simp [tx_bytes]
    omega

theorem good_polls_of_seg (N : Nat) (g : List Nat × Nat) (hg : good_seg N g) :
    ((g.1 ++ [g.2]).map (· % 256)).length = N + 1 ∧ good_polls ((g.1 ++ [g.2]).map (· % 256)) := by
  obtain ⟨g1, g2, g3⟩ := hg
  refine ⟨by simp [g1], g.1.map (· % 256), g.2 % 256, by simp, ?_, ?_⟩
  · intro x hx
    obtain ⟨y, hy, rfl⟩ := List.mem_map.1 hx
    intro hc
    have := (rx_ready_iff y).2 (fun hn => hn hc)
    rw [g2 y hy] at this
    cases this
  · have := (rx_ready_iff g.2).1 g3
    simpa using this

theorem script_blocks_spec (N : Nat) (segs : List (List Nat × Nat)) (txs rxs : List Nat)
    (ht : txs.length = segs.length) (hr : rxs.length = segs.length)
    (hg : ∀ g ∈ segs, good_seg N g) :
    (script_blocks txs segs rxs).length = segs.length ∧
    (script_blocks txs segs rxs).map (fun b => b.1) = txs ∧
    (script_blocks txs segs rxs).map (fun b => b.2.2) = rxs ∧
    (∀ b ∈ script_blocks txs segs rxs, b.2.1.length = N + 1 ∧ good_polls b.2.1) ∧
    ((script_blocks txs segs rxs).map (fun b => b.2.1)).flatten.length =
      segs.length * (N + 1) := by
  induction segs generalizing txs rxs with
  | nil =>
    have h1 : txs = [] := List.length_eq_zero.1 ht
    have h2 : rxs = [] := List.length_eq_zero.1 hr
    subst h1 h2
    simp [script_blocks]
  | cons g gs ih =>
    cases txs with
    | nil => simp at ht
    | cons t ts =>
      cases rxs with
      | nil => simp at hr
      | cons r rs =>
        obtain ⟨i1, i2, i3, i4, i5⟩ := ih ts rs (by simpa using ht) (by simpa using hr)
          (fun g hg' => hg g (List.mem_cons_of_mem _ hg'))
        obtain ⟨p1, p2⟩ := good_polls_of_seg N g (hg g (List.mem_cons_self _ _))
        rw [script_blocks_cons]
        refine ⟨by simp [i1], by simp [i2], by simp [i3], ?_, ?_⟩
        · intro b hb
          rcases List.mem_cons.1 hb with rfl | hb
          · exact ⟨p1, p2⟩
          · exact i4 b hb
        · simp only [List.map_cons, List.flatten_cons, List.length_append, i5, p1,
            List.length_cons]
          ring

/-- C8: under a simulated SPSR that, for each byte, reports RX-empty for `N`
reads and then RX-non-empty, an `M`-byte transfer on a valid chip select
returns 0.  Its accesses are those of the begin sequence, then `M` passes, each
one write to SPDR, exactly `N + 1` reads of SPSR and one read of SPDR, then
those of the end sequence; the begin and end sequences read neither SPSR nor
SPDR.  This holds with and without `din`; with `din`, its first `M` bytes are
the bytes read from SPDR, in order, and the bytes from index `M` on are as
before. -/
theorem loongson_spi_xfer_polled (priv : loongson_spi) (hw : Bank) (cs : Int)
    (bitlen : Nat) (dout din : Option (List Nat)) (flags N : Nat)
    (segs : List (List Nat × Nat)) (tail : List Nat)
    (hcs : 0 ≤ cs ∧ cs < 4) (hlen : bitlen < 2 ^ 32) (hM : segs.length = bitlen / 8)
    (hs : hw.spsr_in = spsr_script segs ++ tail) (hg : ∀ g ∈ segs, good_seg N g)
    (hb : flags &&& SPI_XFER_BEGIN ≠ 0 →
      priv.sys_freq = 120000000 ∧ 1 ≤ priv.speed ∧ priv.speed ≤ 4174967296)
    (ho : ∀ l, dout = some l → bitlen / 8 ≤ l.length)
    (hi : ∀ l, din = some l → bitlen / 8 ≤ l.length) :
    ∃ (priv' : loongson_spi) (hw' : Bank) (din' : Option (List Nat))
      (pre post : List Access) (blocks : List (Nat × List Nat × Nat)),
      loongson_spi_xfer priv hw cs bitlen dout din flags = .ok (0, priv', hw', din') ∧
      hw'.log = hw.log ++ (pre ++ ((blocks.map byte_trace).flatten ++ post)) ∧
      reg_reads SPSR pre = [] ∧ reg_reads SPDR pre = [] ∧
      reg_reads SPSR post = [] ∧ reg_reads SPDR post = [] ∧
      blocks.length = bitlen / 8 ∧
      (∀ b ∈ blocks, b.2.1.length = N + 1 ∧ good_polls b.2.1) ∧
      blocks.map (fun b => b.1) = tx_bytes (bitlen / 8) dout ∧
      blocks.map (fun b => b.2.2) = script_reads (bitlen / 8) hw.spdr_in hw.spdr_idle ∧
      (reg_reads SPSR (pre ++ ((blocks.map byte_trace).flatten ++ post))).length =
        bitlen / 8 * (N + 1) ∧
      reg_reads SPDR (pre ++ ((blocks.map byte_trace).flatten ++ post)) =
        script_reads (bitlen / 8) hw.spdr_in hw.spdr_idle ∧
      (script_reads (bitlen / 8) hw.spdr_in hw.spdr_idle).length = bitlen / 8 ∧
      din' = din.map (fun l =>
        script_reads (bitlen / 8) hw.spdr_in hw.spdr_idle ++ l.drop (bitlen / 8)) ∧
      hw'.spsr_in = tail := by
  have hsh : (bitlen % 2 ^ 32) >>> 3 = segs.length := by
    rw [Nat.mod_eq_of_lt hlen, Nat.shiftRight_eq_div_pow, hM]
  rw [← hM] at ho hi ⊢
  -- the begin sequence
  have hbegin : ∃ s pre, (if flags &&& SPI_XFER_BEGIN ≠ 0
        then loongson_spi_set_cs priv hw cs true else .ok (priv, hw)) = .ok s ∧
      s.2.spsr_in = hw.spsr_in ∧ s.2.spdr_in = hw.spdr_in ∧ s.2.spdr_idle = hw.spdr_idle ∧
      s.2.log = hw.log ++ pre ∧ reg_reads SPSR pre = [] ∧ reg_reads SPDR pre = [] := by
    by_cases hf : flags &&& SPI_XFER_BEGIN ≠ 0
    · obtain ⟨e1, e2, e3⟩ := hb hf
      obtain ⟨d, e, a1, a2, _⟩ := clock_scale_spec priv.sys_freq priv.speed
        (by omega) (by rw [e1]; norm_num) e2 (by rw [e1]; omega)
      rw [if_pos hf, loongson_spi_set_cs_true priv hw cs d _ a1 a2]
      refine ⟨_, _, rfl, rfl, rfl, rfl, rfl, ?_, ?_⟩
      · rw [reg_reads_append, (reg_reads_setup _ _ _ _ _).1]
        simp [reg_reads, SFC_SOFTCS, SPSR]
      · rw [reg_reads_append, (reg_reads_setup _ _ _ _ _).2]
        simp [reg_reads, SFC_SOFTCS, SPDR]
    · rw [if_neg hf]
      exact ⟨_, [], rfl, rfl, rfl, rfl, by simp, rfl, rfl⟩
  obtain ⟨s, pre, hs0, s1, s2, s3, s4, s5, s6⟩ := hbegin
  -- the byte loop
  obtain ⟨t1, res, l1, l2, l3⟩ := xfer_loop_script segs N tail s.2 dout
    (din.map fun l => ([], l)) (by rw [s1, hs]) hg ho
    (by
      intro p hp
      cases din with
      | none => simp at hp
      | some l =>
        simp only [Option.map_some', Option.some.injEq] at hp
        subst hp
        exact hi l rfl)
  obtain ⟨_, _, _, _, _, _, _, _, f8, _, _⟩ := xfer_loop_frame _ _ _ _ _ _ l1
  rw [s2, s3] at l3 f8
  obtain ⟨k1, k2, k3, k4, k5⟩ := script_blocks_spec N segs (tx_bytes segs.length dout)
    (script_reads segs.length hw.spdr_in hw.spdr_idle) (tx_bytes_length _ _ ho)
    (script_reads_length _ _ _) hg
  -- the end sequence
  have hend : ∃ u post, (if flags &&& SPI_XFER_END ≠ 0
        then loongson_spi_set_cs s.1 t1 cs false else .ok (s.1, t1)) = .ok u ∧
      u.2.spsr_in = t1.spsr_in ∧ u.2.log = t1.log ++ post ∧
      reg_reads SPSR post = [] ∧ reg_reads SPDR post = [] := by
    by_cases hf : flags &&& SPI_XFER_END ≠ 0
    · rw [if_pos hf, loongson_spi_set_cs_false]
      refine ⟨_, _, rfl, rfl, rfl, ?_, ?_⟩
      · simp [reg_reads, SFC_SOFTCS, SPSR]
      · simp [reg_reads, SFC_SOFTCS, SPDR]
    · rw [if_neg hf]
      exact ⟨_, [], rfl, rfl, by simp, rfl, rfl⟩
  obtain ⟨u, post, hu, u1, u2, u3, u4⟩ := hend
  refine ⟨u.1, u.2, res, pre, post, _, ?_, ?_, s5, s6, u3, u4, k1, k4, k2, k3, ?_, ?_,
    script_reads_length _ _ _, ?_, by rw [u1, l2]⟩
  · rw [loongson_spi_xfer, if_neg (by unfold SPI_NUM_CS; omega), hs0, bind_ok, hsh, l1,
      bind_ok, hu, bind_ok]
  · rw [u2, l3, s4]
    simp only [List.append_assoc]
  · rw [reg_reads_append, reg_reads_append, s5, u3, reg_reads_SPSR_blocks, List.nil_append,
      List.append_nil, k5]
  · rw [reg_reads_append, reg_reads_append, s6, u4, reg_reads_SPDR_blocks, List.nil_append,
      List.append_nil, k3]
  · rw [f8]
    cases din <;> simp

theorem loongson_spi_xfer_polled_witness :
    ∃ (priv' : loongson_spi) (hw' : Bank),
      loongson_spi_xfer ⟨0x1fe80000, 120000000, 0, 1000000⟩
        { zero_bank with spsr_in := [1, 1, 0, 5, 3, 4], spdr_in := [0xc2, 0x20] } 0 16
        (some [0x9f, 0]) (some [0, 0, 7]) 3 = .ok (0, priv', hw', some [0xc2, 0x20, 7]) := by
  obtain ⟨priv', hw', din', pre, post, blocks, h, _, _, _, _, _, _, _, _, _, _, _, _, hd, _⟩ :=
    loongson_spi_xfer_polled ⟨0x1fe80000, 120000000, 0, 1000000⟩
      { zero_bank with spsr_in := [1, 1, 0, 5, 3, 4], spdr_in := [0xc2, 0x20] } 0 16
      (some [0x9f, 0]) (some [0, 0, 7]) 3 2 [([1, 1], 0), ([5, 3], 4)] []
      (by decide) (by decide) (by decide) (by decide)
      (by
        intro g hg
        simp only [List.mem_cons, List.mem_singleton, List.not_mem_nil, or_false] at hg
        rcases hg with rfl | rfl
        · exact ⟨rfl, by decide, by decide⟩
        · exact ⟨rfl, by decide, by decide⟩)
      (fun _ => by decide) (by simp) (by simp)
  refine ⟨priv', hw', ?_⟩
  rw [h, hd]
  rfl

/-! ## Watchdog: expire, stop, probe and the saturation threshold -/

theorem testBit_and_not32_one (x i : Nat) (hx : x < 2 ^ 32) :
    ((x &&& not32 1) % 2 ^ 32).testBit i = (x.testBit i && decide (i ≠ 0)) := by
  have hm : not32 1 = 2 * (2 ^ 31 - 1) := by decide
  have hle : x &&& not32 1 < 2 ^ 32 := Nat.lt_of_le_of_lt Nat.and_le_left hx
  rw [Nat.mod_eq_of_lt hle, Nat.testBit_and, hm]
  cases i with
  | zero =>
    have : Nat.testBit (2 * (2 ^ 31 - 1)) 0 = false := by decide
    simp [this]
  | succ j =>
    have hM : (2 * (2 ^ 31 - 1)).testBit (j + 1) = decide (j < 31) := by
      rw [Nat.testBit_succ, Nat.mul_div_cancel_left _ (by norm_num : 0 < 2),
        Nat.testBit_two_pow_sub_one]
    rw [hM]
    by_cases hj : j < 31
    · simp [hj]
    · have : x.testBit (j + 1) = false := by
        apply Nat.testBit_lt_two_pow
        calc x < 2 ^ 32 := hx
          _ ≤ 2 ^ (j + 1) := Nat.pow_le_pow_right (by norm_num) (by omega)
      simp [this]

theorem ls1c_wdt_stop_eq (priv : ls1c_wdt) (hw : WdtBank) :
    ls1c_wdt_stop priv hw =
      (0, priv,
        { hw with
          wdt_en := (hw.wdt_en % 2 ^ 32 &&& not32 1) % 2 ^ 32
          log := hw.log ++ [Access.rd WDT_EN (hw.wdt_en % 2 ^ 32),
            Access.wr WDT_EN ((hw.wdt_en % 2 ^ 32 &&& not32 1) % 2 ^ 32)] }) := by
  simp [ls1c_wdt_stop, clrbits_32, writel, readl, WDT_EN, TIMER_ENABLE, BIT]

/-- C11: `expire_now(flags)` is `start(1, flags)`: from every state both return
0 and end in the same instance and registers (and the same accesses), with the
recorded timeout 1, bit 0 of WDT_EN set, WDT_TIMER = 120_000 and bit 0 of
WDT_SET set. -/
theorem ls1c_wdt_expire_eq_start (priv : ls1c_wdt) (hw : WdtBank) (flags : Nat) :
    ls1c_wdt_expire priv hw flags = ls1c_wdt_start priv hw 1 flags ∧
    (ls1c_wdt_expire priv hw flags).1 = 0 ∧
    (ls1c_wdt_start priv hw 1 flags).1 = 0 ∧
    (ls1c_wdt_expire priv hw flags).2.1.timeout = 1 ∧
    (ls1c_wdt_expire priv hw flags).2.1.regs = priv.regs ∧
    (ls1c_wdt_expire priv hw flags).2.2.wdt_en.testBit 0 = true ∧
    (ls1c_wdt_expire priv hw flags).2.2.wdt_timer = 120000 ∧
    (ls1c_wdt_expire priv hw flags).2.2.wdt_set.testBit 0 = true := by
  have e : ls1c_wdt_expire priv hw flags = ls1c_wdt_start priv hw 1 flags := by
    rw [ls1c_wdt_expire, ls1c_wdt_start_eq]
  have h1 : wdt_ticks (1 % 2 ^ 64) = 120000 := by decide
  rw [e, ls1c_wdt_start_eq, h1]
  refine ⟨rfl, rfl, rfl, rfl, rfl, ?_, rfl, ?_⟩
  · simp [testBit_or_one]
  · simp [testBit_or_one]

/-- C12: `stop` returns 0, clears bit 0 of WDT_EN and leaves every other bit of
WDT_EN, the registers WDT_TIMER and WDT_SET and the instance (its recorded
timeout included) as they are; it accesses WDT_EN only.  A probe with a
non-empty mapping returns 0 and ends with bit 0 of WDT_EN clear; a probe with
an empty mapping returns `-EINVAL` and leaves the registers and the log of
accesses as they are. -/
theorem ls1c_wdt_stop_frame (priv : ls1c_wdt) (hw : WdtBank) (addr : Nat)
    (hen : hw.wdt_en < 2 ^ 32) :
    (ls1c_wdt_stop priv hw).1 = 0 ∧
    (ls1c_wdt_stop priv hw).2.1 = priv ∧
    (∀ i, (ls1c_wdt_stop priv hw).2.2.wdt_en.testBit i =
      (hw.wdt_en.testBit i && decide (i ≠ 0))) ∧
    (ls1c_wdt_stop priv hw).2.2.wdt_timer = hw.wdt_timer ∧
    (ls1c_wdt_stop priv hw).2.2.wdt_set = hw.wdt_set ∧
    (∃ v w, (ls1c_wdt_stop priv hw).2.2.log =
      hw.log ++ [Access.rd WDT_EN v, Access.wr WDT_EN w]) ∧
    (addr ≠ 0 →
      (ls1c_wdt_probe priv hw addr).1 = 0 ∧
      (ls1c_wdt_probe priv hw addr).2.1 = { priv with regs := addr } ∧
      (ls1c_wdt_probe priv hw addr).2.2.wdt_en.testBit 0 = false ∧
      (ls1c_wdt_probe priv hw addr).2.2 = (ls1c_wdt_stop priv hw).2.2) ∧
    (ls1c_wdt_probe priv hw 0).1 = -EINVAL ∧
    (ls1c_wdt_probe priv hw 0).2.2 = hw := by
  have hb : ∀ i, ((hw.wdt_en % 2 ^ 32 &&& not32 1) % 2 ^ 32).testBit i =
      (hw.wdt_en.testBit i && decide (i ≠ 0)) := by
    intro i
    rw [Nat.mod_eq_of_lt hen]
    exact testBit_and_not32_one _ i hen
  have hp : ∀ a, a ≠ 0 → ls1c_wdt_probe priv hw a =
      (0, { priv with regs := a }, (ls1c_wdt_stop priv hw).2.2) := by
    intro a ha
    rw [ls1c_wdt_probe]
    simp only [ha, if_false, ls1c_wdt_stop_eq]
  have hp0 : ls1c_wdt_probe priv hw 0 = (-EINVAL, { priv with regs := 0 }, hw) := by
    rw [ls1c_wdt_probe]
    simp only [if_true]
  refine ⟨rfl, rfl, ?_, ?_, ?_, ?_, ?_, ?_, ?_⟩
  · intro i
    rw [ls1c_wdt_stop_eq]
    exact hb i
  · rw [ls1c_wdt_stop_eq]
  · rw [ls1c_wdt_stop_eq]
  · rw [ls1c_wdt_stop_eq]
    exact ⟨_, _, rfl⟩
  · intro ha
    rw [hp addr ha]
    refine ⟨rfl, rfl, ?_, rfl⟩
    rw [ls1c_wdt_stop_eq]
    have := hb 0
    simpa using this
  · rw [hp0]
  · rw [hp0]

theorem ls1c_wdt_stop_frame_witness :
    (ls1c_wdt_stop ⟨1, 5000⟩ ⟨0x13, 600000000, 1, []⟩).2.2.wdt_en = 0x12 ∧
    (ls1c_wdt_stop ⟨1, 5000⟩ ⟨0x13, 600000000, 1, []⟩).2.2.wdt_timer = 600000000 ∧
    (ls1c_wdt_probe ⟨0, 0⟩ ⟨0x13, 600000000, 1, []⟩ 0x1fe5c060).1 = 0 ∧
    (ls1c_wdt_probe ⟨0, 0⟩ ⟨0x13, 600000000, 1, []⟩ 0).2.2 = ⟨0x13, 600000000, 1, []⟩ :=
  ⟨by decide,
   (ls1c_wdt_stop_frame ⟨1, 5000⟩ ⟨0x13, 600000000, 1, []⟩ 0x1fe5c060 (by decide)).2.2.2.1,
   ((ls1c_wdt_stop_frame ⟨0, 0⟩ ⟨0x13, 600000000, 1, []⟩ 0x1fe5c060 (by decide)).2.2.2.2.2.2.1
     (by decide)).1,
   (ls1c_wdt_stop_frame ⟨0, 0⟩ ⟨0x13, 600000000, 1, []⟩ 0x1fe5c060 (by decide)).2.2.2.2.2.2.2.2⟩

theorem wdt_ticks_below (t : Nat) (h : t ≤ 35791) : wdt_ticks t = 120000 * t := by
  rw [wdt_ticks_eq_min]
  have h1 : 120000000 * t % 2 ^ 64 = 120000000 * t := Nat.mod_eq_of_lt (by omega)
  have h2 : 120000000 * t / 1000 = 120000 * t := by omega
  rw [h1, h2]
  exact Nat.min_eq_left (by omega)

theorem wdt_ticks_saturated (t : Nat) (h1 : 35792 ≤ t) (h2 : t ≤ 153722867280) :
    wdt_ticks t = 4294967295 := by
  rw [wdt_ticks_eq_min]
  have e1 : 120000000 * t % 2 ^ 64 = 120000000 * t := Nat.mod_eq_of_lt (by omega)
  have e2 : 120000000 * t / 1000 = 120000 * t := by omega
  rw [e1, e2]
  exact Nat.min_eq_right (by omega)

/-- C18: for every timeout of at most 35_791 ms, `start` (and every later
refresh) writes exactly `120_000 * timeout_ms` to WDT_TIMER, a value below
`2^32`; for every timeout from 35_792 ms to 153_722_867_280 ms it writes
0xFFFFFFFF. -/
theorem ls1c_wdt_saturation_threshold (priv : ls1c_wdt) (hw : WdtBank) (t flags : Nat) :
    (t ≤ 35791 →
      (ls1c_wdt_start priv hw t flags).2.2.wdt_timer = 120000 * t ∧
      120000 * t < 2 ^ 32 ∧
      Access.wr WDT_TIMER (120000 * t) ∈ (ls1c_wdt_start priv hw t flags).2.2.log ∧
      (ls1c_wdt_reset (ls1c_wdt_start priv hw t flags).2.1
        (ls1c_wdt_start priv hw t flags).2.2).2.2.wdt_timer = 120000 * t) ∧
    (35792 ≤ t → t ≤ 153722867280 →
      (ls1c_wdt_start priv hw t flags).2.2.wdt_timer = 0xFFFFFFFF ∧
      120000 * t > 0xFFFFFFFF ∧
      Access.wr WDT_TIMER 0xFFFFFFFF ∈ (ls1c_wdt_start priv hw t flags).2.2.log ∧
      (ls1c_wdt_reset (ls1c_wdt_start priv hw t flags).2.1
        (ls1c_wdt_start priv hw t flags).2.2).2.2.wdt_timer = 0xFFFFFFFF) := by
  constructor
  · intro h
    have hm : t % 2 ^ 64 = t := Nat.mod_eq_of_lt (by omega)
    simp only [ls1c_wdt_start_eq, ls1c_wdt_reset, ls1c_wdt_ping_eq, hm, wdt_ticks_below t h]
    refine ⟨trivial, by omega, by simp, trivial⟩
  · intro h1 h2
    have hm : t % 2 ^ 64 = t := Nat.mod_eq_of_lt (by omega)
    simp only [ls1c_wdt_start_eq, ls1c_wdt_reset, ls1c_wdt_ping_eq, hm,
      wdt_ticks_saturated t h1 h2]
    refine ⟨trivial, by omega, by simp, trivial⟩

theorem ls1c_wdt_saturation_threshold_witness :
    (ls1c_wdt_start ⟨1, 0⟩ ⟨0, 0, 0, []⟩ 35791 0).2.2.wdt_timer = 4294920000 ∧
    (ls1c_wdt_start ⟨1, 0⟩ ⟨0, 0, 0, []⟩ 35792 0).2.2.wdt_timer = 4294967295 :=
  ⟨((ls1c_wdt_saturation_threshold ⟨1, 0⟩ ⟨0, 0, 0, []⟩ 35791 0).1 (by decide)).1,
   ((ls1c_wdt_saturation_threshold ⟨1, 0⟩ ⟨0, 0, 0, []⟩ 35792 0).2 (by decide) (by decide)).1⟩

/-! ## SPI: recording mode and speed, and the clock divisor on its domain -/

/-- C14: for every register window and every argument, `set_mode(m)` and
`set_speed(hz)` return 0 and leave the register window exactly as it was: every
register, the values the device will present, and the access log, so no
register has been read or written.  Of the instance only the recorded mode,
respectively the recorded speed, changes, to the argument taken as a `uint`
(the argument itself when below `2^32`); base address, reference frequency and
the other of speed and mode are as before. -/
theorem loongson_spi_set_mode_speed_frame (priv : loongson_spi) (hw : Bank) (m hz : Nat) :
    (loongson_spi_set_mode priv hw m).1 = 0 ∧
    (loongson_spi_set_mode priv hw m).2.2 = hw ∧
    (loongson_spi_set_mode priv hw m).2.2.log = hw.log ∧
    (∀ off v, Access.wr off v ∈ (loongson_spi_set_mode priv hw m).2.2.log →
      Access.wr off v ∈ hw.log) ∧
    (∀ off v, Access.rd off v ∈ (loongson_spi_set_mode priv hw m).2.2.log →
      Access.rd off v ∈ hw.log) ∧
    (loongson_spi_set_mode priv hw m).2.1.mode = m % 2 ^ 32 ∧
    (m < 2 ^ 32 → (loongson_spi_set_mode priv hw m).2.1.mode = m) ∧
    (loongson_spi_set_mode priv hw m).2.1.regs = priv.regs ∧
    (loongson_spi_set_mode priv hw m).2.1.sys_freq = priv.sys_freq ∧
    (loongson_spi_set_mode priv hw m).2.1.speed = priv.speed ∧
    (loongson_spi_set_speed priv hw hz).1 = 0 ∧
    (loongson_spi_set_speed priv hw hz).2.2 = hw ∧
    (loongson_spi_set_speed priv hw hz).2.2.log = hw.log ∧
    (∀ off v, Access.wr off v ∈ (loongson_spi_set_speed priv hw hz).2.2.log →
      Access.wr off v ∈ hw.log) ∧
    (∀ off v, Access.rd off v ∈ (loongson_spi_set_speed priv hw hz).2.2.log →
      Access.rd off v ∈ hw.log) ∧
    (loongson_spi_set_speed priv hw hz).2.1.speed = hz % 2 ^ 32 ∧
    (hz < 2 ^ 32 → (loongson_spi_set_speed priv hw hz).2.1.speed = hz) ∧
    (loongson_spi_set_speed priv hw hz).2.1.regs = priv.regs ∧
    (loongson_spi_set_speed priv hw hz).2.1.sys_freq = priv.sys_freq ∧
    (loongson_spi_set_speed priv hw hz).2.1.mode = priv.mode := by
  refine ⟨rfl, rfl, rfl, fun _ _ h => h, fun _ _ h => h, rfl, fun h => ?_, rfl, rfl, rfl,
    rfl, rfl, rfl, fun _ _ h => h, fun _ _ h => h, rfl, fun h => ?_, rfl, rfl, rfl⟩
  · exact Nat.mod_eq_of_lt h
  · exact Nat.mod_eq_of_lt h

theorem loongson_spi_set_mode_speed_frame_witness :
    (loongson_spi_set_mode ⟨0x1fe80000, 120000000, 0, 1000000⟩
      { zero_bank with
        spcr := 0x50
        sfc_softcs := 0xff
        log := [Access.wr SFC_SOFTCS 0xff] } 3).2.1 = ⟨0x1fe80000, 120000000, 3, 1000000⟩ ∧
    (loongson_spi_set_speed ⟨0x1fe80000, 120000000, 0, 1000000⟩
      { zero_bank with
        spcr := 0x50
        sfc_softcs := 0xff
        log := [Access.wr SFC_SOFTCS 0xff] } 25000000).2.2.log = [Access.wr SFC_SOFTCS 0xff] ∧
    (loongson_spi_set_speed ⟨0x1fe80000, 120000000, 0, 1000000⟩
      { zero_bank with
        spcr := 0x50
        sfc_softcs := 0xff
        log := [Access.wr SFC_SOFTCS 0xff] } 25000000).2.1.speed = 25000000 :=
  ⟨rfl,
   (loongson_spi_set_mode_speed_frame ⟨0x1fe80000, 120000000, 0, 1000000⟩
      { zero_bank with
        spcr := 0x50
        sfc_softcs := 0xff
        log := [Access.wr SFC_SOFTCS 0xff] } 3 25000000).2.2.2.2.2.2.2.2.2.2.2.2.1,
   (loongson_spi_set_mode_speed_frame ⟨0x1fe80000, 120000000, 0, 1000000⟩
      { zero_bank with
        spcr := 0x50
        sfc_softcs := 0xff
        log := [Access.wr SFC_SOFTCS 0xff] } 3 25000000).2.2.2.2.2.2.2.2.2.2.2.2.2.2.2.2.1
      (by decide)⟩

/-- The exponent of the clock computation is the least one whose power of two
reaches the divisor. -/
theorem clock_scale_least (d e : Nat) (he : e = fls (d - 1)) (h1 : 1 ≤ d) (h2 : d ≤ 2 ^ e)
    (h3 : 2 ≤ d → 2 ^ (e - 1) < d) :
    (1 ≤ e → 2 ≤ d ∧ 2 ^ (e - 1) < d) ∧ (∀ k, d ≤ 2 ^ k → e ≤ k) := by
  have h0 : d = 1 → e = 0 := by
    intro hd
    subst hd
    subst he
    decide
  constructor
  · intro h
    have : 2 ≤ d := by
      by_contra hc
      have := h0 (by omega)
      omega
    exact ⟨this, h3 this⟩
  · intro k hk
    by_cases hd : d = 1
    · have := h0 hd
      omega
    · have := h3 (by omega)
      have hlt : 2 ^ (e - 1) < 2 ^ k := Nat.lt_of_lt_of_le this hk
      have := (Nat.pow_lt_pow_iff_right (a := 2) (by norm_num)).1 hlt
      omega

/-- The clock computation of the begin sequence for the 120 MHz reference and a
recorded speed `S` in `[1, 2^32 - 120_000_000]`. -/
theorem clock_scale_120MHz (S : Nat) (h1 : 1 ≤ S) (h2 : S ≤ 4174967296) :
    ∃ d e, DIV_ROUND_UP 120000000 S = .ok d ∧ roundup_pow_of_two d = .ok (2 ^ e) ∧
      ilog2 (2 ^ e) = e ∧ clock_scale 120000000 S = .ok e ∧
      d = (120000000 + S - 1) / S ∧ 120000000 + S - 1 < 2 ^ 32 ∧
      120000000 ≤ d * S ∧ (d - 1) * S < 120000000 ∧ 1 ≤ d ∧ d ≤ 120000000 ∧
      e ≤ 27 ∧ d ≤ 2 ^ e ∧ (1 ≤ e → 2 ≤ d ∧ 2 ^ (e - 1) < d) ∧ (∀ k, d ≤ 2 ^ k → e ≤ k) := by
  obtain ⟨d, e, a1, a2, a3, a4, a5, a6, a7, a8, a9, a10, a11⟩ :=
    clock_scale_spec 120000000 S (by norm_num) (by norm_num) h1 (by omega)
  obtain ⟨b1, b2⟩ := clock_scale_least d e a5 a7 a10 a11
  refine ⟨d, e, a1, a2, a3, ?_, a4, by omega, a9, ?_, a7, a8, ?_, a10, b1, b2⟩
  · rw [clock_scale, a1, bind_ok, a2, bind_ok, a3]
  · have h := Nat.div_mul_le_self (120000000 + S - 1) S
    rw [← a4] at h
    have hS : S ≤ d * S := Nat.le_mul_of_pos_left S (by omega)
    rw [Nat.sub_mul, Nat.one_mul]
    omega
  · exact b2 27 (by omega)

/-- `loongson_spi_master_setup` returns exactly when `clock_scale` does, and
then records the reference clock shifted right by the scale. -/
theorem loongson_spi_master_setup_scale (priv : loongson_spi) (hw : Bank) (cs : Int) (e : Nat)
    (h : clock_scale priv.sys_freq priv.speed = .ok e) :
    ∃ hw', loongson_spi_master_setup priv hw cs =
        .ok ({ priv with speed := priv.sys_freq >>> e }, hw') ∧
      hw'.spcr = (setup_effect (hw.spcr % 256) (hw.sper % 256) e
        (decide (priv.mode &&& SPI_CPOL ≠ 0)) (decide (priv.mode &&& SPI_CPHA ≠ 0))).1 ∧
      hw'.sper = (setup_effect (hw.spcr % 256) (hw.sper % 256) e
        (decide (priv.mode &&& SPI_CPOL ≠ 0)) (decide (priv.mode &&& SPI_CPHA ≠ 0))).2.1 := by
  rw [clock_scale] at h
  obtain ⟨d, hd, h⟩ := bind_eq_ok _ _ _ h
  obtain ⟨p, hp, h⟩ := bind_eq_ok _ _ _ h
  injection h with h
  rw [loongson_spi_master_setup_eq priv hw cs d p hd hp, h]
  exact ⟨_, rfl, rfl, rfl⟩

/-- C20: for every recorded speed `S` with `1 ≤ S ≤ 4_174_967_296` the 32-bit
`DIV_ROUND_UP(120_000_000, S)` has a result `d`, the sum in it does not wrap,
`d` is the exact ceiling of `120_000_000 / S` and `1 ≤ d ≤ 120_000_000`; the
exponent `e = ilog2(roundup_pow_of_two(d))` is defined, at most 27, and
`2^(e-1) < d ≤ 2^e` when `e ≥ 1`; so `loongson_spi_master_setup` returns. -/
theorem clock_derivation_defined (S : Nat) (h1 : 1 ≤ S) (h2 : S ≤ 4174967296) :
    ∃ d p e, DIV_ROUND_UP 120000000 S = .ok d ∧ S ≠ 0 ∧ 120000000 + S - 1 < 2 ^ 32 ∧
      d = (120000000 + S - 1) / S ∧ 120000000 ≤ d * S ∧ (d - 1) * S < 120000000 ∧
      1 ≤ d ∧ d ≤ 120000000 ∧
      roundup_pow_of_two d = .ok p ∧ ilog2 p = e ∧ p = 2 ^ e ∧ e ≤ 27 ∧ d ≤ 2 ^ e ∧
      (1 ≤ e → 2 ^ (e - 1) < d) ∧
      ∀ (priv : loongson_spi) (hw : Bank) (cs : Int),
        priv.sys_freq = 120000000 → priv.speed = S →
        ∃ hw', loongson_spi_master_setup priv hw cs =
          .ok ({ priv with speed := 120000000 >>> e }, hw') := by
  obtain ⟨d, e, a1, a2, a3, a4, a5, a6, a7, a8, a9, a10, a11, a12, a13, _⟩ :=
    clock_scale_120MHz S h1 h2
  refine ⟨d, 2 ^ e, e, a1, by omega, a6, a5, a7, a8, a9, a10, a2, a3, rfl, a11, a12,
    fun h => (a13 h).2, ?_⟩
  intro priv hw cs hf hs
  obtain ⟨hw', h, _⟩ := loongson_spi_master_setup_scale priv hw cs e (by rw [hf, hs]; exact a4)
  rw [← hf]
  exact ⟨hw', h⟩

theorem clock_derivation_defined_witness :
    ∃ d p e, DIV_ROUND_UP 120000000 4174967296 = .ok d ∧ (4174967296 : Nat) ≠ 0 ∧
      120000000 + 4174967296 - 1 < 2 ^ 32 ∧
      d = (120000000 + 4174967296 - 1) / 4174967296 ∧ 120000000 ≤ d * 4174967296 ∧
      (d - 1) * 4174967296 < 120000000 ∧ 1 ≤ d ∧ d ≤ 120000000 ∧
      roundup_pow_of_two d = .ok p ∧ ilog2 p = e ∧ p = 2 ^ e ∧ e ≤ 27 ∧ d ≤ 2 ^ e ∧
      (1 ≤ e → 2 ^ (e - 1) < d) ∧
      ∀ (priv : loongson_spi) (hw : Bank) (cs : Int),
        priv.sys_freq = 120000000 → priv.speed = 4174967296 →
        ∃ hw', loongson_spi_master_setup priv hw cs =
          .ok ({ priv with speed := 120000000 >>> e }, hw') :=
  clock_derivation_defined 4174967296 (by decide) (by decide)

/-! ## SPI: the clock setting of the begin sequence -/

/-- C15: for a requested speed `S` with `3663 ≤ S ≤ 4_174_967_296` recorded by
`set_speed`, the controller setup of the begin sequence returns; with
`d = ceil(120_000_000 / S)` and `e` the least exponent with `d ≤ 2^e`, one has
`e ≤ 15`, the recorded speed becomes `120_000_000 >> e ≤ S`, SPCR[1:0] holds
the low two bits of `e`, SPER[1:0] the high two bits, SPER bits 7:2 are as
before, and `(SPER[1:0] << 2) | SPCR[1:0] = e`. -/
theorem loongson_spi_master_setup_spec (priv : loongson_spi) (hw : Bank) (cs : Int) (S : Nat)
    (hfreq : priv.sys_freq = 120000000) (h1 : 3663 ≤ S) (h2 : S ≤ 4174967296) :
    ∃ d e priv' hw',
      loongson_spi_master_setup (loongson_spi_set_speed priv hw S).2.1
        (loongson_spi_set_speed priv hw S).2.2 cs = .ok (priv', hw') ∧
      d = (120000000 + S - 1) / S ∧ 120000000 ≤ d * S ∧ (d - 1) * S < 120000000 ∧
      DIV_ROUND_UP 120000000 S = .ok d ∧
      roundup_pow_of_two d = .ok (2 ^ e) ∧ ilog2 (2 ^ e) = e ∧
      d ≤ 2 ^ e ∧ (∀ k, d ≤ 2 ^ k → e ≤ k) ∧ e ≤ 15 ∧
      priv'.speed = 120000000 >>> e ∧ priv'.speed ≤ S ∧
      priv'.regs = priv.regs ∧ priv'.sys_freq = priv.sys_freq ∧ priv'.mode = priv.mode ∧
      hw'.spcr &&& 3 = e &&& 3 ∧ hw'.sper &&& 3 = (e >>> 2) &&& 3 ∧
      hw'.sper / 4 = hw.sper % 256 / 4 ∧
      programmed_exponent hw' = e := by
  obtain ⟨d, e, a1, a2, a3, a4, a5, a6, a7, a8, a9, a10, a11, a12, a13, a14⟩ :=
    clock_scale_120MHz S (by omega) h2
  have hd : d ≤ 32768 := by
    rw [a5]
    exact Nat.lt_succ_iff.1 ((Nat.div_lt_iff_lt_mul (by omega)).2 (by omega))
  have he : e ≤ 15 := a14 15 (by omega)
  have hsp : 120000000 >>> e ≤ S := by
    rw [Nat.shiftRight_eq_div_pow]
    exact Nat.div_le_of_le_mul (Nat.le_trans a7 (Nat.mul_le_mul_right S a12))
  rw [loongson_spi_set_speed_eq priv hw S (by omega)]
  obtain ⟨hw', h, hc, hs⟩ :=
    loongson_spi_master_setup_scale { priv with speed := S } hw cs e (by rw [hfreq]; exact a4)
  have hc3 := (setup_spcr_low (hw.spcr % 256) (hw.sper % 256) e
    (decide (priv.mode &&& SPI_CPOL ≠ 0)) (decide (priv.mode &&& SPI_CPHA ≠ 0))
    (Nat.mod_lt _ (by norm_num))).1
  have hs3 := setup_sper_low (hw.spcr % 256) (hw.sper % 256) e
    (decide (priv.mode &&& SPI_CPOL ≠ 0)) (decide (priv.mode &&& SPI_CPHA ≠ 0))
    (Nat.mod_lt _ (by norm_num))
  have hc' : hw'.spcr &&& 3 = e &&& 3 := by rw [hc]; exact hc3
  have hs' : hw'.sper &&& 3 = (e >>> 2) &&& 3 := by rw [hs]; exact hs3.1
  refine ⟨d, e, _, hw', h, a5, a7, a8, a1, a2, a3, a12, a14, he, ?_, ?_, rfl, rfl, rfl,
    hc', hs', ?_, ?_⟩
  · show priv.sys_freq >>> e = 120000000 >>> e
    rw [hfreq]
  · show priv.sys_freq >>> e ≤ S
    rw [hfreq]
    exact hsp
  · rw [hs]
    exact hs3.2
  · rw [programmed_exponent, hc', hs']
    exact exponent_bits e (by omega)

theorem loongson_spi_master_setup_spec_witness :
    ∃ d e priv' hw',
      loongson_spi_master_setup
        (loongson_spi_set_speed ⟨0x1fe80000, 120000000, 0, 0⟩ zero_bank 25000000).2.1
        (loongson_spi_set_speed ⟨0x1fe80000, 120000000, 0, 0⟩ zero_bank 25000000).2.2 0 =
          .ok (priv', hw') ∧
      d = (120000000 + 25000000 - 1) / 25000000 ∧ 120000000 ≤ d * 25000000 ∧
      (d - 1) * 25000000 < 120000000 ∧
      DIV_ROUND_UP 120000000 25000000 = .ok d ∧
      roundup_pow_of_two d = .ok (2 ^ e) ∧ ilog2 (2 ^ e) = e ∧
      d ≤ 2 ^ e ∧ (∀ k, d ≤ 2 ^ k → e ≤ k) ∧ e ≤ 15 ∧
      priv'.speed = 120000000 >>> e ∧ priv'.speed ≤ 25000000 ∧
      priv'.regs = 0x1fe80000 ∧ priv'.sys_freq = 120000000 ∧ priv'.mode = 0 ∧
      hw'.spcr &&& 3 = e &&& 3 ∧ hw'.sper &&& 3 = (e >>> 2) &&& 3 ∧
      hw'.sper / 4 = zero_bank.sper % 256 / 4 ∧
      programmed_exponent hw' = e :=
  loongson_spi_master_setup_spec ⟨0x1fe80000, 120000000, 0, 0⟩ zero_bank 0 25000000 rfl
    (by decide) (by decide)

/-- The scenario of the spec: a requested speed of 25 MHz gives the exponent 3
in the registers and the recorded speed 15 MHz. -/
theorem clock_scale_25MHz :
    (clock_scale 120000000 25000000).toOption = some 3 ∧
    120000000 >>> 3 = 15000000 ∧
    ((loongson_spi_master_setup
        (loongson_spi_set_speed ⟨0x1fe80000, 120000000, 0, 0⟩ zero_bank 25000000).2.1
        (loongson_spi_set_speed ⟨0x1fe80000, 120000000, 0, 0⟩ zero_bank 25000000).2.2 0).toOption.map
      fun r => (r.1.speed, programmed_exponent r.2)) = some (15000000, 3) := by
  decide

/-- C16: for a requested speed `S` with `1 ≤ S ≤ 120_000_000` recorded by
`set_speed`, the controller setup of the begin sequence returns and the speed
`s` it records satisfies `S / 2 ≤ s ≤ S` (`/` rounding down). -/
theorem loongson_spi_master_setup_half (priv : loongson_spi) (hw : Bank) (cs : Int) (S : Nat)
    (hfreq : priv.sys_freq = 120000000) (h1 : 1 ≤ S) (h2 : S ≤ 120000000) :
    ∃ priv' hw',
      loongson_spi_master_setup (loongson_spi_set_speed priv hw S).2.1
        (loongson_spi_set_speed priv hw S).2.2 cs = .ok (priv', hw') ∧
      S / 2 ≤ priv'.speed ∧ priv'.speed ≤ S := by
  obtain ⟨d, e, a1, a2, a3, a4, a5, a6, a7, a8, a9, a10, a11, a12, a13, a14⟩ :=
    clock_scale_120MHz S h1 (by omega)
  rw [loongson_spi_set_speed_eq priv hw S (by omega)]
  obtain ⟨hw', h, _, _⟩ :=
    loongson_spi_master_setup_scale { priv with speed := S } hw cs e (by rw [hfreq]; exact a4)
  refine ⟨_, hw', h, ?_, ?_⟩
  · show S / 2 ≤ priv.sys_freq >>> e
    rw [hfreq, Nat.shiftRight_eq_div_pow, Nat.le_div_iff_mul_le (Nat.pow_pos (by norm_num))]
    by_cases he : e = 0
    · subst he
      have := Nat.div_le_self S 2
      omega
    · obtain ⟨_, hlt⟩ := a13 (by omega)
      have hp : 2 ^ e = 2 * 2 ^ (e - 1) := by
        obtain ⟨k, rfl⟩ : ∃ k, e = k + 1 := ⟨e - 1, by omega⟩
        rw [Nat.add_sub_cancel, Nat.pow_succ']
      have hle : 2 ^ (e - 1) * S ≤ (d - 1) * S := Nat.mul_le_mul_right S (by omega)
      have h2S : S / 2 * 2 ≤ S := Nat.div_mul_le_self S 2
      calc S / 2 * 2 ^ e = (S / 2 * 2) * 2 ^ (e - 1) := by rw [hp, Nat.mul_assoc]
        _ ≤ S * 2 ^ (e - 1) := Nat.mul_le_mul_right _ h2S
        _ = 2 ^ (e - 1) * S := Nat.mul_comm _ _
        _ ≤ 120000000 := by omega
  · show priv.sys_freq >>> e ≤ S
    rw [hfreq, Nat.shiftRight_eq_div_pow]
    exact Nat.div_le_of_le_mul (Nat.le_trans a7 (Nat.mul_le_mul_right S a12))

theorem loongson_spi_master_setup_half_witness :
    ∃ priv' hw',
      loongson_spi_master_setup
        (loongson_spi_set_speed ⟨0x1fe80000, 120000000, 0, 0⟩ zero_bank 1000).2.1
        (loongson_spi_set_speed ⟨0x1fe80000, 120000000, 0, 0⟩ zero_bank 1000).2.2 0 =
          .ok (priv', hw') ∧
      1000 / 2 ≤ priv'.speed ∧ priv'.speed ≤ 1000 :=
  loongson_spi_master_setup_half ⟨0x1fe80000, 120000000, 0, 0⟩ zero_bank 0 1000 rfl
    (by decide) (by decide)

/-- The clock computation applied to its own result: from the recorded speed
`120_000_000 >> e` the exponent `e` is found again when `e ≤ 9`, and a larger
exponent with a smaller speed when `10 ≤ e ≤ 26`. -/
theorem clock_scale_again : ∀ e < 27,
    (clock_scale 120000000 (120000000 >>> e)).toOption.map (fun e2 =>
      decide ((e ≤ 9 → e2 = e) ∧
        (9 < e → e < e2 ∧ 120000000 >>> e2 < 120000000 >>> e))) = some true := by
  decide

/-- C19: for a requested speed `S` with `2 ≤ S ≤ 120_000_000` recorded by
`set_speed`, the first controller setup returns with the exponent `e1` and the
recorded speed `s1 = 120_000_000 >> e1`; a second setup with no `set_speed` in
between, from any register contents, returns with the exponent `e2` and the
recorded speed `s2 = 120_000_000 >> e2`; `e2 = e1` and `s2 = s1` exactly when
`ceil(120_000_000 / S) ≤ 512`, which is exactly when `e1 ≤ 9`, and otherwise
`e1 < e2` and `s2 < s1`.  The exponents are the values of `scale` computed by
the setup. -/
theorem loongson_spi_master_setup_twice (priv : loongson_spi) (hw : Bank) (cs : Int) (S : Nat)
    (hfreq : priv.sys_freq = 120000000) (h1 : 2 ≤ S) (h2 : S ≤ 120000000) :
    ∃ e1 e2 p1 hw1,
      clock_scale 120000000 S = .ok e1 ∧
      loongson_spi_master_setup (loongson_spi_set_speed priv hw S).2.1
        (loongson_spi_set_speed priv hw S).2.2 cs = .ok (p1, hw1) ∧
      p1.speed = 120000000 >>> e1 ∧
      clock_scale p1.sys_freq p1.speed = .ok e2 ∧
      ((120000000 + S - 1) / S ≤ 512 ↔ e1 ≤ 9) ∧
      ∀ hwx : Bank, ∃ p2 hw2,
        loongson_spi_master_setup p1 hwx cs = .ok (p2, hw2) ∧
        p2.speed = 120000000 >>> e2 ∧
        ((e2 = e1 ∧ p2.speed = p1.speed) ↔ (120000000 + S - 1) / S ≤ 512) ∧
        (¬ (120000000 + S - 1) / S ≤ 512 → e1 < e2 ∧ p2.speed < p1.speed) := by
  obtain ⟨d, e1, a1, a2, a3, a4, a5, a6, a7, a8, a9, a10, a11, a12, a13, a14⟩ :=
    clock_scale_120MHz S (by omega) (by omega)
  have hd : d ≤ 60000000 := by
    rw [a5]
    exact Nat.lt_succ_iff.1 ((Nat.div_lt_iff_lt_mul (by omega)).2 (by omega))
  have he1 : e1 < 27 := Nat.lt_succ_of_le (a14 26 (by omega))
  have hiff : d ≤ 512 ↔ e1 ≤ 9 := by
    constructor
    · intro h
      exact a14 9 (by omega)
    · intro h
      have : 2 ^ e1 ≤ 2 ^ 9 := Nat.pow_le_pow_right (by norm_num) h
      omega
  have ht := clock_scale_again e1 he1
  cases hc : clock_scale 120000000 (120000000 >>> e1) with
  | error f =>
    rw [hc] at ht
    exact absurd ht (by simp [Except.toOption])
  | ok e2 =>
    rw [hc] at ht
    have hprop : (e1 ≤ 9 → e2 = e1) ∧
        (9 < e1 → e1 < e2 ∧ 120000000 >>> e2 < 120000000 >>> e1) :=
      of_decide_eq_true (Option.some.inj ht)
    rw [loongson_spi_set_speed_eq priv hw S (by omega)]
    obtain ⟨hw1, hs1, _, _⟩ :=
      loongson_spi_master_setup_scale { priv with speed := S } hw cs e1
        (by rw [hfreq]; exact a4)
    have hc2 : clock_scale priv.sys_freq (priv.sys_freq >>> e1) = .ok e2 := by
      rw [hfreq]
      exact hc
    refine ⟨e1, e2, _, hw1, a4, hs1, ?_, hc2, ?_, ?_⟩
    · show priv.sys_freq >>> e1 = 120000000 >>> e1
      rw [hfreq]
    · rw [← a5]
      exact hiff
    · intro hwx
      obtain ⟨hw2, hs2, _, _⟩ :=
        loongson_spi_master_setup_scale { priv with speed := priv.sys_freq >>> e1 } hwx cs e2 hc2
      refine ⟨_, hw2, hs2, ?_, ?_, ?_⟩
      · show priv.sys_freq >>> e2 = 120000000 >>> e2
        rw [hfreq]
      · show (e2 = e1 ∧ priv.sys_freq >>> e2 = priv.sys_freq >>> e1) ↔ _
        rw [← a5, hfreq]
        constructor
        · rintro ⟨he, _⟩
          by_contra hcon
          have := (hprop.2 (by omega)).1
          omega
        · intro hle
          have := hprop.1 (hiff.1 hle)
          subst this
          exact ⟨rfl, rfl⟩
      · show _ → e1 < e2 ∧ priv.sys_freq >>> e2 < priv.sys_freq >>> e1
        rw [← a5, hfreq]
        intro hn
        exact hprop.2 (by omega)

theorem loongson_spi_master_setup_twice_witness :
    ∃ e1 e2 p1 hw1,
      clock_scale 120000000 1000 = .ok e1 ∧
      loongson_spi_master_setup
        (loongson_spi_set_speed ⟨0x1fe80000, 120000000, 0, 0⟩ zero_bank 1000).2.1
        (loongson_spi_set_speed ⟨0x1fe80000, 120000000, 0, 0⟩ zero_bank 1000).2.2 0 =
          .ok (p1, hw1) ∧
      p1.speed = 120000000 >>> e1 ∧
      clock_scale p1.sys_freq p1.speed = .ok e2 ∧
      ((120000000 + 1000 - 1) / 1000 ≤ 512 ↔ e1 ≤ 9) ∧
      ∀ hwx : Bank, ∃ p2 hw2,
        loongson_spi_master_setup p1 hwx 0 = .ok (p2, hw2) ∧
        p2.speed = 120000000 >>> e2 ∧
        ((e2 = e1 ∧ p2.speed = p1.speed) ↔ (120000000 + 1000 - 1) / 1000 ≤ 512) ∧
        (¬ (120000000 + 1000 - 1) / 1000 ≤ 512 → e1 < e2 ∧ p2.speed < p1.speed) :=
  loongson_spi_master_setup_twice ⟨0x1fe80000, 120000000, 0, 0⟩ zero_bank 0 1000 rfl
    (by decide) (by decide)

/-- The two regimes of C19 on concrete requests: 25 MHz is stable (exponent 3
both times), 1 kHz is not (exponent 17, speed 915, then exponent 18, speed 457). -/
theorem clock_scale_twice_examples :
    (clock_scale 120000000 25000000).toOption = some 3 ∧
    (clock_scale 120000000 (120000000 >>> 3)).toOption = some 3 ∧
    (clock_scale 120000000 1000).toOption = some 17 ∧
    120000000 >>> 17 = 915 ∧
    (clock_scale 120000000 915).toOption = some 18 ∧
    120000000 >>> 18 = 457 := by
  decide

/-! ## SPI: transfers without BEGIN, and the chip selects at rest -/

theorem mem_byte_traces (blocks : List (Nat × List Nat × Nat)) (off v : Nat)
    (h : Access.wr off v ∈ (blocks.map byte_trace).flatten) : off = SPDR := by
  rw [List.mem_flatten] at h
  obtain ⟨l, hl, hm⟩ := h
  rw [List.mem_map] at hl
  obtain ⟨b, _, rfl⟩ := hl
  rw [byte_trace, List.mem_cons, List.mem_append, List.mem_map, List.mem_singleton] at hm
  rcases hm with hm | ⟨x, _, hm⟩ | hm
  · injection hm with h1 _
  · exact Access.noConfusion hm
  · exact Access.noConfusion hm

/-- C17: a transfer on a valid chip select without the BEGIN flag, in an
environment that lets it complete, returns 0, leaves the recorded speed and
mode (the whole instance) as they were, leaves SPCR, SPSR, SPER, SFC_PARAM and
SFC_TIMING as they were, and writes only SPDR and, with END, SFC_SOFTCS;
without END it leaves SFC_SOFTCS as it was and writes only SPDR. -/
theorem loongson_spi_xfer_no_begin (priv : loongson_spi) (hw : Bank) (cs : Int) (bitlen : Nat)
    (dout din : Option (List Nat)) (flags : Nat) (hcs : 0 ≤ cs ∧ cs < 4)
    (hb : flags &&& SPI_XFER_BEGIN = 0)
    (hr : ready ((bitlen % 2 ^ 32) >>> 3) hw dout din) :
    ∃ hw' din' trace,
      loongson_spi_xfer priv hw cs bitlen dout din flags = .ok (0, priv, hw', din') ∧
      hw'.spcr = hw.spcr ∧ hw'.spsr = hw.spsr ∧ hw'.sper = hw.sper ∧
      hw'.sfc_param = hw.sfc_param ∧ hw'.sfc_timing = hw.sfc_timing ∧
      hw'.log = hw.log ++ trace ∧
      (∀ off v, Access.wr off v ∈ trace →
        off ≠ SPCR ∧ off ≠ SPSR ∧ off ≠ SPER ∧
        (off = SPDR ∨ (flags &&& SPI_XFER_END ≠ 0 ∧ off = SFC_SOFTCS))) ∧
      (flags &&& SPI_XFER_END = 0 →
        hw'.sfc_softcs = hw.sfc_softcs ∧ ∀ off v, Access.wr off v ∈ trace → off = SPDR) := by
  have hnb : ¬ flags &&& SPI_XFER_BEGIN ≠ 0 := fun h => h hb
  obtain ⟨priv', hw', din', h⟩ := loongson_spi_xfer_returns priv hw cs bitlen dout din flags hcs
    (fun h => absurd hb h) hr
  obtain ⟨s, blocks, hs, hp, h1, h2, h3, h4, h5, h6, h7, _⟩ :=
    loongson_spi_xfer_regs priv priv' hw hw' cs bitlen dout din din' flags 0 hcs h
  rw [if_neg hnb] at hs
  have hs' : s = (priv, hw) := by
    injection hs with hs
    exact hs.symm
  subst hs'
  have hp' : priv' = priv := hp
  subst hp'
  have hmem : ∀ off v, Access.wr off v ∈ ((blocks.map byte_trace).flatten ++
        (if flags &&& SPI_XFER_END ≠ 0
          then [Access.rd SFC_SOFTCS (hw.sfc_softcs % 256),
            Access.wr SFC_SOFTCS ((hw.sfc_softcs % 256 ||| 1 <<< (cs + 4).toNat) % 256)]
          else [])) →
      off = SPDR ∨ (flags &&& SPI_XFER_END ≠ 0 ∧ off = SFC_SOFTCS) := by
    intro off v hm
    rw [List.mem_append] at hm
    rcases hm with hm | hm
    · exact Or.inl (mem_byte_traces blocks off v hm)
    · by_cases he : flags &&& SPI_XFER_END ≠ 0
      · rw [if_pos he, List.mem_cons, List.mem_singleton] at hm
        rcases hm with hm | hm
        · exact Access.noConfusion hm
        · injection hm with h1 _
          exact Or.inr ⟨he, h1⟩
      · rw [if_neg he] at hm
        exact absurd hm (List.not_mem_nil _)
  refine ⟨hw', din', _, h, h1, h2, h3, h4, h5, h7, ?_, ?_⟩
  · intro off v hm
    rcases hmem off v hm with ho | ⟨he, ho⟩
    · subst ho
      exact ⟨by decide, by decide, by decide, Or.inl rfl⟩
    · subst ho
      exact ⟨by decide, by decide, by decide, Or.inr ⟨he, rfl⟩⟩
  · intro he
    have hne : ¬ flags &&& SPI_XFER_END ≠ 0 := fun h => h he
    rw [if_neg hne] at h6
    refine ⟨h6, ?_⟩
    intro off v hm
    rcases hmem off v hm with ho | ⟨he', _⟩
    · exact ho
    · exact absurd he he'

theorem loongson_spi_xfer_no_begin_witness :
    ∃ hw' din' trace,
      loongson_spi_xfer ⟨0x1fe80000, 120000000, 0, 15000000⟩ zero_bank 0 16
        (some [0x12, 0x34]) none 0 =
          .ok (0, ⟨0x1fe80000, 120000000, 0, 15000000⟩, hw', din') ∧
      hw'.spcr = zero_bank.spcr ∧ hw'.spsr = zero_bank.spsr ∧ hw'.sper = zero_bank.sper ∧
      hw'.sfc_param = zero_bank.sfc_param ∧ hw'.sfc_timing = zero_bank.sfc_timing ∧
      hw'.log = zero_bank.log ++ trace ∧
      (∀ off v, Access.wr off v ∈ trace →
        off ≠ SPCR ∧ off ≠ SPSR ∧ off ≠ SPER ∧
        (off = SPDR ∨ (0 &&& SPI_XFER_END ≠ 0 ∧ off = SFC_SOFTCS))) ∧
      (0 &&& SPI_XFER_END = 0 →
        hw'.sfc_softcs = zero_bank.sfc_softcs ∧
          ∀ off v, Access.wr off v ∈ trace → off = SPDR) :=
  loongson_spi_xfer_no_begin ⟨0x1fe80000, 120000000, 0, 15000000⟩ zero_bank 0 16
    (some [0x12, 0x34]) none 0 (by decide) (by decide)
    ⟨Or.inl (by decide), fun l h => by
      injection h with h
      subst h
      decide, fun l h => Option.noConfusion h⟩

/-- The chip-select bits of SFC_SOFTCS after a returning transfer on a valid
chip select: END sets bit `cs + 4`, BEGIN without END clears it, and the other
bits of the high nibble are as before. -/
theorem loongson_spi_xfer_lines (priv priv' : loongson_spi) (hw hw' : Bank) (cs : Int)
    (bitlen : Nat) (dout din din' : Option (List Nat)) (flags : Nat) (r : Int)
    (hcs : 0 ≤ cs ∧ cs < 4) (hv : hw.sfc_softcs < 256)
    (h : loongson_spi_xfer priv hw cs bitlen dout din flags = .ok (r, priv', hw', din')) :
    hw'.sfc_softcs < 256 ∧ ∀ i < 4, hw'.sfc_softcs.testBit (i + 4) =
      if flags &&& SPI_XFER_END ≠ 0 then (hw.sfc_softcs.testBit (i + 4) || decide (i = cs.toNat))
      else if flags &&& SPI_XFER_BEGIN ≠ 0
        then (hw.sfc_softcs.testBit (i + 4) && decide (i ≠ cs.toNat))
      else hw.sfc_softcs.testBit (i + 4) := by
  obtain ⟨hc4, hclt⟩ := cs_bit cs hcs
  have hset : ∀ i < 4, ((hw.sfc_softcs ||| 1 <<< (cs.toNat + 4)) % 256).testBit (i + 4) =
      (hw.sfc_softcs.testBit (i + 4) || decide (i = cs.toNat)) := by
    intro i hi
    rw [softcs_set_bits _ hv _ hclt (i + 4) (by omega)]
    congr 1
    simp
  have hclr : ∀ i < 4, ((hw.sfc_softcs &&& not32 (1 <<< (cs.toNat + 4))) % 256).testBit (i + 4) =
      (hw.sfc_softcs.testBit (i + 4) && decide (i ≠ cs.toNat)) := by
    intro i hi
    rw [softcs_clear_bits _ hv _ hclt (i + 4) (by omega)]
    congr 1
    simp
  by_cases hb : flags &&& SPI_XFER_BEGIN ≠ 0
  · obtain ⟨d, p, _, _, _, _, _, _, hsoft⟩ :=
      loongson_spi_xfer_begin priv priv' hw hw' cs bitlen dout din din' flags r hcs hb h
    rw [hc4, Nat.mod_eq_of_lt hv] at hsoft
    by_cases he : flags &&& SPI_XFER_END ≠ 0
    · rw [if_pos he, softcs_set_clear _ hv _ hclt] at hsoft
      rw [hsoft]
      refine ⟨Nat.mod_lt _ (by norm_num), fun i hi => ?_⟩
      rw [if_pos he]
      exact hset i hi
    · rw [if_neg he] at hsoft
      rw [hsoft]
      refine ⟨Nat.mod_lt _ (by norm_num), fun i hi => ?_⟩
      rw [if_neg he, if_pos hb]
      exact hclr i hi
  · obtain ⟨s, blocks, hs, _, _, _, _, _, _, hsoft, _⟩ :=
      loongson_spi_xfer_regs priv priv' hw hw' cs bitlen dout din din' flags r hcs h
    rw [if_neg hb] at hs
    have hs' : s = (priv, hw) := by
      injection hs with hs
      exact hs.symm
    subst hs'
    have hsoft' : hw'.sfc_softcs = if flags &&& SPI_XFER_END ≠ 0
        then (hw.sfc_softcs % 256 ||| 1 <<< (cs + 4).toNat) % 256 else hw.sfc_softcs := hsoft
    rw [hc4, Nat.mod_eq_of_lt hv] at hsoft'
    by_cases he : flags &&& SPI_XFER_END ≠ 0
    · rw [if_pos he] at hsoft'
      rw [hsoft']
      refine ⟨Nat.mod_lt _ (by norm_num), fun i hi => ?_⟩
      rw [if_pos he]
      exact hset i hi
    · rw [if_neg he] at hsoft'
      rw [hsoft']
      refine ⟨hv, fun i hi => ?_⟩
      rw [if_neg he, if_neg hb]

/-- One step of the framing discipline keeps the chip-select lines in step
with the asserted chip select. -/
theorem lines_ok_step (v v' : Nat) (a a1 : Option Nat) (c : Nat) (B E : Prop)
    [Decidable B] [Decidable E] (hc : c < 4) (hl : lines_ok v a) (hv' : v' < 256)
    (hbits : ∀ i < 4, v'.testBit (i + 4) =
      if E then (v.testBit (i + 4) || decide (i = c))
      else if B then (v.testBit (i + 4) && decide (i ≠ c))
      else v.testBit (i + 4))
    (hstep : (if B then (if a = none then some (if E then none else some c) else none)
      else if E ∧ a = some c then some none else some a) = some a1) :
    lines_ok v' a1 := by
  obtain ⟨_, hcok, hb⟩ := hl
  by_cases hB : B
  · rw [if_pos hB] at hstep
    by_cases ha : a = none
    · rw [if_pos ha] at hstep
      subst ha
      by_cases hE : E
      · rw [if_pos hE] at hstep
        injection hstep with hstep
        subst hstep
        refine ⟨hv', fun c h => Option.noConfusion h, fun i hi => ?_⟩
        rw [hbits i hi, if_pos hE, hb i hi]
        simp
      · rw [if_neg hE] at hstep
        injection hstep with hstep
        subst hstep
        refine ⟨hv', fun c' h => ?_, fun i hi => ?_⟩
        · injection h with h
          omega
        · rw [hbits i hi, if_neg hE, if_pos hB, hb i hi]
          simp
          exact eq_comm
    · rw [if_neg ha] at hstep
      exact Option.noConfusion hstep
  · rw [if_neg hB] at hstep
    by_cases hE : E
    · by_cases ha : a = some c
      · rw [if_pos ⟨hE, ha⟩] at hstep
        injection hstep with hstep
        subst hstep
        subst ha
        refine ⟨hv', fun c h => Option.noConfusion h, fun i hi => ?_⟩
        rw [hbits i hi, if_pos hE, hb i hi]
        by_cases hic : i = c
        · simp [hic]
        · have : ¬ c = i := fun h => hic h.symm
          simp [hic, this]
      · rw [if_neg (fun h => ha h.2)] at hstep
        injection hstep with hstep
        subst hstep
        refine ⟨hv', hcok, fun i hi => ?_⟩
        rw [hbits i hi, if_pos hE, hb i hi]
        by_cases hic : i = c
        · subst hic
          simp [ha]
        · simp [hic]
    · rw [if_neg (fun h => hE h.1)] at hstep
      injection hstep with hstep
      subst hstep
      refine ⟨hv', hcok, fun i hi => ?_⟩
      rw [hbits i hi, if_neg hE, if_neg hB, hb i hi]

/-- Any returning sequence of calls that keeps the framing discipline keeps the
chip-select lines in step with the asserted chip select. -/
theorem run_calls_lines (calls : List spi_call) :
    ∀ (s s' : loongson_spi × Bank) (a a' : Option Nat),
      lines_ok s.2.sfc_softcs a → framing a calls = some a' → run_calls s calls = .ok s' →
      lines_ok s'.2.sfc_softcs a' := by
  induction calls with
  | nil =>
    intro s s' a a' hl hf hr
    rw [framing] at hf
    rw [run_calls] at hr
    injection hf with hf
    injection hr with hr
    subst hf
    subst hr
    exact hl
  | cons c rest ih =>
    intro s s' a a' hl hf hr
    rw [framing] at hf
    cases c with
    | set_speed hz =>
      rw [run_calls] at hr
      exact ih (loongson_spi_set_speed s.1 s.2 hz).2 s' a a' hl hf hr
    | set_mode m =>
      rw [run_calls] at hr
      exact ih (loongson_spi_set_mode s.1 s.2 m).2 s' a a' hl hf hr
    | xfer cs bitlen dout din flags =>
      rw [run_calls] at hr
      obtain ⟨r, hx, hr⟩ := bind_eq_ok _ _ _ hr
      obtain ⟨ret, priv', hw', din'⟩ := r
      cases hfs : frame_step a (spi_call.xfer cs bitlen dout din flags) with
      | none =>
        rw [hfs] at hf
        exact Option.noConfusion hf
      | some a1 =>
        rw [hfs] at hf
        refine ih (priv', hw') s' a1 a' ?_ hf hr
        rw [frame_step] at hfs
        by_cases hcs : 0 ≤ cs ∧ cs < 4
        · rw [if_pos hcs] at hfs
          obtain ⟨hv', hbits⟩ :=
            loongson_spi_xfer_lines s.1 priv' s.2 hw' cs bitlen dout din din' flags ret hcs hl.1 hx
          exact lines_ok_step s.2.sfc_softcs hw'.sfc_softcs a a1 cs.toNat
            (flags &&& SPI_XFER_BEGIN ≠ 0) (flags &&& SPI_XFER_END ≠ 0)
            (cs_bit cs hcs).2 hl hv' hbits hfs
        · rw [if_neg hcs] at hfs
          rw [loongson_spi_xfer_invalid s.1 s.2 cs bitlen dout din flags hcs] at hx
          injection hfs with hfs
          injection hx with hx
          injection hx with _ hx
          injection hx with _ hx
          injection hx with hx _
          subst hfs
          subst hx
          exact hl

/-- C13: a successful probe leaves SFC_SOFTCS = 0xFF.  From there, after any
returning sequence of `set_speed`, `set_mode` and `xfer` calls in which a BEGIN
on a valid chip select comes only when the previous one has been closed by an
END on the same chip select: when no transfer is open, bits 7:4 of SFC_SOFTCS
are all 1; when the transfer begun on `c` is still open, bit `c + 4` is 0 and
the other three of bits 7:4 are 1. -/
theorem loongson_spi_cs_at_rest (priv : loongson_spi) (hw : Bank) (addr : Nat)
    (haddr : addr ≠ 0) :
    (loongson_spi_probe priv hw addr).1 = 0 ∧
    (loongson_spi_probe priv hw addr).2.2.sfc_softcs = 0xff ∧
    ∀ (calls : List spi_call) (s' : loongson_spi × Bank) (a' : Option Nat),
      framing none calls = some a' →
      run_calls ((loongson_spi_probe priv hw addr).2.1, (loongson_spi_probe priv hw addr).2.2)
        calls = .ok s' →
      s'.2.sfc_softcs < 256 ∧
      (a' = none → ∀ i < 4, s'.2.sfc_softcs.testBit (i + 4) = true) ∧
      (∀ c, a' = some c → c < 4 ∧ s'.2.sfc_softcs.testBit (c + 4) = false ∧
        ∀ i < 4, i ≠ c → s'.2.sfc_softcs.testBit (i + 4) = true) := by
  have hp : loongson_spi_probe priv hw addr =
      (0, { priv with
              regs := addr
              sys_freq := 120000000 },
        writeb 0xff SFC_SOFTCS (writeb (BIT 0) SFC_PARAM hw)) := by
    simp only [loongson_spi_probe]
    rw [if_neg haddr]
  have hsoft : (loongson_spi_probe priv hw addr).2.2.sfc_softcs = 0xff := by
    rw [hp]
    show (writeb 0xff SFC_SOFTCS (writeb (BIT 0) SFC_PARAM hw)).sfc_softcs = 0xff
    rw [writeb_SFC_SOFTCS]
  refine ⟨by rw [hp], hsoft, ?_⟩
  intro calls s' a' hf hr
  have h0 : lines_ok (loongson_spi_probe priv hw addr).2.2.sfc_softcs none := by
    rw [hsoft]
    exact ⟨by norm_num, fun c h => Option.noConfusion h, by decide⟩
  obtain ⟨hv, hc, hb⟩ := run_calls_lines calls _ s' none a' h0 hf hr
  refine ⟨hv, ?_, ?_⟩
  · intro ha i hi
    rw [hb i hi, ha]
    simp
  · intro c ha
    subst ha
    refine ⟨hc c rfl, ?_, ?_⟩
    · rw [hb c (hc c rfl)]
      simp
    · intro i hi hic
      rw [hb i hi]
      simp
      exact fun h => hic h.symm

/-- Scenario of the spec after probe: set the speed, then `BEGIN` with one
byte, a bare transfer of three bytes, and a bare `END`.  While the transfer is
open SFC_SOFTCS is 0xEF; at the end it is 0xFF again. -/
theorem cs_lines_scenario :
    ((run_calls ((loongson_spi_probe ⟨0, 0, 0, 0⟩ zero_bank 0x1fe80000).2.1,
        (loongson_spi_probe ⟨0, 0, 0, 0⟩ zero_bank 0x1fe80000).2.2)
      [spi_call.set_speed 25000000, spi_call.set_mode 0,
       spi_call.xfer 0 8 (some [0x9f]) none SPI_XFER_BEGIN,
       spi_call.xfer 0 24 none (some [0, 0, 0]) 0]).toOption.map
      fun s => s.2.sfc_softcs) = some 0xef ∧
    ((run_calls ((loongson_spi_probe ⟨0, 0, 0, 0⟩ zero_bank 0x1fe80000).2.1,
        (loongson_spi_probe ⟨0, 0, 0, 0⟩ zero_bank 0x1fe80000).2.2)
      [spi_call.set_speed 25000000, spi_call.set_mode 0,
       spi_call.xfer 0 8 (some [0x9f]) none SPI_XFER_BEGIN,
       spi_call.xfer 0 24 none (some [0, 0, 0]) 0,
       spi_call.xfer 0 0 none none SPI_XFER_END]).toOption.map
      fun s => s.2.sfc_softcs) = some 0xff ∧
    framing none
      [spi_call.set_speed 25000000, spi_call.set_mode 0,
       spi_call.xfer 0 8 (some [0x9f]) none SPI_XFER_BEGIN,
       spi_call.xfer 0 24 none (some [0, 0, 0]) 0] = some (some 0) ∧
    framing none
      [spi_call.set_speed 25000000, spi_call.set_mode 0,
       spi_call.xfer 0 8 (some [0x9f]) none SPI_XFER_BEGIN,
       spi_call.xfer 0 24 none (some [0, 0, 0]) 0,
       spi_call.xfer 0 0 none none SPI_XFER_END] = some none := by
  decide

theorem loongson_spi_cs_at_rest_witness :
    (loongson_spi_probe ⟨0, 0, 0, 0⟩ zero_bank 0x1fe80000).2.2.sfc_softcs = 0xff ∧
    ∃ s', run_calls ((loongson_spi_probe ⟨0, 0, 0, 0⟩ zero_bank 0x1fe80000).2.1,
        (loongson_spi_probe ⟨0, 0, 0, 0⟩ zero_bank 0x1fe80000).2.2)
      [spi_call.set_speed 25000000, spi_call.set_mode 0,
       spi_call.xfer 0 8 (some [0x9f]) none SPI_XFER_BEGIN,
       spi_call.xfer 0 24 none (some [0, 0, 0]) 0,
       spi_call.xfer 0 0 none none SPI_XFER_END] = .ok s' ∧
      ∀ i < 4, s'.2.sfc_softcs.testBit (i + 4) = true := by
  refine ⟨(loongson_spi_cs_at_rest ⟨0, 0, 0, 0⟩ zero_bank 0x1fe80000 (by decide)).2.1, ?_⟩
  cases h : run_calls ((loongson_spi_probe ⟨0, 0, 0, 0⟩ zero_bank 0x1fe80000).2.1,
        (loongson_spi_probe ⟨0, 0, 0, 0⟩ zero_bank 0x1fe80000).2.2)
      [spi_call.set_speed 25000000, spi_call.set_mode 0,
       spi_call.xfer 0 8 (some [0x9f]) none SPI_XFER_BEGIN,
       spi_call.xfer 0 24 none (some [0, 0, 0]) 0,
       spi_call.xfer 0 0 none none SPI_XFER_END] with
  | error f =>
    have hs : (run_calls ((loongson_spi_probe ⟨0, 0, 0, 0⟩ zero_bank 0x1fe80000).2.1,
        (loongson_spi_probe ⟨0, 0, 0, 0⟩ zero_bank 0x1fe80000).2.2)
      [spi_call.set_speed 25000000, spi_call.set_mode 0,
       spi_call.xfer 0 8 (some [0x9f]) none SPI_XFER_BEGIN,
       spi_call.xfer 0 24 none (some [0, 0, 0]) 0,
       spi_call.xfer 0 0 none none SPI_XFER_END]).toOption.isSome = true := by decide
    rw [h] at hs
    exact Bool.noConfusion hs
  | ok s' =>
    exact ⟨s', rfl, ((loongson_spi_cs_at_rest ⟨0, 0, 0, 0⟩ zero_bank 0x1fe80000 (by decide)).2.2
      _ s' none (by decide) h).2.1 rfl⟩

end Loongson
